import Mathlib

/-!
# ContextVision: separable Gaussian blur filter and separable bilateral filter

A shallow embedding of `gstblurfilter.cpp` and `gstbilateralfilter.cpp`.

* C `int` values are `Int` (frame sizes are far from the 32-bit limit, so no wrap-around is
  modelled); C `for` loops are folds over the list of values of the loop variable.
* `float` / `double` values live in an ordered field `K` and arithmetic is exact.  The `libm`
  functions `exp`, `sqrt` and the constant `M_PI` are a parameter (`Libm K`), so that every result
  holds for the real exponential (`K = ℝ`) and the definitions still run on `K = ℚ`.
  `pow (x, 2)` is `x ^ 2`.
* The rounding of the type `float` is modelled apart: the definitions with the suffix `Rnd`
  repeat the loops with a rounding function applied to the result of every `float` operation,
  and `fl32` is the rounding of IEEE 754 binary32.  With the identity as rounding function they
  are the exact definitions.
* A buffer (`float *`, `guint8 *`) is a function from the `Int` offset to the cell; a store is
  `Function.update`.  Freshly allocated `new float[n]` arrays start with arbitrary contents,
  passed in as `Scratch`.
* A `guint8` cell of an input plane holds a `Nat`; a cell of an output plane holds
  `Option Nat`, where `none` is the result of a `float → guint8` conversion that C leaves
  undefined (integral part outside `0 .. 255`).
-/

namespace ContextVision

/-! ## Loops and stores -/

/-- Values taken, in order, by the variable of `for (int i = lo; i < hi; ++i)`. -/
def intRange (lo hi : Int) : List Int :=
  (List.range (hi - lo).toNat).map (fun (n : Nat) => lo + (n : Int))

/-- Runs `for (int i = lo; i < hi; ++i) body`, threading the state. -/
def forLoop {σ : Type} (lo hi : Int) (body : Int → σ → σ) (s : σ) : σ :=
  (intRange lo hi).foldl (fun st i => body i st) s

/-- The store `buf[i] = v`. -/
def store {α : Type} (buf : Int → α) (i : Int) (v : α) : Int → α :=
  Function.update buf i v

/-! ## Numeric conversions and the maths library -/

/-- The functions and the constant of `<cmath>` used by the two filters. -/
structure Libm (K : Type) where
  /-- The function `exp`. -/
  exp : K → K
  /-- The function `sqrt`. -/
  sqrt : K → K
  /-- The constant `M_PI`. -/
  M_PI : K

/-- Conversion `float → int`: truncation toward zero. -/
def truncInt {K : Type} [LinearOrderedField K] [FloorRing K] (v : K) : Int :=
  if 0 ≤ v then ⌊v⌋ else ⌈v⌉

/-- Conversion `float → guint8` done by a store into an output plane: truncation toward zero;
undefined (`none`) when the integral part is not in `0 .. 255`. -/
def toByte {K : Type} [LinearOrderedField K] [FloorRing K] (v : K) : Option Nat :=
  if -1 < v ∧ v < 256 then some (truncInt v).toNat else none

/-! ## Frames -/

/-- One component plane of a `GstVideoFrame`: `GST_VIDEO_FRAME_COMP_DATA`,
`GST_VIDEO_FRAME_PLANE_STRIDE`, `GST_VIDEO_FRAME_COMP_WIDTH`, `GST_VIDEO_FRAME_COMP_HEIGHT` and
`GST_VIDEO_FRAME_COMP_DEPTH`. -/
structure Plane (α : Type) where
  /-- The bytes of the plane, by offset. -/
  data : Int → α
  /-- Bytes per row. -/
  stride : Int
  /-- Samples per row. -/
  width : Int
  /-- Number of rows. -/
  height : Int
  /-- Bits per sample. -/
  depth : Int

/-- A planar I420 video frame: components 0 (Y), 1 (U) and 2 (V). -/
structure GstVideoFrame (α : Type) where
  /-- Component 0, luma. -/
  Y : Plane α
  /-- Component 1, chroma U. -/
  U : Plane α
  /-- Component 2, chroma V. -/
  V : Plane α

/-- Contents of the arrays obtained from `new float[...]` before they are written. -/
structure Scratch (K : Type) where
  /-- The array `kernel`. -/
  kernel : Int → K
  /-- The array `preimage`. -/
  preimage : Int → K
  /-- The array `postimage`. -/
  postimage : Int → K
  /-- The array `tempimage` of `xyconvolution`. -/
  tempimage : Int → K

/-- Modelled from the spec: `gst_video_frame_copy_plane (dest, src, 0)` is a GStreamer library
call whose code is not in the repository; "the luma plane is copied verbatim from input to
output": every row of the source plane is copied, sample by sample, to the same row of the
destination plane, each plane using its own stride. -/
def gst_video_frame_copy_plane (dest : Plane (Option Nat)) (src : Plane Nat) : Int → Option Nat :=
  forLoop 0 src.height (fun y d =>
    forLoop 0 src.width (fun x d =>
      store d (y * dest.stride + x) (some (src.data (y * src.stride + x)))) d) dest.data

/-- The loop nest "Copy the inframe to preimage and zero-pad it with kernelradius in each
direction", identical in `gst_blur_filter_convolution` (lines 392-403) and in
`gst_bilateral_filter_convolution` (lines 362-373). -/
def padPreimage {K : Type} [LinearOrderedField K] (s : Int → Nat)
    (src_y_stride src_y_width src_y_height kernelradius kernelsize : Int)
    (preimage : Int → K) : Int → K :=
  forLoop 0 (src_y_height + kernelsize - 1) (fun y preimage =>
    forLoop 0 (src_y_width + kernelsize - 1) (fun x preimage =>
      if x ≥ kernelradius ∧ x < src_y_width + kernelradius ∧ y ≥ kernelradius
          ∧ y < src_y_height + kernelradius then
        store preimage (y * (src_y_width + kernelsize - 1) + x)
          ((s ((y - kernelradius) * src_y_stride + x - kernelradius) : Nat) : K)
      else
        store preimage (y * (src_y_width + kernelsize - 1) + x) 0) preimage) preimage

/-- The two loop nests "Each pixel in the UV-colour plane is set to 128 to ensure greyscale":
`d[y*stride + x] = pow (2, depth - 1)` over a chroma plane of the output frame; `depth` is the
depth of the same component of the input frame. -/
def neutralChroma (K : Type) [LinearOrderedField K] [FloorRing K]
    (d : Int → Option Nat) (dest_stride dest_width dest_height src_depth : Int) :
    Int → Option Nat :=
  forLoop 0 dest_height (fun y d =>
    forLoop 0 dest_width (fun x d =>
      store d (y * dest_stride + x) (toByte ((2 : K) ^ (src_depth - 1)))) d) d

/-! ## The blur filter (`gstblurfilter.cpp`) -/

namespace Blur

/-- The element state `struct _GstBlurFilter`: `double sigma; int filtering;`. -/
structure GstBlurFilter (K : Type) where
  /-- Standard deviation of the Gaussian. -/
  sigma : K
  /-- Mode: 1 high pass, -1 low pass, 0 off. -/
  filtering : Int

/-- `float gaussian1d (float sigma, int x)`:
`1 / (sqrt(2 * M_PI)*sigma)*exp(-(pow(x, 2)) / (2 * pow(sigma,2)))`. -/
def gaussian1d {K : Type} [LinearOrderedField K] (m : Libm K) (sigma : K) (x : Int) : K :=
  1 / (m.sqrt (2 * m.M_PI) * sigma) * m.exp (-((x : K) ^ 2) / (2 * sigma ^ 2))

/-- The value `tmp` accumulated for the cell `(x, y)` by the first loop nest of
`xyconvolution`, including its (redundant) range test. -/
def xtmp {K : Type} [LinearOrderedField K] (preimage kernel : Int → K)
    (kernelsize width kernelradius y x : Int) : K :=
  if x ≥ kernelradius ∧ x < width - kernelradius then
    forLoop 0 kernelsize
      (fun k tmp => tmp + preimage (y * width + x + k - kernelradius) * kernel k) 0
  else 0

/-- First loop nest of `xyconvolution`: convolution in the x-dim into `tempimage`. -/
def xsweep {K : Type} [LinearOrderedField K] (tempimage preimage kernel : Int → K)
    (kernelsize width height : Int) (weight : K) : Int → K :=
  let kernelradius := (kernelsize - 1).tdiv 2
  forLoop 0 height (fun y tempimage =>
    forLoop kernelradius (width - kernelradius) (fun x tempimage =>
      store tempimage (y * width + x)
        (xtmp preimage kernel kernelsize width kernelradius y x / weight)) tempimage) tempimage

/-- The value `tmp` accumulated for the cell `(x, y)` by the second loop nest of
`xyconvolution`. -/
def ytmp {K : Type} [LinearOrderedField K] (tempimage kernel : Int → K)
    (kernelsize width kernelradius y x : Int) : K :=
  forLoop 0 kernelsize
    (fun k tmp => tmp + tempimage ((y + k - kernelradius) * width + x) * kernel k) 0

/-- Second loop nest of `xyconvolution`: convolution in the y-dim of the intermediate image
into `postimage`. -/
def ysweep {K : Type} [LinearOrderedField K] (tempimage postimage kernel : Int → K)
    (kernelsize width height : Int) (weight : K) : Int → K :=
  let kernelradius := (kernelsize - 1).tdiv 2
  forLoop kernelradius (height - kernelradius) (fun y postimage =>
    forLoop kernelradius (width - kernelradius) (fun x postimage =>
      store postimage (y * width + x)
        (ytmp tempimage kernel kernelsize width kernelradius y x / weight)) postimage) postimage

/-- `static void xyconvolution (float * preimage, float * postimage, float * kernel,
int kernelsize, int width, int height, float weight)`; the result is the final `postimage`.
`tempimage` is the initial content of the array allocated inside. -/
def xyconvolution {K : Type} [LinearOrderedField K] (tempimage : Int → K)
    (preimage postimage kernel : Int → K) (kernelsize width height : Int) (weight : K) :
    Int → K :=
  ysweep (xsweep tempimage preimage kernel kernelsize width height weight) postimage kernel
    kernelsize width height weight

/-- The loop "Compute and save the 1-dim kernel and its normalizing weight"; the state is the
pair `(kernel, kernelweight)`. -/
def buildKernel {K : Type} [LinearOrderedField K] (m : Libm K) (sigma : K)
    (kernelradius kernelsize : Int) (kernel : Int → K) : (Int → K) × K :=
  forLoop 0 kernelsize (fun i st =>
    let kernel := store st.1 i (gaussian1d m sigma (i - kernelradius))
    (kernel, st.2 + kernel i)) (kernel, 0)

/-- The value assigned to `d[y*dest_y_stride + x]` by the combiner, before its conversion to a
byte: `s[..] + filtering * (s[..] - postimage[..])`. -/
def combine {K : Type} [LinearOrderedField K] (s : Int → Nat) (postimage : Int → K)
    (filtering src_y_stride src_y_width kernelradius kernelsize y x : Int) : K :=
  (s (y * src_y_stride + x) : K) + (filtering : K) * ((s (y * src_y_stride + x) : K)
    - postimage ((y + kernelradius) * (src_y_width + kernelsize - 1) + x + kernelradius))

/-- The loop nest writing the luma plane of the output frame from `postimage`. -/
def writeLuma {K : Type} [LinearOrderedField K] [FloorRing K] (s : Int → Nat)
    (postimage : Int → K)
    (filtering src_y_stride src_y_width kernelradius kernelsize : Int)
    (dest_y_stride dest_y_width dest_y_height : Int) (d : Int → Option Nat) :
    Int → Option Nat :=
  forLoop 0 dest_y_height (fun y d =>
    forLoop 0 dest_y_width (fun x d =>
      store d (y * dest_y_stride + x)
        (toByte (combine s postimage filtering src_y_stride src_y_width kernelradius
          kernelsize y x))) d) d

/-- The array `postimage` handed to the combiner by `gst_blur_filter_convolution` when
`filtering != 0`: kernel, zero padding, `xyconvolution`. -/
def convolved {K : Type} [LinearOrderedField K] [FloorRing K] (m : Libm K) (heap : Scratch K)
    (blurfilter : GstBlurFilter K) (src : GstVideoFrame Nat) : Int → K :=
  let sigma := blurfilter.sigma
  let kernelradius : Int := truncInt (2 * sigma)
  let kernelsize : Int := 2 * kernelradius + 1
  let kw := buildKernel m sigma kernelradius kernelsize heap.kernel
  let preimage := padPreimage src.Y.data src.Y.stride src.Y.width src.Y.height
    kernelradius kernelsize heap.preimage
  xyconvolution heap.tempimage preimage heap.postimage kw.1 kernelsize
    (src.Y.width + kernelsize - 1) (src.Y.height + kernelsize - 1) kw.2

/-- `static void gst_blur_filter_convolution (GstBlurFilter * blurfilter,
GstVideoFrame * dest, const GstVideoFrame * src)`; the result is the output frame. -/
def gst_blur_filter_convolution {K : Type} [LinearOrderedField K] [FloorRing K] (m : Libm K)
    (heap : Scratch K) (blurfilter : GstBlurFilter K) (dest : GstVideoFrame (Option Nat))
    (src : GstVideoFrame Nat) : GstVideoFrame (Option Nat) :=
  let filtering := blurfilter.filtering
  let kernelradius : Int := truncInt (2 * blurfilter.sigma)
  let kernelsize : Int := 2 * kernelradius + 1
  let dY :=
    if filtering = 0 then
      gst_video_frame_copy_plane dest.Y src.Y
    else
      writeLuma src.Y.data (convolved m heap blurfilter src) filtering src.Y.stride
        src.Y.width kernelradius kernelsize dest.Y.stride dest.Y.width dest.Y.height
        dest.Y.data
  let dU := neutralChroma K dest.U.data dest.U.stride dest.U.width dest.U.height src.U.depth
  let dV := neutralChroma K dest.V.data dest.V.stride dest.V.width dest.V.height src.V.depth
  { Y := { dest.Y with data := dY }
    U := { dest.U with data := dU }
    V := { dest.V with data := dV } }

end Blur

/-! ## The bilateral filter (`gstbilateralfilter.cpp`) -/

namespace Bilateral

/-- Modelled from the spec: the element state `struct _GstBilateralFilter` is declared in
`gstbilateralfilter.h`, which is not in the repository; the parameters are the domain sigma,
the range sigma and the boolean filtering flag. -/
structure GstBilateralFilter (K : Type) where
  /-- Standard deviation of the domain kernel. -/
  sigmad : K
  /-- Standard deviation of the range kernel. -/
  sigmar : K
  /-- Whether the filter is active. -/
  filtering : Bool

/-- `float gaussian1d (float sigma, float x)`:
`exp(-(pow(x, 2) / (2 * pow(sigma, 2))))`. -/
def gaussian1d {K : Type} [LinearOrderedField K] (m : Libm K) (sigma x : K) : K :=
  m.exp (-(x ^ 2 / (2 * sigma ^ 2)))

/-- One turn of the tap loop of `xyconvolution`: `pixb` is the tap, `pixa` the centre sample;
the state is the pair `(tmp, wp)`. -/
def tapStep {K : Type} [LinearOrderedField K] (m : Libm K) (kernel : Int → K) (sigmar : K)
    (kernelradius : Int) (pixa : K) (tap : Int → K) (k : Int) (st : K × K) : K × K :=
  let pixb := tap k
  let w := kernel (k + kernelradius) * gaussian1d m sigmar (pixa - pixb)
  (st.1 + pixb * w, st.2 + w)

/-- The tap loop `for (int k = -kernelradius; k <= kernelradius; ++k)` of `xyconvolution`,
started from `tmp = 0`, `wp = 0`, followed by the quotient `tmp / wp`. -/
def tapLoop {K : Type} [LinearOrderedField K] (m : Libm K) (kernel : Int → K) (sigmar : K)
    (kernelradius : Int) (pixa : K) (tap : Int → K) : K :=
  let st := forLoop (-kernelradius) (kernelradius + 1)
    (tapStep m kernel sigmar kernelradius pixa tap) (0, 0)
  st.1 / st.2

/-- First loop nest of `xyconvolution`: the x-dim sweep of `preimage` into `tempimage`. -/
def xsweep {K : Type} [LinearOrderedField K] (m : Libm K) (tempimage preimage kernel : Int → K)
    (sigmar : K) (kernelsize width height : Int) : Int → K :=
  let kernelradius := (kernelsize - 1).tdiv 2
  forLoop 0 height (fun y tempimage =>
    forLoop kernelradius (width - kernelradius) (fun x tempimage =>
      store tempimage (y * width + x)
        (tapLoop m kernel sigmar kernelradius (preimage (y * width + x))
          (fun k => preimage (y * width + x + k)))) tempimage) tempimage

/-- Second loop nest of `xyconvolution`: the y-dim sweep of `tempimage` into `postimage`. -/
def ysweep {K : Type} [LinearOrderedField K] (m : Libm K) (tempimage postimage kernel : Int → K)
    (sigmar : K) (kernelsize width height : Int) : Int → K :=
  let kernelradius := (kernelsize - 1).tdiv 2
  forLoop kernelradius (height - kernelradius) (fun y postimage =>
    forLoop kernelradius (width - kernelradius) (fun x postimage =>
      store postimage (y * width + x)
        (tapLoop m kernel sigmar kernelradius (tempimage (y * width + x))
          (fun k => tempimage ((y + k) * width + x)))) postimage) postimage

/-- `static void xyconvolution (float * preimage, float * postimage, float * kernel,
float sigmar, int kernelsize, int width, int height)`; the result is the final `postimage`.
`tempimage` is the initial content of the array allocated inside. -/
def xyconvolution {K : Type} [LinearOrderedField K] (m : Libm K) (tempimage : Int → K)
    (preimage postimage kernel : Int → K) (sigmar : K) (kernelsize width height : Int) :
    Int → K :=
  ysweep m (xsweep m tempimage preimage kernel sigmar kernelsize width height) postimage kernel
    sigmar kernelsize width height

/-- The loop "Compute and save the 1-dim kernel":
`kernel[i] = gaussian1d (sigmad, (float)i - kernelradius)`. -/
def buildKernel {K : Type} [LinearOrderedField K] (m : Libm K) (sigmad : K)
    (kernelradius kernelsize : Int) (kernel : Int → K) : Int → K :=
  forLoop 0 kernelsize (fun i kernel =>
    store kernel i (gaussian1d m sigmad ((i : K) - (kernelradius : K)))) kernel

/-- The loop nest "Set the convoluted image as the outframe". -/
def writeLuma {K : Type} [LinearOrderedField K] [FloorRing K] (postimage : Int → K)
    (src_y_width kernelradius kernelsize : Int)
    (dest_y_stride dest_y_width dest_y_height : Int) (d : Int → Option Nat) :
    Int → Option Nat :=
  forLoop 0 dest_y_height (fun y d =>
    forLoop 0 dest_y_width (fun x d =>
      store d (y * dest_y_stride + x)
        (toByte (postimage ((y + kernelradius) * (src_y_width + kernelsize - 1) + x
          + kernelradius)))) d) d

/-- The array `postimage` handed to the writer by `gst_bilateral_filter_convolution` when
filtering is on: kernel of radius 2, zero padding, `xyconvolution`. -/
def convolved {K : Type} [LinearOrderedField K] (m : Libm K) (heap : Scratch K)
    (bilateralfilter : GstBilateralFilter K) (src : GstVideoFrame Nat) : Int → K :=
  let kernelradius : Int := 2
  let kernelsize : Int := 2 * kernelradius + 1
  let kernel := buildKernel m bilateralfilter.sigmad kernelradius kernelsize heap.kernel
  let preimage := padPreimage src.Y.data src.Y.stride src.Y.width src.Y.height
    kernelradius kernelsize heap.preimage
  xyconvolution m heap.tempimage preimage heap.postimage kernel bilateralfilter.sigmar
    kernelsize (src.Y.width + kernelsize - 1) (src.Y.height + kernelsize - 1)

/-- `static void gst_bilateral_filter_convolution (GstBilateralFilter * bilateralfilter,
GstVideoFrame * dest, const GstVideoFrame * src)`; the result is the output frame. -/
def gst_bilateral_filter_convolution {K : Type} [LinearOrderedField K] [FloorRing K]
    (m : Libm K) (heap : Scratch K) (bilateralfilter : GstBilateralFilter K)
    (dest : GstVideoFrame (Option Nat)) (src : GstVideoFrame Nat) :
    GstVideoFrame (Option Nat) :=
  let kernelradius : Int := 2
  let kernelsize : Int := 2 * kernelradius + 1
  let dY :=
    if !bilateralfilter.filtering then
      gst_video_frame_copy_plane dest.Y src.Y
    else
      writeLuma (convolved m heap bilateralfilter src) src.Y.width kernelradius kernelsize
        dest.Y.stride dest.Y.width dest.Y.height dest.Y.data
  let dU := neutralChroma K dest.U.data dest.U.stride dest.U.width dest.U.height src.U.depth
  let dV := neutralChroma K dest.V.data dest.V.stride dest.V.width dest.V.height src.V.depth
  { Y := { dest.Y with data := dY }
    U := { dest.U with data := dU }
    V := { dest.V with data := dV } }

end Bilateral


/-! ## Spec-side definitions -/

/-- A rational stand-in for `<cmath>` on which the definitions can be evaluated: its `exp` is
`1` at `0` and positive everywhere, like the exponential. -/
def ratLibm : Libm ℚ where
  exp := fun t => 1 / (1 + t ^ 2)
  sqrt := fun t => t
  M_PI := 3

/-- Scratch arrays filled with zeros. -/
def zeroScratch (K : Type) [LinearOrderedField K] : Scratch K where
  kernel := fun _ => 0
  preimage := fun _ => 0
  postimage := fun _ => 0
  tempimage := fun _ => 0

/-- An I420 frame of depth 8 with `w x h` luma samples and `w/2 x h/2` chroma samples, rows
stored without gap, every plane filled with one value. -/
def flatFrame (α : Type) (cY cU cV : α) (w h : Int) : GstVideoFrame α where
  Y := { data := fun _ => cY, stride := w, width := w, height := h, depth := 8 }
  U := { data := fun _ => cU, stride := w / 2, width := w / 2, height := h / 2, depth := 8 }
  V := { data := fun _ => cV, stride := w / 2, width := w / 2, height := h / 2, depth := 8 }

/-- An I420 frame of depth 8 whose `w x h` luma plane is zero except for the value `A` at
`(x0, y0)`; the chroma planes are zero. -/
def impulseFrame (A : Nat) (w h x0 y0 : Int) : GstVideoFrame Nat where
  Y := { data := fun i => if i = y0 * w + x0 then A else 0,
         stride := w, width := w, height := h, depth := 8 }
  U := { data := fun _ => 0, stride := w / 2, width := w / 2, height := h / 2, depth := 8 }
  V := { data := fun _ => 0, stride := w / 2, width := w / 2, height := h / 2, depth := 8 }

/-! ## Key presses of the blur filter -/

namespace Blur

/-- What the blur element writes with `g_print` in `keypress_handler`. -/
inductive Print (K : Type) where
  /-- The text "High-pass filtering". -/
  | highPass : Print K
  /-- The text "Low-pass filtering". -/
  | lowPass : Print K
  /-- The text "No filter". -/
  | noFilter : Print K
  /-- The text "We should not have come here..". -/
  | shouldNotHaveComeHere : Print K
  /-- The text "Sigma set to", followed by the value. -/
  | sigmaSet : K → Print K

/-- The parameters set by `gst_blur_filter_init`: `filtering = 0`, `sigma = 0.0`. -/
def gst_blur_filter_init (K : Type) [LinearOrderedField K] : GstBlurFilter K where
  sigma := 0
  filtering := 0

/-- `static void keypress_handler (GstBlurFilter * blurfilter, const gchar * key)`; the result
is the new element state and what was printed. -/
def keypress_handler {K : Type} [LinearOrderedField K] (blurfilter : GstBlurFilter K)
    (key : String) : GstBlurFilter K × List (Print K) :=
  if key = "+" then
    let sigma := blurfilter.sigma
    let filtering := blurfilter.filtering
    let r : K × Int × List (Print K) :=
      if filtering = 0 then (1 / 2, 1, [Print.highPass])
      else if filtering = 1 then (sigma + 1 / 2, filtering, [])
      else if filtering = -1 ∧ sigma = 1 / 2 then (0, 0, [Print.noFilter])
      else if filtering = -1 then (sigma - 1 / 2, filtering, [])
      else (sigma, filtering, [Print.shouldNotHaveComeHere])
    ({ sigma := r.1, filtering := r.2.1 }, r.2.2 ++ [Print.sigmaSet r.1])
  else if key = "-" then
    let sigma := blurfilter.sigma
    let filtering := blurfilter.filtering
    let r : K × Int × List (Print K) :=
      if filtering = 0 then (1 / 2, -1, [Print.lowPass])
      else if filtering = -1 then (sigma + 1 / 2, filtering, [])
      else if filtering = 1 ∧ sigma = 1 / 2 then (0, 0, [Print.noFilter])
      else if filtering = 1 then (sigma - 1 / 2, filtering, [])
      else (sigma, filtering, [Print.shouldNotHaveComeHere])
    ({ sigma := r.1, filtering := r.2.1 }, r.2.2 ++ [Print.sigmaSet r.1])
  else (blurfilter, [])

/-- The element state after a sequence of key presses, each handled by `keypress_handler`. -/
def keypresses {K : Type} [LinearOrderedField K] (keys : List String)
    (blurfilter : GstBlurFilter K) : GstBlurFilter K :=
  keys.foldl (fun st key => (keypress_handler st key).1) blurfilter

/-- The two divisors of `gaussian1d`: `sqrt(2 * M_PI)*sigma` and `2 * pow(sigma,2)`. -/
def gaussian1dDivisors {K : Type} [LinearOrderedField K] (m : Libm K) (sigma : K) : K × K :=
  (m.sqrt (2 * m.M_PI) * sigma, 2 * sigma ^ 2)

end Blur

namespace Blur

/-- The invariant of the key-press machine: `sigma` is `n` times `0.5` for a natural number
`n`, and either the filter is off with `n = 0`, or it is in high-pass or low-pass mode with
`n ≥ 1`. -/
def KeyInvariant {K : Type} [LinearOrderedField K] (st : GstBlurFilter K) : Prop :=
  ∃ n : Nat, st.sigma = (n : K) * (1 / 2) ∧
    ((st.filtering = 0 ∧ n = 0) ∨ ((st.filtering = 1 ∨ st.filtering = -1) ∧ 1 ≤ n))

end Blur

/-! ## Indices touched by the sweeps -/

namespace Blur

/-- Indices of `tempimage` written by the first loop nest of `xyconvolution`:
`tempimage[y*width + x]`. -/
def xsweepWrites (kernelsize width height : Int) : List Int :=
  let kernelradius := (kernelsize - 1).tdiv 2
  (intRange 0 height).flatMap fun y =>
    (intRange kernelradius (width - kernelradius)).map fun x => y * width + x

/-- Indices of `postimage` written by the second loop nest of `xyconvolution`:
`postimage[y*width + x]`. -/
def ysweepWrites (kernelsize width height : Int) : List Int :=
  let kernelradius := (kernelsize - 1).tdiv 2
  (intRange kernelradius (height - kernelradius)).flatMap fun y =>
    (intRange kernelradius (width - kernelradius)).map fun x => y * width + x

end Blur

namespace Bilateral

/-- Indices of `tempimage` written by the first loop nest of `xyconvolution`:
`tempimage[y*width + x]`. -/
def xsweepWrites (kernelsize width height : Int) : List Int :=
  let kernelradius := (kernelsize - 1).tdiv 2
  (intRange 0 height).flatMap fun y =>
    (intRange kernelradius (width - kernelradius)).map fun x => y * width + x

/-- Indices of `postimage` written by the second loop nest of `xyconvolution`:
`postimage[y*width + x]`. -/
def ysweepWrites (kernelsize width height : Int) : List Int :=
  let kernelradius := (kernelsize - 1).tdiv 2
  (intRange kernelradius (height - kernelradius)).flatMap fun y =>
    (intRange kernelradius (width - kernelradius)).map fun x => y * width + x

end Bilateral

namespace Bilateral

/-- The pair `(tmp, wp)` at the end of the tap loop of `xyconvolution`, before the quotient
`tmp / wp` is taken; `wp` is the normaliser. -/
def tapSums {K : Type} [LinearOrderedField K] (m : Libm K) (kernel : Int → K) (sigmar : K)
    (kernelradius : Int) (pixa : K) (tap : Int → K) : K × K :=
  forLoop (-kernelradius) (kernelradius + 1)
    (tapStep m kernel sigmar kernelradius pixa tap) (0, 0)

/-- The array `kernel` built by `gst_bilateral_filter_convolution`. -/
def kernelOf {K : Type} [LinearOrderedField K] (m : Libm K) (heap : Scratch K)
    (bilateralfilter : GstBilateralFilter K) : Int → K :=
  buildKernel m bilateralfilter.sigmad 2 (2 * 2 + 1) heap.kernel

/-- The array `preimage` built by `gst_bilateral_filter_convolution`. -/
def preimageOf {K : Type} [LinearOrderedField K] (heap : Scratch K)
    (src : GstVideoFrame Nat) : Int → K :=
  padPreimage src.Y.data src.Y.stride src.Y.width src.Y.height 2 (2 * 2 + 1) heap.preimage

/-- The array `tempimage` after the first loop nest of the `xyconvolution` call made by
`gst_bilateral_filter_convolution`. -/
def tempimageOf {K : Type} [LinearOrderedField K] (m : Libm K) (heap : Scratch K)
    (bilateralfilter : GstBilateralFilter K) (src : GstVideoFrame Nat) : Int → K :=
  xsweep m heap.tempimage (preimageOf heap src) (kernelOf m heap bilateralfilter)
    bilateralfilter.sigmar (2 * 2 + 1) (src.Y.width + (2 * 2 + 1) - 1)
    (src.Y.height + (2 * 2 + 1) - 1)

end Bilateral
/-! ## The type `float`: the two filters with rounding

The definitions so far take arithmetic as exact.  The definitions of this section are the same
loops with the rounding of the C type `float` made explicit.  `rnd` is applied to the result of
every operation that C evaluates in `float`: each `+`, `-`, `*` and `/` between `float` operands
(a `guint8` or `int` operand is converted to `float` first, which is exact for the values of a
frame), and the conversion to `float` of the `double` value computed by the body of
`gaussian1d`.  The body of `gaussian1d`, which C evaluates in `double` with the functions of
`<cmath>`, is taken as exact.  Every operation is evaluated in the format of its type (no
excess precision) and no multiplication is fused with an addition.  With `rnd = id` these are
the definitions above; with `rnd = fl32` they follow IEEE 754 binary32 arithmetic. -/

/-- Rounding to the nearest integer, a tie going to the even neighbour. -/
def roundHalfEven {K : Type} [LinearOrderedField K] [FloorRing K] (y : K) : Int :=
  if y - (⌊y⌋ : K) < 1 / 2 then ⌊y⌋
  else if 1 / 2 < y - (⌊y⌋ : K) then ⌊y⌋ + 1
  else if ⌊y⌋ % 2 = 0 then ⌊y⌋ else ⌊y⌋ + 1

/-- The `float` nearest to `x` (IEEE 754 binary32, round to nearest, ties to even): with
`2 ^ e ≤ |x| < 2 ^ (e + 1)` and `e` no smaller than `-126`, the floats around `x` are the
multiples of `2 ^ (e - 23)`.  Overflow beyond the largest finite `float` is not modelled. -/
def fl32 {K : Type} [LinearOrderedField K] [FloorRing K] (x : K) : K :=
  let e := max (Int.log 2 |x|) (-126)
  (roundHalfEven (x / (2 : K) ^ (e - 23)) : K) * (2 : K) ^ (e - 23)

namespace Blur

/-- `float gaussian1d (float sigma, int x)` with the conversion of the result to `float`. -/
def gaussian1dRnd {K : Type} [LinearOrderedField K] (rnd : K → K) (m : Libm K) (sigma : K)
    (x : Int) : K :=
  rnd (1 / (m.sqrt (2 * m.M_PI) * sigma) * m.exp (-((x : K) ^ 2) / (2 * sigma ^ 2)))

/-- The value `tmp` of the first loop nest of `xyconvolution`:
`tmp += (preimage[y*width + x + k - kernelradius] * kernel[k])` rounds the product, then the
sum. -/
def xtmpRnd {K : Type} [LinearOrderedField K] (rnd : K → K) (preimage kernel : Int → K)
    (kernelsize width kernelradius y x : Int) : K :=
  if x ≥ kernelradius ∧ x < width - kernelradius then
    forLoop 0 kernelsize
      (fun k tmp => rnd (tmp + rnd (preimage (y * width + x + k - kernelradius) * kernel k))) 0
  else 0

/-- First loop nest of `xyconvolution`, the quotient `tmp / weight` rounded. -/
def xsweepRnd {K : Type} [LinearOrderedField K] (rnd : K → K) (tempimage preimage kernel : Int → K)
    (kernelsize width height : Int) (weight : K) : Int → K :=
  let kernelradius := (kernelsize - 1).tdiv 2
  forLoop 0 height (fun y tempimage =>
    forLoop kernelradius (width - kernelradius) (fun x tempimage =>
      store tempimage (y * width + x)
        (rnd (xtmpRnd rnd preimage kernel kernelsize width kernelradius y x / weight)))
      tempimage) tempimage

/-- The value `tmp` of the second loop nest of `xyconvolution`, product and sum rounded. -/
def ytmpRnd {K : Type} [LinearOrderedField K] (rnd : K → K) (tempimage kernel : Int → K)
    (kernelsize width kernelradius y x : Int) : K :=
  forLoop 0 kernelsize
    (fun k tmp => rnd (tmp + rnd (tempimage ((y + k - kernelradius) * width + x) * kernel k))) 0

/-- Second loop nest of `xyconvolution`, the quotient `tmp / weight` rounded. -/
def ysweepRnd {K : Type} [LinearOrderedField K] (rnd : K → K) (tempimage postimage kernel : Int → K)
    (kernelsize width height : Int) (weight : K) : Int → K :=
  let kernelradius := (kernelsize - 1).tdiv 2
  forLoop kernelradius (height - kernelradius) (fun y postimage =>
    forLoop kernelradius (width - kernelradius) (fun x postimage =>
      store postimage (y * width + x)
        (rnd (ytmpRnd rnd tempimage kernel kernelsize width kernelradius y x / weight)))
      postimage) postimage

/-- `xyconvolution` of the blur filter with every `float` operation rounded. -/
def xyconvolutionRnd {K : Type} [LinearOrderedField K] (rnd : K → K) (tempimage : Int → K)
    (preimage postimage kernel : Int → K) (kernelsize width height : Int) (weight : K) :
    Int → K :=
  ysweepRnd rnd (xsweepRnd rnd tempimage preimage kernel kernelsize width height weight)
    postimage kernel kernelsize width height weight

/-- The loop "Compute and save the 1-dim kernel and its normalizing weight":
`kernelweight += kernel[i]` rounds the sum. -/
def buildKernelRnd {K : Type} [LinearOrderedField K] (rnd : K → K) (m : Libm K) (sigma : K)
    (kernelradius kernelsize : Int) (kernel : Int → K) : (Int → K) × K :=
  forLoop 0 kernelsize (fun i st =>
    let kernel := store st.1 i (gaussian1dRnd rnd m sigma (i - kernelradius))
    (kernel, rnd (st.2 + kernel i))) (kernel, 0)

/-- The `float` value of `s[..] + filtering * (s[..] - postimage[..])`: the difference, the
product and the sum are each rounded. -/
def combineRnd {K : Type} [LinearOrderedField K] (rnd : K → K) (s : Int → Nat)
    (postimage : Int → K) (filtering src_y_stride src_y_width kernelradius kernelsize y x : Int) :
    K :=
  rnd ((s (y * src_y_stride + x) : K) + rnd ((filtering : K)
    * rnd ((s (y * src_y_stride + x) : K)
      - postimage ((y + kernelradius) * (src_y_width + kernelsize - 1) + x + kernelradius))))

/-- The loop nest writing the luma plane of the output frame from `postimage`. -/
def writeLumaRnd {K : Type} [LinearOrderedField K] [FloorRing K] (rnd : K → K) (s : Int → Nat)
    (postimage : Int → K)
    (filtering src_y_stride src_y_width kernelradius kernelsize : Int)
    (dest_y_stride dest_y_width dest_y_height : Int) (d : Int → Option Nat) :
    Int → Option Nat :=
  forLoop 0 dest_y_height (fun y d =>
    forLoop 0 dest_y_width (fun x d =>
      store d (y * dest_y_stride + x)
        (toByte (combineRnd rnd s postimage filtering src_y_stride src_y_width kernelradius
          kernelsize y x))) d) d

/-- The array `postimage` handed to the combiner; `float sigma = blurfilter->sigma` converts
the `double` parameter and `int kernelradius = 2 * sigma` truncates a `float` product. -/
def convolvedRnd {K : Type} [LinearOrderedField K] [FloorRing K] (rnd : K → K) (m : Libm K)
    (heap : Scratch K) (blurfilter : GstBlurFilter K) (src : GstVideoFrame Nat) : Int → K :=
  let sigma := rnd blurfilter.sigma
  let kernelradius : Int := truncInt (rnd (2 * sigma))
  let kernelsize : Int := 2 * kernelradius + 1
  let kw := buildKernelRnd rnd m sigma kernelradius kernelsize heap.kernel
  let preimage := padPreimage src.Y.data src.Y.stride src.Y.width src.Y.height
    kernelradius kernelsize heap.preimage
  xyconvolutionRnd rnd heap.tempimage preimage heap.postimage kw.1 kernelsize
    (src.Y.width + kernelsize - 1) (src.Y.height + kernelsize - 1) kw.2

/-- `gst_blur_filter_convolution` with every `float` operation rounded; the result is the
output frame. -/
def gst_blur_filter_convolutionRnd {K : Type} [LinearOrderedField K] [FloorRing K]
    (rnd : K → K) (m : Libm K) (heap : Scratch K) (blurfilter : GstBlurFilter K)
    (dest : GstVideoFrame (Option Nat)) (src : GstVideoFrame Nat) : GstVideoFrame (Option Nat) :=
  let filtering := blurfilter.filtering
  let kernelradius : Int := truncInt (rnd (2 * rnd blurfilter.sigma))
  let kernelsize : Int := 2 * kernelradius + 1
  let dY :=
    if filtering = 0 then
      gst_video_frame_copy_plane dest.Y src.Y
    else
      writeLumaRnd rnd src.Y.data (convolvedRnd rnd m heap blurfilter src) filtering
        src.Y.stride src.Y.width kernelradius kernelsize dest.Y.stride dest.Y.width
        dest.Y.height dest.Y.data
  let dU := neutralChroma K dest.U.data dest.U.stride dest.U.width dest.U.height src.U.depth
  let dV := neutralChroma K dest.V.data dest.V.stride dest.V.width dest.V.height src.V.depth
  { Y := { dest.Y with data := dY }
    U := { dest.U with data := dU }
    V := { dest.V with data := dV } }

end Blur

namespace Bilateral

/-- `float gaussian1d (float sigma, float x)` with the conversion of the result to `float`. -/
def gaussian1dRnd {K : Type} [LinearOrderedField K] (rnd : K → K) (m : Libm K) (sigma x : K) :
    K :=
  rnd (m.exp (-(x ^ 2 / (2 * sigma ^ 2))))

/-- One turn of the tap loop of `xyconvolution` in `float`:
`w = kernel[k+kernelradius]*gaussian1d(sigmar, pixa - pixb); wp += w; tmp += pixb * w;` rounds
the difference, the product `w`, the sum `wp`, the product `pixb * w` and the sum `tmp`.  The
state is the pair `(tmp, wp)`. -/
def tapStepRnd {K : Type} [LinearOrderedField K] (rnd : K → K) (m : Libm K) (kernel : Int → K)
    (sigmar : K) (kernelradius : Int) (pixa : K) (tap : Int → K) (k : Int) (st : K × K) :
    K × K :=
  let pixb := tap k
  let w := rnd (kernel (k + kernelradius) * gaussian1dRnd rnd m sigmar (rnd (pixa - pixb)))
  (rnd (st.1 + rnd (pixb * w)), rnd (st.2 + w))

/-- The tap loop of `xyconvolution` in `float`, followed by the rounded quotient `tmp / wp`. -/
def tapLoopRnd {K : Type} [LinearOrderedField K] (rnd : K → K) (m : Libm K) (kernel : Int → K)
    (sigmar : K) (kernelradius : Int) (pixa : K) (tap : Int → K) : K :=
  let st := forLoop (-kernelradius) (kernelradius + 1)
    (tapStepRnd rnd m kernel sigmar kernelradius pixa tap) (0, 0)
  rnd (st.1 / st.2)

/-- First loop nest of `xyconvolution` in `float`. -/
def xsweepRnd {K : Type} [LinearOrderedField K] (rnd : K → K) (m : Libm K)
    (tempimage preimage kernel : Int → K) (sigmar : K) (kernelsize width height : Int) :
    Int → K :=
  let kernelradius := (kernelsize - 1).tdiv 2
  forLoop 0 height (fun y tempimage =>
    forLoop kernelradius (width - kernelradius) (fun x tempimage =>
      store tempimage (y * width + x)
        (tapLoopRnd rnd m kernel sigmar kernelradius (preimage (y * width + x))
          (fun k => preimage (y * width + x + k)))) tempimage) tempimage

/-- Second loop nest of `xyconvolution` in `float`. -/
def ysweepRnd {K : Type} [LinearOrderedField K] (rnd : K → K) (m : Libm K)
    (tempimage postimage kernel : Int → K) (sigmar : K) (kernelsize width height : Int) :
    Int → K :=
  let kernelradius := (kernelsize - 1).tdiv 2
  forLoop kernelradius (height - kernelradius) (fun y postimage =>
    forLoop kernelradius (width - kernelradius) (fun x postimage =>
      store postimage (y * width + x)
        (tapLoopRnd rnd m kernel sigmar kernelradius (tempimage (y * width + x))
          (fun k => tempimage ((y + k) * width + x)))) postimage) postimage

/-- `xyconvolution` of the bilateral filter with every `float` operation rounded. -/
def xyconvolutionRnd {K : Type} [LinearOrderedField K] (rnd : K → K) (m : Libm K)
    (tempimage : Int → K) (preimage postimage kernel : Int → K) (sigmar : K)
    (kernelsize width height : Int) : Int → K :=
  ysweepRnd rnd m (xsweepRnd rnd m tempimage preimage kernel sigmar kernelsize width height)
    postimage kernel sigmar kernelsize width height

/-- The loop "Compute and save the 1-dim kernel":
`kernel[i] = gaussian1d (sigmad, (float)i - kernelradius)`, the difference taken in `float`. -/
def buildKernelRnd {K : Type} [LinearOrderedField K] (rnd : K → K) (m : Libm K) (sigmad : K)
    (kernelradius kernelsize : Int) (kernel : Int → K) : Int → K :=
  forLoop 0 kernelsize (fun i kernel =>
    store kernel i (gaussian1dRnd rnd m sigmad (rnd ((i : K) - (kernelradius : K))))) kernel

/-- The array `postimage` handed to the writer; `float sigmad = bilateralfilter->sigmad` and
`float sigmar = bilateralfilter->sigmar` convert the `double` parameters. -/
def convolvedRnd {K : Type} [LinearOrderedField K] (rnd : K → K) (m : Libm K) (heap : Scratch K)
    (bilateralfilter : GstBilateralFilter K) (src : GstVideoFrame Nat) : Int → K :=
  let sigmad := rnd bilateralfilter.sigmad
  let sigmar := rnd bilateralfilter.sigmar
  let kernelradius : Int := 2
  let kernelsize : Int := 2 * kernelradius + 1
  let kernel := buildKernelRnd rnd m sigmad kernelradius kernelsize heap.kernel
  let preimage := padPreimage src.Y.data src.Y.stride src.Y.width src.Y.height
    kernelradius kernelsize heap.preimage
  xyconvolutionRnd rnd m heap.tempimage preimage heap.postimage kernel sigmar
    kernelsize (src.Y.width + kernelsize - 1) (src.Y.height + kernelsize - 1)

/-- `gst_bilateral_filter_convolution` with every `float` operation rounded; the writer is the
one of the exact definition, its store truncating the `float` to a byte. -/
def gst_bilateral_filter_convolutionRnd {K : Type} [LinearOrderedField K] [FloorRing K]
    (rnd : K → K) (m : Libm K) (heap : Scratch K) (bilateralfilter : GstBilateralFilter K)
    (dest : GstVideoFrame (Option Nat)) (src : GstVideoFrame Nat) :
    GstVideoFrame (Option Nat) :=
  let kernelradius : Int := 2
  let kernelsize : Int := 2 * kernelradius + 1
  let dY :=
    if !bilateralfilter.filtering then
      gst_video_frame_copy_plane dest.Y src.Y
    else
      writeLuma (convolvedRnd rnd m heap bilateralfilter src) src.Y.width kernelradius
        kernelsize dest.Y.stride dest.Y.width dest.Y.height dest.Y.data
  let dU := neutralChroma K dest.U.data dest.U.stride dest.U.width dest.U.height src.U.depth
  let dV := neutralChroma K dest.V.data dest.V.stride dest.V.width dest.V.height src.V.depth
  { Y := { dest.Y with data := dY }
    U := { dest.U with data := dU }
    V := { dest.V with data := dV } }

end Bilateral

/-- An I420 frame of depth 8 whose `w x h` luma plane is zero except for the value `A` at
`(x0, y0)` and the value `B` at `(x0 + 1, y0)`; the chroma planes are zero. -/
def pairFrame (A B : Nat) (w h x0 y0 : Int) : GstVideoFrame Nat where
  Y := { data := fun i => if i = y0 * w + x0 then A else if i = y0 * w + x0 + 1 then B else 0,
         stride := w, width := w, height := h, depth := 8 }
  U := { data := fun _ => 0, stride := w / 2, width := w / 2, height := h / 2, depth := 8 }
  V := { data := fun _ => 0, stride := w / 2, width := w / 2, height := h / 2, depth := 8 }

/-! ## Loop and store lemmas -/

section LoopLemmas

theorem mem_intRange {lo hi v : Int} : v ∈ intRange lo hi ↔ lo ≤ v ∧ v < hi := by
  unfold intRange
  simp only [List.mem_map, List.mem_range]
  constructor
  · rintro ⟨n, hn, rfl⟩
    have := Int.lt_toNat.1 hn
    omega
  · rintro ⟨h1, h2⟩
    refine ⟨(v - lo).toNat, ?_, ?_⟩
    · rw [Int.lt_toNat, Int.toNat_of_nonneg (by omega)]
      omega
    · rw [Int.toNat_of_nonneg (by omega)]
      omega

theorem nodup_intRange (lo hi : Int) : (intRange lo hi).Nodup := by
  have hinj : Function.Injective (fun n : Nat => lo + (n : Int)) := by
    intro a b h
    simpa using h
  exact List.Nodup.map hinj (List.nodup_range _)

theorem intRange_toFinset (lo hi : Int) : (intRange lo hi).toFinset = Finset.Ico lo hi := by
  ext v
  simp [mem_intRange]

theorem foldl_add_eq_sum {K : Type} [AddCommMonoid K] (l : List Int) (f : Int → K) (a : K) :
    l.foldl (fun t k => t + f k) a = a + (l.map f).sum := by
  induction l generalizing a with
  | nil => simp
  | cons b t ih => simp [ih, add_assoc]

/-- An accumulation loop `for (k = lo; k < hi; ++k) tmp += f k` started at `0` computes the
sum of `f` over `lo ≤ k < hi`. -/
theorem forLoop_add {K : Type} [AddCommMonoid K] (lo hi : Int) (f : Int → K) :
    forLoop lo hi (fun k tmp => tmp + f k) 0 = ∑ k ∈ Finset.Ico lo hi, f k := by
  unfold forLoop
  rw [foldl_add_eq_sum, zero_add, ← intRange_toFinset, List.sum_toFinset _ (nodup_intRange lo hi)]

theorem foldl_store_miss {α β : Type} (l : List α) (idx : α → Int) (val : α → β)
    (buf : Int → β) (j : Int) (h : ∀ a ∈ l, idx a ≠ j) :
    (l.foldl (fun b a => store b (idx a) (val a)) buf) j = buf j := by
  induction l generalizing buf with
  | nil => rfl
  | cons a t ih =>
    rw [List.foldl_cons, ih _ (fun b hb => h b (List.mem_cons_of_mem _ hb))]
    have := h a (List.mem_cons_self _ _)
    simp [store, Function.update, Ne.symm this]

theorem foldl_store_hit {α β : Type} (l : List α) (idx : α → Int) (val : α → β)
    (buf : Int → β) (j : Int) (v : β) (hex : ∃ a ∈ l, idx a = j)
    (h : ∀ b ∈ l, idx b = j → val b = v) :
    (l.foldl (fun b c => store b (idx c) (val c)) buf) j = v := by
  induction l generalizing buf with
  | nil =>
    obtain ⟨a, ha, _⟩ := hex
    cases ha
  | cons c t ih =>
    rw [List.foldl_cons]
    by_cases hex2 : ∃ b ∈ t, idx b = j
    · exact ih _ hex2 (fun b hb => h b (List.mem_cons_of_mem _ hb))
    · have hmiss : ∀ b ∈ t, idx b ≠ j := fun b hb hba => hex2 ⟨b, hb, hba⟩
      rw [foldl_store_miss t idx val _ _ hmiss]
      obtain ⟨a, ha, haj⟩ := hex
      have hc : idx c = j := by
        rcases List.mem_cons.1 ha with h1 | h1
        · rw [← h1]
          exact haj
        · exact absurd haj (hmiss a h1)
      rw [← h c (List.mem_cons_self _ _) hc, ← hc]
      simp [store]

theorem foldl_foldl_pairs {σ : Type} (ys xs : List Int) (f : Int → Int → σ → σ) (s : σ) :
    ys.foldl (fun st y => xs.foldl (fun st x => f y x st) st) s
      = (ys.flatMap fun y => xs.map (Prod.mk y)).foldl (fun st p => f p.1 p.2 st) s := by
  induction ys generalizing s with
  | nil => rfl
  | cons y t ih =>
    simp only [List.foldl_cons, List.flatMap_cons, List.foldl_append, List.foldl_map]
    exact ih _

/-- A doubly nested loop that stores `val y x` at `idx y x`: a cell whose writers all
store the same value holds that value afterwards. -/
theorem loop2_store_hit {β : Type} (ylo yhi xlo xhi : Int) (idx : Int → Int → Int)
    (val : Int → Int → β) (buf : Int → β) (y x : Int)
    (hy : ylo ≤ y ∧ y < yhi) (hx : xlo ≤ x ∧ x < xhi)
    (h : ∀ y' x', ylo ≤ y' → y' < yhi → xlo ≤ x' → x' < xhi →
      idx y' x' = idx y x → val y' x' = val y x) :
    forLoop ylo yhi (fun y b => forLoop xlo xhi (fun x b => store b (idx y x) (val y x)) b)
      buf (idx y x) = val y x := by
  unfold forLoop
  rw [foldl_foldl_pairs (intRange ylo yhi) (intRange xlo xhi)
    (fun y x b => store b (idx y x) (val y x)) buf]
  refine foldl_store_hit _ (fun p : Int × Int => idx p.1 p.2)
    (fun p : Int × Int => val p.1 p.2) buf _ _ ⟨(y, x), ?_, rfl⟩ ?_
  · simp only [List.mem_flatMap, List.mem_map, mem_intRange]
    exact ⟨y, hy, x, hx, rfl⟩
  · rintro ⟨y', x'⟩ hm he
    simp only [List.mem_flatMap, List.mem_map, mem_intRange, Prod.mk.injEq] at hm
    obtain ⟨y2, hy2, x2, hx2, rfl, rfl⟩ := hm
    exact h y2 x2 hy2.1 hy2.2 hx2.1 hx2.2 he

/-- A doubly nested loop of stores leaves every cell it does not address unchanged. -/
theorem loop2_store_miss {β : Type} (ylo yhi xlo xhi : Int) (idx : Int → Int → Int)
    (val : Int → Int → β) (buf : Int → β) (j : Int)
    (h : ∀ y' x', ylo ≤ y' → y' < yhi → xlo ≤ x' → x' < xhi → idx y' x' ≠ j) :
    forLoop ylo yhi (fun y b => forLoop xlo xhi (fun x b => store b (idx y x) (val y x)) b)
      buf j = buf j := by
  unfold forLoop
  rw [foldl_foldl_pairs (intRange ylo yhi) (intRange xlo xhi)
    (fun y x b => store b (idx y x) (val y x)) buf]
  refine foldl_store_miss _ (fun p : Int × Int => idx p.1 p.2)
    (fun p : Int × Int => val p.1 p.2) buf j ?_
  rintro ⟨y', x'⟩ hm
  simp only [List.mem_flatMap, List.mem_map, mem_intRange, Prod.mk.injEq] at hm
  obtain ⟨y2, hy2, x2, hx2, rfl, rfl⟩ := hm
  exact h y2 x2 hy2.1 hy2.2 hx2.1 hx2.2

/-- Row-major addressing is injective on columns `0 ≤ x < w`. -/
theorem rowMajor_inj {w y x y' x' : Int} (hx : 0 ≤ x) (hxw : x < w) (hx' : 0 ≤ x')
    (hxw' : x' < w) (h : y' * w + x' = y * w + x) : y' = y ∧ x' = x := by
  have hw : 0 < w := by omega
  have hy : y' = y := by
    by_contra hne
    rcases lt_or_gt_of_ne hne with hlt | hgt
    · have : (y' + 1) * w ≤ y * w := Int.mul_le_mul_of_nonneg_right (by omega) hw.le
      nlinarith
    · have : (y + 1) * w ≤ y' * w := Int.mul_le_mul_of_nonneg_right (by omega) hw.le
      nlinarith
  subst hy
  exact ⟨rfl, by omega⟩

/-- The C expression `(kernelsize - 1) / 2` recovers the radius of an odd kernel size. -/
theorem tdiv_kernelradius (r : Int) : (2 * r + 1 - 1).tdiv 2 = r := by
  have h : 2 * r + 1 - 1 = 2 * r := by ring
  rw [h]
  exact Int.mul_tdiv_cancel_left _ (by decide)

theorem Ico_zero_eq_Icc (r : Int) : Finset.Ico (0 : Int) (2 * r + 1) = Finset.Icc 0 (2 * r) := by
  ext k
  simp only [Finset.mem_Ico, Finset.mem_Icc]
  omega

end LoopLemmas

/-! ## Zero padding -/

section Padding

variable {K : Type} [LinearOrderedField K]

/-- Content of one cell of the padded buffer, for an arbitrary `kernelsize`. -/
theorem padPreimage_cell (s : Int → Nat) (stride w h r ks : Int) (pre0 : Int → K)
    (x y : Int) (hx : 0 ≤ x ∧ x < w + ks - 1) (hy : 0 ≤ y ∧ y < h + ks - 1) :
    padPreimage s stride w h r ks pre0 (y * (w + ks - 1) + x)
      = if x ≥ r ∧ x < w + r ∧ y ≥ r ∧ y < h + r then
          ((s ((y - r) * stride + x - r) : Nat) : K) else 0 := by
  have hbody : padPreimage s stride w h r ks pre0
      = forLoop 0 (h + ks - 1) (fun y b => forLoop 0 (w + ks - 1) (fun x b =>
          store b (y * (w + ks - 1) + x)
            (if x ≥ r ∧ x < w + r ∧ y ≥ r ∧ y < h + r then
              ((s ((y - r) * stride + x - r) : Nat) : K) else 0)) b) pre0 := by
    unfold padPreimage
    congr 1
    funext y b
    congr 1
    funext x b
    split <;> rfl
  rw [hbody]
  refine loop2_store_hit 0 (h + ks - 1) 0 (w + ks - 1) (fun y x => y * (w + ks - 1) + x)
    (fun y x => if x ≥ r ∧ x < w + r ∧ y ≥ r ∧ y < h + r then
      ((s ((y - r) * stride + x - r) : Nat) : K) else 0) pre0 y x hy hx ?_
  intro y2 x2 _ _ hx2 hx2w he
  obtain ⟨rfl, rfl⟩ := rowMajor_inj hx.1 hx.2 hx2 hx2w he
  rfl

end Padding

/-! ## The blur sweeps -/

namespace Blur

section Sweeps

variable {K : Type} [LinearOrderedField K]

/-- The cell `(x, y)` of `tempimage` after the x-dim sweep. -/
theorem blur_xsweep_cell (temp0 pre kernel : Int → K) (r W H : Int) (weight : K) (hr : 0 ≤ r)
    (x y : Int) (hx : r ≤ x ∧ x < W - r) (hy : 0 ≤ y ∧ y < H) :
    xsweep temp0 pre kernel (2 * r + 1) W H weight (y * W + x)
      = (∑ i ∈ Finset.Ico (0 : Int) (2 * r + 1), pre (y * W + x + i - r) * kernel i)
          / weight := by
  unfold xsweep
  simp only [tdiv_kernelradius]
  rw [loop2_store_hit 0 H r (W - r) (fun y x => y * W + x)
    (fun y x => xtmp pre kernel (2 * r + 1) W r y x / weight) temp0 y x hy hx ?_]
  · unfold xtmp
    rw [if_pos (by omega), forLoop_add]
  · intro y2 x2 _ _ hx2 hx2w he
    obtain ⟨rfl, rfl⟩ := rowMajor_inj (w := W) (by omega) (by omega) (by omega) (by omega) he
    rfl

/-- The cell `(x, y)` of `postimage` after the y-dim sweep. -/
theorem blur_ysweep_cell (temp post0 kernel : Int → K) (r W H : Int) (weight : K) (hr : 0 ≤ r)
    (x y : Int) (hx : r ≤ x ∧ x < W - r) (hy : r ≤ y ∧ y < H - r) :
    ysweep temp post0 kernel (2 * r + 1) W H weight (y * W + x)
      = (∑ j ∈ Finset.Ico (0 : Int) (2 * r + 1), temp ((y + j - r) * W + x) * kernel j)
          / weight := by
  unfold ysweep
  simp only [tdiv_kernelradius]
  rw [loop2_store_hit r (H - r) r (W - r) (fun y x => y * W + x)
    (fun y x => ytmp temp kernel (2 * r + 1) W r y x / weight) post0 y x hy hx ?_]
  · unfold ytmp
    rw [forLoop_add]
  · intro y2 x2 _ _ hx2 hx2w he
    obtain ⟨rfl, rfl⟩ := rowMajor_inj (w := W) (by omega) (by omega) (by omega) (by omega) he
    rfl

/-- A cell outside the swept region keeps the initial content of `postimage`. -/
theorem blur_ysweep_untouched (temp post0 kernel : Int → K) (r W H : Int) (weight : K)
    (j : Int) (h : ∀ y x, r ≤ y → y < H - r → r ≤ x → x < W - r → y * W + x ≠ j) :
    ysweep temp post0 kernel (2 * r + 1) W H weight j = post0 j := by
  unfold ysweep
  simp only [tdiv_kernelradius]
  exact loop2_store_miss r (H - r) r (W - r) (fun y x => y * W + x) _ post0 j h

/-- The two sweeps together: the cell `(x, y)` of the final `postimage` is the double sum
over the taps, divided twice by the weight. -/
theorem blur_xyconvolution_cell (temp0 pre post0 kernel : Int → K) (r W H : Int) (weight : K)
    (hr : 0 ≤ r) (x y : Int) (hx : r ≤ x ∧ x < W - r) (hy : r ≤ y ∧ y < H - r) :
    xyconvolution temp0 pre post0 kernel (2 * r + 1) W H weight (y * W + x)
      = (∑ j ∈ Finset.Ico (0 : Int) (2 * r + 1), ∑ i ∈ Finset.Ico (0 : Int) (2 * r + 1),
          kernel i * kernel j * pre ((y + j - r) * W + (x + i - r))) / weight ^ 2 := by
  unfold xyconvolution
  rw [blur_ysweep_cell _ _ _ r W H weight hr x y hx hy]
  have hrow : ∀ j ∈ Finset.Ico (0 : Int) (2 * r + 1),
      xsweep temp0 pre kernel (2 * r + 1) W H weight ((y + j - r) * W + x) * kernel j
        = (∑ i ∈ Finset.Ico (0 : Int) (2 * r + 1),
            kernel i * kernel j * pre ((y + j - r) * W + (x + i - r))) / weight := by
    intro j hj
    rw [Finset.mem_Ico] at hj
    rw [blur_xsweep_cell temp0 pre kernel r W H weight hr x (y + j - r) hx (by omega),
      div_mul_eq_mul_div, Finset.sum_mul]
    congr 1
    refine Finset.sum_congr rfl (fun i _ => ?_)
    rw [show (y + j - r) * W + x + i - r = (y + j - r) * W + (x + i - r) by ring]
    ring
  rw [Finset.sum_congr rfl hrow, ← Finset.sum_div, div_div, pow_two]

end Sweeps

end Blur

/-! ## The bilateral sweeps -/

namespace Bilateral

section Sweeps

variable {K : Type} [LinearOrderedField K]

theorem foldl_pair_eq_sum (l : List Int) (f g : Int → K) (a b : K) :
    l.foldl (fun st k => ((st.1 + f k, st.2 + g k) : K × K)) (a, b)
      = (a + (l.map f).sum, b + (l.map g).sum) := by
  induction l generalizing a b with
  | nil => simp
  | cons c t ih => simp [ih, add_assoc]

theorem Ico_succ_eq_Icc (r : Int) : Finset.Ico (-r) (r + 1) = Finset.Icc (-r) r := by
  ext k
  simp only [Finset.mem_Ico, Finset.mem_Icc]
  omega

/-- The tap loop computes the quotient of the weighted sum of the taps by the sum of the
weights, the weights being recomputed from the taps. -/
theorem tapLoop_eq (m : Libm K) (kernel : Int → K) (sigmar : K) (r : Int) (pixa : K)
    (tap : Int → K) :
    tapLoop m kernel sigmar r pixa tap
      = (∑ k ∈ Finset.Icc (-r) r,
            tap k * (kernel (k + r) * gaussian1d m sigmar (pixa - tap k)))
          / (∑ k ∈ Finset.Icc (-r) r, kernel (k + r) * gaussian1d m sigmar (pixa - tap k)) := by
  unfold tapLoop forLoop
  have hstep : (fun st i => tapStep m kernel sigmar r pixa tap i st)
      = (fun (st : K × K) k =>
          ((st.1 + tap k * (kernel (k + r) * gaussian1d m sigmar (pixa - tap k)),
            st.2 + kernel (k + r) * gaussian1d m sigmar (pixa - tap k)) : K × K)) := by
    funext st k
    rfl
  simp only [hstep]
  rw [foldl_pair_eq_sum]
  simp only [zero_add]
  rw [← List.sum_toFinset _ (nodup_intRange _ _), ← List.sum_toFinset _ (nodup_intRange _ _),
    intRange_toFinset, Ico_succ_eq_Icc]

/-- The cell `(x, y)` of `tempimage` after the x-dim sweep. -/
theorem bilateral_xsweep_cell (m : Libm K) (temp0 pre kernel : Int → K) (sigmar : K) (r W H : Int)
    (hr : 0 ≤ r) (x y : Int) (hx : r ≤ x ∧ x < W - r) (hy : 0 ≤ y ∧ y < H) :
    xsweep m temp0 pre kernel sigmar (2 * r + 1) W H (y * W + x)
      = tapLoop m kernel sigmar r (pre (y * W + x)) (fun k => pre (y * W + x + k)) := by
  unfold xsweep
  simp only [tdiv_kernelradius]
  refine loop2_store_hit 0 H r (W - r) (fun y x => y * W + x)
    (fun y x => tapLoop m kernel sigmar r (pre (y * W + x)) (fun k => pre (y * W + x + k)))
    temp0 y x hy hx ?_
  intro y2 x2 _ _ hx2 hx2w he
  obtain ⟨rfl, rfl⟩ := rowMajor_inj (w := W) (by omega) (by omega) (by omega) (by omega) he
  rfl

/-- The cell `(x, y)` of `postimage` after the y-dim sweep. -/
theorem bilateral_ysweep_cell (m : Libm K) (temp post0 kernel : Int → K) (sigmar : K) (r W H : Int)
    (hr : 0 ≤ r) (x y : Int) (hx : r ≤ x ∧ x < W - r) (hy : r ≤ y ∧ y < H - r) :
    ysweep m temp post0 kernel sigmar (2 * r + 1) W H (y * W + x)
      = tapLoop m kernel sigmar r (temp (y * W + x)) (fun k => temp ((y + k) * W + x)) := by
  unfold ysweep
  simp only [tdiv_kernelradius]
  refine loop2_store_hit r (H - r) r (W - r) (fun y x => y * W + x)
    (fun y x => tapLoop m kernel sigmar r (temp (y * W + x)) (fun k => temp ((y + k) * W + x)))
    post0 y x hy hx ?_
  intro y2 x2 _ _ hx2 hx2w he
  obtain ⟨rfl, rfl⟩ := rowMajor_inj (w := W) (by omega) (by omega) (by omega) (by omega) he
  rfl

end Sweeps

end Bilateral

/-! ## Writers of the output planes -/

section Writers

variable {K : Type} [LinearOrderedField K] [FloorRing K]

/-- The plane copy stores every sample of the source plane at the same coordinates of the
destination plane. -/
theorem copy_plane_cell (dest : Plane (Option Nat)) (src : Plane Nat) (x y : Int)
    (hx : 0 ≤ x ∧ x < src.width) (hy : 0 ≤ y ∧ y < src.height)
    (hstride : src.width ≤ dest.stride) :
    gst_video_frame_copy_plane dest src (y * dest.stride + x)
      = some (src.data (y * src.stride + x)) := by
  unfold gst_video_frame_copy_plane
  refine loop2_store_hit 0 src.height 0 src.width (fun y x => y * dest.stride + x)
    (fun y x => some (src.data (y * src.stride + x))) dest.data y x hy hx ?_
  intro y2 x2 _ _ hx2 hx2w he
  obtain ⟨rfl, rfl⟩ := rowMajor_inj (w := dest.stride) (by omega) (by omega) (by omega)
    (by omega) he
  rfl

/-- Every sample of a chroma plane receives the conversion of `pow (2, depth - 1)`. -/
theorem neutralChroma_cell (d : Int → Option Nat) (stride w h depth x y : Int)
    (hx : 0 ≤ x ∧ x < w) (hy : 0 ≤ y ∧ y < h) :
    neutralChroma K d stride w h depth (y * stride + x)
      = toByte ((2 : K) ^ (depth - 1)) := by
  unfold neutralChroma
  exact loop2_store_hit 0 h 0 w (fun y x => y * stride + x)
    (fun _ _ => toByte ((2 : K) ^ (depth - 1))) d y x hy hx (fun _ _ _ _ _ _ _ => rfl)

/-- Conversion of an integral value in byte range. -/
theorem toByte_natCast (n : Nat) (hn : n ≤ 255) : toByte ((n : K)) = some n := by
  unfold toByte truncInt
  have h1 : (-1 : K) < (n : K) := lt_of_lt_of_le (by norm_num) (Nat.cast_nonneg n)
  have h2 : (n : K) < 256 := by exact_mod_cast Nat.lt_succ_of_le hn
  rw [if_pos ⟨h1, h2⟩, if_pos (Nat.cast_nonneg n)]
  simp

/-- The mid-grey value `pow (2, depth - 1)` converts to the byte `2 ^ (depth - 1)` for the
depths a byte sample can have. -/
theorem toByte_midgrey (depth : Int) (h1 : 1 ≤ depth) (h8 : depth ≤ 8) :
    toByte ((2 : K) ^ (depth - 1)) = some (2 ^ (depth - 1).toNat) := by
  obtain ⟨n, hn⟩ : ∃ n : Nat, depth - 1 = (n : Int) := ⟨(depth - 1).toNat, by omega⟩
  have hn7 : n ≤ 7 := by omega
  rw [hn, zpow_natCast, Int.toNat_natCast]
  have hle : 2 ^ n ≤ 255 := by
    have : 2 ^ n ≤ 2 ^ 7 := Nat.pow_le_pow_right (by decide) hn7
    omega
  have := toByte_natCast (K := K) (2 ^ n) hle
  simpa using this

namespace Blur

/-- The combiner stores the conversion of `combine` at every sample of the output plane. -/
theorem blur_writeLuma_cell (s : Int → Nat) (post : Int → K) (filtering sstride sw r ks : Int)
    (dstride dw dh : Int) (d : Int → Option Nat) (x y : Int)
    (hx : 0 ≤ x ∧ x < dw) (hy : 0 ≤ y ∧ y < dh) (hstride : dw ≤ dstride) :
    writeLuma s post filtering sstride sw r ks dstride dw dh d (y * dstride + x)
      = toByte (combine s post filtering sstride sw r ks y x) := by
  unfold writeLuma
  refine loop2_store_hit 0 dh 0 dw (fun y x => y * dstride + x)
    (fun y x => toByte (combine s post filtering sstride sw r ks y x)) d y x hy hx ?_
  intro y2 x2 _ _ hx2 hx2w he
  obtain ⟨rfl, rfl⟩ := rowMajor_inj (w := dstride) (by omega) (by omega) (by omega)
    (by omega) he
  rfl

end Blur

namespace Bilateral

/-- The writer stores the conversion of the convolved value at every sample of the output
plane. -/
theorem bilateral_writeLuma_cell (post : Int → K) (sw r ks : Int)
    (dstride dw dh : Int) (d : Int → Option Nat) (x y : Int)
    (hx : 0 ≤ x ∧ x < dw) (hy : 0 ≤ y ∧ y < dh) (hstride : dw ≤ dstride) :
    writeLuma post sw r ks dstride dw dh d (y * dstride + x)
      = toByte (post ((y + r) * (sw + ks - 1) + x + r)) := by
  unfold writeLuma
  refine loop2_store_hit 0 dh 0 dw (fun y x => y * dstride + x)
    (fun y x => toByte (post ((y + r) * (sw + ks - 1) + x + r))) d y x hy hx ?_
  intro y2 x2 _ _ hx2 hx2w he
  obtain ⟨rfl, rfl⟩ := rowMajor_inj (w := dstride) (by omega) (by omega) (by omega)
    (by omega) he
  rfl

end Bilateral

end Writers

/-! ## The bilateral filter on a flat neighbourhood -/

section SingleLoop

/-- A loop that stores `val i` at `i` leaves `val i` in every cell of its range. -/
theorem loop1_store_hit {β : Type} (lo hi : Int) (val : Int → β) (buf : Int → β) (i : Int)
    (hi1 : lo ≤ i ∧ i < hi) :
    forLoop lo hi (fun i b => store b i (val i)) buf i = val i := by
  unfold forLoop
  refine foldl_store_hit (intRange lo hi) (fun i => i) val buf i (val i)
    ⟨i, mem_intRange.2 hi1, rfl⟩ ?_
  intro b _ hb
  have hb2 : b = i := hb
  rw [hb2]

end SingleLoop

namespace Bilateral

section Flat

variable {K : Type} [LinearOrderedField K]

/-- Cell `i` of the domain kernel. -/
theorem buildKernel_cell (m : Libm K) (sigmad : K) (r ks : Int) (k0 : Int → K) (i : Int)
    (hi : 0 ≤ i ∧ i < ks) :
    buildKernel m sigmad r ks k0 i = gaussian1d m sigmad ((i : K) - (r : K)) := by
  unfold buildKernel
  exact loop1_store_hit 0 ks (fun i => gaussian1d m sigmad ((i : K) - (r : K))) k0 i hi

/-- The range weight of a tap equal to the centre sample is `exp 0`. -/
theorem gaussian1d_self (m : Libm K) (sigma c : K) : gaussian1d m sigma (c - c) = m.exp 0 := by
  unfold gaussian1d
  simp

/-- When every tap equals the centre sample `c` and the weights do not sum to zero, the tap
loop returns `c`. -/
theorem tapLoop_const (m : Libm K) (kernel : Int → K) (sigmar : K) (r : Int) (c : K)
    (tap : Int → K) (htap : ∀ k ∈ Finset.Icc (-r) r, tap k = c)
    (hne : (∑ k ∈ Finset.Icc (-r) r, kernel (k + r) * gaussian1d m sigmar (c - c)) ≠ 0) :
    tapLoop m kernel sigmar r c tap = c := by
  rw [tapLoop_eq]
  have hnum : ∑ k ∈ Finset.Icc (-r) r,
      tap k * (kernel (k + r) * gaussian1d m sigmar (c - tap k))
        = c * ∑ k ∈ Finset.Icc (-r) r, kernel (k + r) * gaussian1d m sigmar (c - c) := by
    rw [Finset.mul_sum]
    exact Finset.sum_congr rfl (fun k hk => by rw [htap k hk])
  have hden : ∑ k ∈ Finset.Icc (-r) r, kernel (k + r) * gaussian1d m sigmar (c - tap k)
      = ∑ k ∈ Finset.Icc (-r) r, kernel (k + r) * gaussian1d m sigmar (c - c) :=
    Finset.sum_congr rfl (fun k hk => by rw [htap k hk])
  rw [hnum, hden, mul_div_assoc, div_self hne, mul_one]

/-- The domain kernel has non-negative cells and its centre cell is `1`, so on a flat
neighbourhood the weights sum to at least `1`. -/
theorem flat_weight_pos (m : Libm K) (hexp0 : m.exp 0 = 1) (hexp : ∀ t, 0 ≤ m.exp t)
    (sigmad sigmar c : K) (k0 : Int → K) :
    1 ≤ ∑ k ∈ Finset.Icc (-2 : Int) 2,
      buildKernel m sigmad 2 (2 * 2 + 1) k0 (k + 2) * gaussian1d m sigmar (c - c) := by
  have hterm : ∀ k ∈ Finset.Icc (-2 : Int) 2,
      0 ≤ buildKernel m sigmad 2 (2 * 2 + 1) k0 (k + 2) * gaussian1d m sigmar (c - c) := by
    intro k hk
    rw [Finset.mem_Icc] at hk
    rw [buildKernel_cell m sigmad 2 (2 * 2 + 1) k0 (k + 2) (by omega), gaussian1d_self, hexp0,
      mul_one]
    exact hexp _
  have hcentre : buildKernel m sigmad 2 (2 * 2 + 1) k0 (0 + 2) * gaussian1d m sigmar (c - c)
      = 1 := by
    rw [buildKernel_cell m sigmad 2 (2 * 2 + 1) k0 (0 + 2) (by decide), gaussian1d_self, hexp0,
      mul_one]
    unfold gaussian1d
    simp [hexp0]
  calc (1 : K) = buildKernel m sigmad 2 (2 * 2 + 1) k0 (0 + 2)
        * gaussian1d m sigmar (c - c) := hcentre.symm
    _ ≤ _ := Finset.single_le_sum (f := fun k : Int =>
        buildKernel m sigmad 2 (2 * 2 + 1) k0 (k + 2) * gaussian1d m sigmar (c - c))
        hterm (by decide)

/-- On a plane of constant value `c`, the convolved value is `c` at every padded position
whose 5x5 neighbourhood lies inside the plane. -/
theorem convolved_flat (m : Libm K) (hexp0 : m.exp 0 = 1) (hexp : ∀ t, 0 ≤ m.exp t)
    (heap : Scratch K) (bl : GstBilateralFilter K) (src : GstVideoFrame Nat) (c : Nat)
    (hflat : ∀ x y, 0 ≤ x → x < src.Y.width → 0 ≤ y → y < src.Y.height →
      src.Y.data (y * src.Y.stride + x) = c)
    (X Y : Int) (hX : 4 ≤ X ∧ X < src.Y.width) (hY : 4 ≤ Y ∧ Y < src.Y.height) :
    convolved m heap bl src (Y * (src.Y.width + (2 * 2 + 1) - 1) + X) = (c : K) := by
  have hwp : ∀ c : K, (∑ k ∈ Finset.Icc (-2 : Int) 2,
      buildKernel m bl.sigmad 2 (2 * 2 + 1) heap.kernel (k + 2)
        * gaussian1d m bl.sigmar (c - c)) ≠ 0 := fun c =>
    ne_of_gt (lt_of_lt_of_le zero_lt_one (flat_weight_pos m hexp0 hexp _ _ c _))
  have hpre : ∀ X Y : Int, 2 ≤ X → X < src.Y.width + 2 → 2 ≤ Y → Y < src.Y.height + 2 →
      padPreimage src.Y.data src.Y.stride src.Y.width src.Y.height 2 (2 * 2 + 1)
        heap.preimage (Y * (src.Y.width + (2 * 2 + 1) - 1) + X) = (c : K) := by
    intro X Y h1 h2 h3 h4
    rw [padPreimage_cell _ _ _ _ _ _ _ X Y (by omega) (by omega), if_pos ⟨h1, h2, h3, h4⟩,
      show (Y - 2) * src.Y.stride + X - 2 = (Y - 2) * src.Y.stride + (X - 2) by ring,
      hflat (X - 2) (Y - 2) (by omega) (by omega) (by omega) (by omega)]
  have htemp : ∀ X Y : Int, 4 ≤ X → X < src.Y.width → 2 ≤ Y → Y < src.Y.height + 2 →
      xsweep m heap.tempimage
        (padPreimage src.Y.data src.Y.stride src.Y.width src.Y.height 2 (2 * 2 + 1)
          heap.preimage)
        (buildKernel m bl.sigmad 2 (2 * 2 + 1) heap.kernel) bl.sigmar (2 * 2 + 1)
        (src.Y.width + (2 * 2 + 1) - 1) (src.Y.height + (2 * 2 + 1) - 1)
        (Y * (src.Y.width + (2 * 2 + 1) - 1) + X) = (c : K) := by
    intro X Y h1 h2 h3 h4
    rw [bilateral_xsweep_cell m _ _ _ _ 2 _ _ (by decide) X Y (by omega) (by omega),
      hpre X Y (by omega) (by omega) h3 h4]
    refine tapLoop_const m _ _ 2 _ _ ?_ (hwp _)
    intro k hk
    rw [Finset.mem_Icc] at hk
    rw [add_assoc]
    exact hpre (X + k) Y (by omega) (by omega) h3 h4
  unfold convolved xyconvolution
  rw [bilateral_ysweep_cell m _ _ _ _ 2 _ _ (by decide) X Y (by omega) (by omega),
    htemp X Y hX.1 hX.2 (by omega) (by omega)]
  refine tapLoop_const m _ _ 2 _ _ ?_ (hwp _)
  intro k hk
  rw [Finset.mem_Icc] at hk
  exact htemp X (Y + k) hX.1 hX.2 (by omega) (by omega)

end Flat

end Bilateral

/-! ## The blur pipeline: kernel, padding and sweeps together -/

namespace Blur

section Pipeline

variable {K : Type} [LinearOrderedField K]

theorem foldl_kernel_weight (l : List Int) (g : Int → K) (k0 : Int → K) (a : K) :
    l.foldl (fun (st : (Int → K) × K) i =>
        ((store st.1 i (g i), st.2 + store st.1 i (g i) i) : (Int → K) × K)) (k0, a)
      = (l.foldl (fun b i => store b i (g i)) k0, a + (l.map g).sum) := by
  induction l generalizing k0 a with
  | nil => simp
  | cons c t ih =>
    simp only [List.foldl_cons, List.map_cons, List.sum_cons]
    rw [ih]
    simp [store, add_assoc]

/-- Cell `i` of the kernel built by the blur filter. -/
theorem buildKernel_fst (m : Libm K) (sigma : K) (r ks : Int) (k0 : Int → K) (i : Int)
    (hi : 0 ≤ i ∧ i < ks) :
    (buildKernel m sigma r ks k0).1 i = gaussian1d m sigma (i - r) := by
  unfold buildKernel forLoop
  rw [foldl_kernel_weight (intRange 0 ks) (fun i => gaussian1d m sigma (i - r)) k0 0]
  exact loop1_store_hit 0 ks (fun i => gaussian1d m sigma (i - r)) k0 i hi

/-- The normalising weight is the sum of the kernel cells. -/
theorem buildKernel_snd (m : Libm K) (sigma : K) (r ks : Int) (k0 : Int → K) :
    (buildKernel m sigma r ks k0).2
      = ∑ i ∈ Finset.Ico (0 : Int) ks, gaussian1d m sigma (i - r) := by
  unfold buildKernel forLoop
  rw [foldl_kernel_weight (intRange 0 ks) (fun i => gaussian1d m sigma (i - r)) k0 0]
  simp only [zero_add]
  rw [← List.sum_toFinset _ (nodup_intRange _ _), intRange_toFinset]

/-- The Gaussian depends on the square of the offset only. -/
theorem gaussian1d_neg (m : Libm K) (sigma : K) (x : Int) :
    gaussian1d m sigma (-x) = gaussian1d m sigma x := by
  unfold gaussian1d
  push_cast
  rw [neg_sq]

/-- The convolved value handed to the combiner for the sample `(x, y)` of the plane, in
terms of the source plane: a double sum over the `(2r+1) x (2r+1)` neighbourhood, samples
outside the plane counting as `0`, divided by the square of the kernel weight. -/
theorem convolved_cell [FloorRing K] (m : Libm K) (heap : Scratch K) (bf : GstBlurFilter K)
    (src : GstVideoFrame Nat) (r : Int) (hr : truncInt (2 * bf.sigma) = r) (hr0 : 0 ≤ r)
    (x y : Int) (hx : 0 ≤ x ∧ x < src.Y.width) (hy : 0 ≤ y ∧ y < src.Y.height) :
    convolved m heap bf src ((y + r) * (src.Y.width + 2 * r) + (x + r))
      = (∑ j ∈ Finset.Icc (0 : Int) (2 * r), ∑ i ∈ Finset.Icc (0 : Int) (2 * r),
          gaussian1d m bf.sigma (i - r) * gaussian1d m bf.sigma (j - r)
            * (if r ≤ x + i ∧ x + i < src.Y.width + r ∧ r ≤ y + j ∧ y + j < src.Y.height + r
                then ((src.Y.data ((y + j - r) * src.Y.stride + (x + i - r)) : Nat) : K)
                else 0))
          / (∑ i ∈ Finset.Icc (0 : Int) (2 * r), gaussian1d m bf.sigma (i - r)) ^ 2 := by
  unfold convolved
  simp only [hr]
  have hW : src.Y.width + (2 * r + 1) - 1 = src.Y.width + 2 * r := by ring
  rw [← hW, blur_xyconvolution_cell _ _ _ _ r _ _ _ hr0 (x + r) (y + r) (by omega) (by omega),
    buildKernel_snd, Ico_zero_eq_Icc]
  congr 1
  refine Finset.sum_congr rfl (fun j hj => Finset.sum_congr rfl (fun i hi => ?_))
  rw [Finset.mem_Icc] at hi hj
  rw [buildKernel_fst m _ r _ _ i (by omega), buildKernel_fst m _ r _ _ j (by omega),
    show y + r + j - r = y + j by ring, show x + r + i - r = x + i by ring,
    padPreimage_cell _ _ _ _ _ _ _ (x + i) (y + j) (by omega) (by omega),
    show (y + j - r) * src.Y.stride + (x + i) - r
      = (y + j - r) * src.Y.stride + (x + i - r) by ring]

end Pipeline

end Blur

/-! ## Evaluation with the real exponential -/

section RealValues

/-- Conversion to a byte of a value between two consecutive integers. -/
theorem toByte_of_floor {K : Type} [LinearOrderedField K] [FloorRing K] (v : K) (n : Nat)
    (h1 : (n : K) ≤ v) (h2 : v < (n : K) + 1) (hn : n ≤ 255) : toByte v = some n := by
  have h0 : (0 : K) ≤ v := le_trans (Nat.cast_nonneg n) h1
  have hn1 : (n : K) + 1 ≤ 256 := by
    have : ((n + 1 : Nat) : K) ≤ ((256 : Nat) : K) := Nat.cast_le.2 (by omega)
    push_cast at this
    exact this
  have hfloor : ⌊v⌋ = (n : Int) := by
    rw [Int.floor_eq_iff]
    push_cast
    exact ⟨h1, h2⟩
  unfold toByte truncInt
  rw [if_pos ⟨lt_of_lt_of_le (by norm_num) h0, lt_of_lt_of_le h2 hn1⟩, if_pos h0, hfloor]
  simp

end RealValues

section BilateralEdge

theorem sum_Icc_neg_two_two {K : Type} [LinearOrderedField K] (f : Int → K) :
    ∑ k ∈ Finset.Icc (-2 : Int) 2, f k = f (-2) + f (-1) + f 0 + f 1 + f 2 := by
  have hI : Finset.Icc (-2 : Int) 2 = {-2, -1, 0, 1, 2} := by decide
  rw [hI, Finset.sum_insert (by decide), Finset.sum_insert (by decide),
    Finset.sum_insert (by decide), Finset.sum_insert (by decide), Finset.sum_singleton]
  ring

/-- The tap loop of radius 2 at a sample of value `c` whose two left (or upper) taps read
the zero padding and whose other taps read `c`. -/
theorem tapLoop_edge {K : Type} [LinearOrderedField K] (m : Libm K) (kernel : Int → K)
    (sigmar c : K) (tap : Int → K) (h1 : tap (-2) = 0) (h2 : tap (-1) = 0) (h3 : tap 0 = c)
    (h4 : tap 1 = c) (h5 : tap 2 = c) :
    Bilateral.tapLoop m kernel sigmar 2 c tap
      = c * ((kernel 2 + kernel 3 + kernel 4) * Bilateral.gaussian1d m sigmar (c - c))
        / ((kernel 0 + kernel 1) * Bilateral.gaussian1d m sigmar (c - 0)
          + (kernel 2 + kernel 3 + kernel 4) * Bilateral.gaussian1d m sigmar (c - c)) := by
  rw [Bilateral.tapLoop_eq, sum_Icc_neg_two_two, sum_Icc_neg_two_two, h1, h2, h3, h4, h5]
  norm_num
  congr 1 <;> ring

/-- Numerical bound on the range weight between the samples 128 and 0 for `sigmar = 25`. -/
theorem exp_range_bound : 254 * Real.exp (-((128 - 0 : ℝ) ^ 2 / (2 * 25 ^ 2))) ≤ 1 := by
  have ha : (4 : ℝ) ≤ Real.exp (3.2768) := by
    have := Real.add_one_le_exp (3.2768 : ℝ)
    linarith
  have hsplit : Real.exp (13.1072)
      = Real.exp 3.2768 * Real.exp 3.2768 * (Real.exp 3.2768 * Real.exp 3.2768) := by
    rw [← Real.exp_add, ← Real.exp_add]
    norm_num
  have hbig : (254 : ℝ) ≤ Real.exp 13.1072 := by
    rw [hsplit]
    have h16 : (16 : ℝ) ≤ Real.exp 3.2768 * Real.exp 3.2768 := by nlinarith
    nlinarith
  have harg : -((128 - 0 : ℝ) ^ 2 / (2 * 25 ^ 2)) = -13.1072 := by norm_num
  rw [harg, Real.exp_neg]
  have hpos : (0 : ℝ) < Real.exp 13.1072 := Real.exp_pos _
  rw [← div_eq_mul_inv, div_le_one hpos]
  exact hbig

end BilateralEdge

namespace Bilateral

/-- On a plane of constant value `c`, the convolved value in the first column of the plane
(padded column 2), at a row whose vertical neighbourhood lies inside the plane: the two left
taps of the x-dim sweep read the zero padding. -/
theorem convolved_left_edge {K : Type} [LinearOrderedField K] (m : Libm K)
    (hexp0 : m.exp 0 = 1) (hexp : ∀ t, 0 ≤ m.exp t)
    (heap : Scratch K) (bl : GstBilateralFilter K) (src : GstVideoFrame Nat) (c : Nat)
    (hflat : ∀ x y, 0 ≤ x → x < src.Y.width → 0 ≤ y → y < src.Y.height →
      src.Y.data (y * src.Y.stride + x) = c)
    (hw : 3 ≤ src.Y.width) (Y : Int) (hY : 4 ≤ Y ∧ Y < src.Y.height) :
    convolved m heap bl src (Y * (src.Y.width + (2 * 2 + 1) - 1) + 2)
      = (c : K) * ((buildKernel m bl.sigmad 2 (2 * 2 + 1) heap.kernel 2
            + buildKernel m bl.sigmad 2 (2 * 2 + 1) heap.kernel 3
            + buildKernel m bl.sigmad 2 (2 * 2 + 1) heap.kernel 4)
          * gaussian1d m bl.sigmar ((c : K) - (c : K)))
        / ((buildKernel m bl.sigmad 2 (2 * 2 + 1) heap.kernel 0
            + buildKernel m bl.sigmad 2 (2 * 2 + 1) heap.kernel 1)
          * gaussian1d m bl.sigmar ((c : K) - 0)
          + (buildKernel m bl.sigmad 2 (2 * 2 + 1) heap.kernel 2
            + buildKernel m bl.sigmad 2 (2 * 2 + 1) heap.kernel 3
            + buildKernel m bl.sigmad 2 (2 * 2 + 1) heap.kernel 4)
          * gaussian1d m bl.sigmar ((c : K) - (c : K))) := by
  have hwp : ∀ c : K, (∑ k ∈ Finset.Icc (-2 : Int) 2,
      buildKernel m bl.sigmad 2 (2 * 2 + 1) heap.kernel (k + 2)
        * gaussian1d m bl.sigmar (c - c)) ≠ 0 := fun c =>
    ne_of_gt (lt_of_lt_of_le zero_lt_one (flat_weight_pos m hexp0 hexp _ _ c _))
  have hin : ∀ X Y : Int, 2 ≤ X → X < src.Y.width + 2 → 2 ≤ Y → Y < src.Y.height + 2 →
      padPreimage src.Y.data src.Y.stride src.Y.width src.Y.height 2 (2 * 2 + 1)
        heap.preimage (Y * (src.Y.width + (2 * 2 + 1) - 1) + X) = (c : K) := by
    intro X Y h1 h2 h3 h4
    rw [padPreimage_cell _ _ _ _ _ _ _ X Y (by omega) (by omega), if_pos ⟨h1, h2, h3, h4⟩,
      show (Y - 2) * src.Y.stride + X - 2 = (Y - 2) * src.Y.stride + (X - 2) by ring,
      hflat (X - 2) (Y - 2) (by omega) (by omega) (by omega) (by omega)]
  have hout : ∀ X Y : Int, 0 ≤ X → X < 2 → 0 ≤ Y → Y < src.Y.height + 2 →
      padPreimage src.Y.data src.Y.stride src.Y.width src.Y.height 2 (2 * 2 + 1)
        heap.preimage (Y * (src.Y.width + (2 * 2 + 1) - 1) + X) = (0 : K) := by
    intro X Y h1 h2 h3 h4
    rw [padPreimage_cell _ _ _ _ _ _ _ X Y (by omega) (by omega), if_neg (by omega)]
  have htemp : ∀ Y : Int, 2 ≤ Y → Y < src.Y.height + 2 →
      xsweep m heap.tempimage
        (padPreimage src.Y.data src.Y.stride src.Y.width src.Y.height 2 (2 * 2 + 1)
          heap.preimage)
        (buildKernel m bl.sigmad 2 (2 * 2 + 1) heap.kernel) bl.sigmar (2 * 2 + 1)
        (src.Y.width + (2 * 2 + 1) - 1) (src.Y.height + (2 * 2 + 1) - 1)
        (Y * (src.Y.width + (2 * 2 + 1) - 1) + 2)
      = (c : K) * ((buildKernel m bl.sigmad 2 (2 * 2 + 1) heap.kernel 2
            + buildKernel m bl.sigmad 2 (2 * 2 + 1) heap.kernel 3
            + buildKernel m bl.sigmad 2 (2 * 2 + 1) heap.kernel 4)
          * gaussian1d m bl.sigmar ((c : K) - (c : K)))
        / ((buildKernel m bl.sigmad 2 (2 * 2 + 1) heap.kernel 0
            + buildKernel m bl.sigmad 2 (2 * 2 + 1) heap.kernel 1)
          * gaussian1d m bl.sigmar ((c : K) - 0)
          + (buildKernel m bl.sigmad 2 (2 * 2 + 1) heap.kernel 2
            + buildKernel m bl.sigmad 2 (2 * 2 + 1) heap.kernel 3
            + buildKernel m bl.sigmad 2 (2 * 2 + 1) heap.kernel 4)
          * gaussian1d m bl.sigmar ((c : K) - (c : K))) := by
    intro Y h3 h4
    rw [bilateral_xsweep_cell m _ _ _ _ 2 _ _ (by decide) 2 Y (by omega) (by omega),
      hin 2 Y (by omega) (by omega) h3 h4]
    refine tapLoop_edge m _ _ _ _ ?_ ?_ ?_ ?_ ?_
    · show padPreimage _ _ _ _ _ _ _ (_ + 2 + -2) = 0
      rw [add_assoc]
      exact hout _ Y (by decide) (by decide) (by omega) h4
    · show padPreimage _ _ _ _ _ _ _ (_ + 2 + -1) = 0
      rw [add_assoc]
      exact hout _ Y (by decide) (by decide) (by omega) h4
    · show padPreimage _ _ _ _ _ _ _ (_ + 2 + 0) = _
      rw [add_assoc]
      exact hin _ Y (by decide) (by omega) h3 h4
    · show padPreimage _ _ _ _ _ _ _ (_ + 2 + 1) = _
      rw [add_assoc]
      exact hin _ Y (by decide) (by omega) h3 h4
    · show padPreimage _ _ _ _ _ _ _ (_ + 2 + 2) = _
      rw [add_assoc]
      exact hin _ Y (by decide) (by omega) h3 h4
  unfold convolved xyconvolution
  rw [bilateral_ysweep_cell m _ _ _ _ 2 _ _ (by decide) 2 Y (by omega) (by omega),
    htemp Y (by omega) (by omega)]
  refine tapLoop_const m _ _ 2 _ _ ?_ (hwp _)
  intro k hk
  rw [Finset.mem_Icc] at hk
  exact htemp (Y + k) (by omega) (by omega)

end Bilateral

/-! ## The blur kernel weight and the impulse response -/

namespace Blur

section Impulse

variable {K : Type} [LinearOrderedField K]

/-- The normalising weight of the blur kernel is positive when `exp 0 = 1`, `exp` is
non-negative, `sqrt (2 * M_PI)` is positive and `sigma` is positive. -/
theorem buildKernel_weight_pos (m : Libm K) (hexp0 : m.exp 0 = 1) (hexp : ∀ t, 0 ≤ m.exp t)
    (hsqrt : 0 < m.sqrt (2 * m.M_PI)) (sigma : K) (hsigma : 0 < sigma) (r : Int) (hr : 0 ≤ r)
    (k0 : Int → K) : 0 < (buildKernel m sigma r (2 * r + 1) k0).2 := by
  rw [buildKernel_snd]
  have hc : 0 < 1 / (m.sqrt (2 * m.M_PI) * sigma) := by positivity
  have hterm : ∀ i ∈ Finset.Ico (0 : Int) (2 * r + 1), 0 ≤ gaussian1d m sigma (i - r) := by
    intro i _
    unfold gaussian1d
    exact mul_nonneg hc.le (hexp _)
  have hcentre : gaussian1d m sigma (r - r) = 1 / (m.sqrt (2 * m.M_PI) * sigma) := by
    unfold gaussian1d
    simp [hexp0]
  calc (0 : K) < gaussian1d m sigma (r - r) := by rw [hcentre]; exact hc
    _ ≤ _ := Finset.single_le_sum (f := fun i : Int => gaussian1d m sigma (i - r)) hterm
        (Finset.mem_Ico.2 ⟨hr, by omega⟩)

/-- The radius derived from `sigma = 1.0` is 2. -/
theorem truncInt_two_mul_one [FloorRing K] : truncInt (2 * (1 : K)) = 2 := by
  unfold truncInt
  rw [mul_one, if_pos (by norm_num)]
  exact Int.floor_ofNat 2

end Impulse

end Blur

/-! ## Key presses -/

namespace Blur

section KeyPresses

variable {K : Type} [LinearOrderedField K]

theorem keypress_plus (st : GstBlurFilter K) :
    (keypress_handler st "+").1
      = if st.filtering = 0 then ⟨1 / 2, 1⟩
        else if st.filtering = 1 then ⟨st.sigma + 1 / 2, st.filtering⟩
        else if st.filtering = -1 ∧ st.sigma = 1 / 2 then ⟨0, 0⟩
        else if st.filtering = -1 then ⟨st.sigma - 1 / 2, st.filtering⟩
        else st := by
  unfold keypress_handler
  simp only [if_true]
  split_ifs <;> rfl

theorem keypress_minus (st : GstBlurFilter K) :
    (keypress_handler st "-").1
      = if st.filtering = 0 then ⟨1 / 2, -1⟩
        else if st.filtering = -1 then ⟨st.sigma + 1 / 2, st.filtering⟩
        else if st.filtering = 1 ∧ st.sigma = 1 / 2 then ⟨0, 0⟩
        else if st.filtering = 1 then ⟨st.sigma - 1 / 2, st.filtering⟩
        else st := by
  have hkey : ¬ ("-" : String) = "+" := by decide
  unfold keypress_handler
  simp only [hkey, if_false, if_true]
  split_ifs <;> rfl

theorem keypress_other (st : GstBlurFilter K) (key : String) (h1 : key ≠ "+")
    (h2 : key ≠ "-") : keypress_handler st key = (st, []) := by
  unfold keypress_handler
  rw [if_neg h1, if_neg h2]

end KeyPresses

end Blur

namespace Blur

section KeyInvariants

variable {K : Type} [LinearOrderedField K]

theorem half_mul_eq_half_iff (n : Nat) : (n : K) * (1 / 2) = 1 / 2 ↔ n = 1 := by
  constructor
  · intro h
    have h2 : (n : K) = 1 := by linarith
    exact_mod_cast h2
  · rintro rfl
    simp

theorem keyInvariant_init : KeyInvariant (gst_blur_filter_init K) :=
  ⟨0, by simp [gst_blur_filter_init], Or.inl ⟨rfl, rfl⟩⟩

/-- One key press preserves the invariant. -/
theorem keyInvariant_step (st : GstBlurFilter K) (key : String) (h : KeyInvariant st) :
    KeyInvariant (keypress_handler st key).1 := by
  obtain ⟨n, hs, hcase⟩ := h
  by_cases hp : key = "+"
  · subst hp
    rw [keypress_plus]
    rcases hcase with ⟨hf, _⟩ | ⟨hf | hf, hn⟩
    · rw [if_pos hf]
      exact ⟨1, by simp, Or.inr ⟨Or.inl rfl, le_refl 1⟩⟩
    · rw [if_neg (by rw [hf]; decide), if_pos hf]
      exact ⟨n + 1, by simp only [hs]; push_cast; ring, Or.inr ⟨Or.inl hf, by omega⟩⟩
    · rw [if_neg (by rw [hf]; decide), if_neg (by rw [hf]; decide)]
      by_cases h1 : st.sigma = 1 / 2
      · rw [if_pos ⟨hf, h1⟩]
        exact ⟨0, by simp, Or.inl ⟨rfl, rfl⟩⟩
      · rw [if_neg (fun hh => h1 hh.2), if_pos hf]
        have hn1 : n ≠ 1 := fun hh => h1 (by rw [hs]; exact (half_mul_eq_half_iff n).2 hh)
        obtain ⟨k, rfl⟩ : ∃ k, n = k + 1 := ⟨n - 1, by omega⟩
        exact ⟨k, by simp only [hs]; push_cast; ring, Or.inr ⟨Or.inr hf, by omega⟩⟩
  · by_cases hm : key = "-"
    · subst hm
      rw [keypress_minus]
      rcases hcase with ⟨hf, _⟩ | ⟨hf | hf, hn⟩
      · rw [if_pos hf]
        exact ⟨1, by simp, Or.inr ⟨Or.inr rfl, le_refl 1⟩⟩
      · rw [if_neg (by rw [hf]; decide), if_neg (by rw [hf]; decide)]
        by_cases h1 : st.sigma = 1 / 2
        · rw [if_pos ⟨hf, h1⟩]
          exact ⟨0, by simp, Or.inl ⟨rfl, rfl⟩⟩
        · rw [if_neg (fun hh => h1 hh.2), if_pos hf]
          have hn1 : n ≠ 1 := fun hh => h1 (by rw [hs]; exact (half_mul_eq_half_iff n).2 hh)
          obtain ⟨k, rfl⟩ : ∃ k, n = k + 1 := ⟨n - 1, by omega⟩
          exact ⟨k, by simp only [hs]; push_cast; ring, Or.inr ⟨Or.inl hf, by omega⟩⟩
      · rw [if_neg (by rw [hf]; decide), if_pos hf]
        exact ⟨n + 1, by simp only [hs]; push_cast; ring, Or.inr ⟨Or.inr hf, by omega⟩⟩
    · rw [keypress_other st key hp hm]
      exact ⟨n, hs, hcase⟩

/-- Every state reached by key presses from a state satisfying the invariant satisfies it. -/
theorem keyInvariant_keypresses (keys : List String) (st : GstBlurFilter K)
    (h : KeyInvariant st) : KeyInvariant (keypresses keys st) := by
  induction keys generalizing st with
  | nil => exact h
  | cons key t ih => exact ih _ (keyInvariant_step st key h)

/-- The final `else` branch prints exactly when the mode is none of `0`, `1`, `-1`. -/
theorem shouldNotHaveComeHere_mem (st : GstBlurFilter K) (key : String)
    (h : Print.shouldNotHaveComeHere ∈ (keypress_handler st key).2) :
    st.filtering ≠ 0 ∧ st.filtering ≠ 1 ∧ st.filtering ≠ -1 := by
  unfold keypress_handler at h
  refine ⟨fun h0 => ?_, fun h1 => ?_, fun hm => ?_⟩
  · simp [h0] at h
    split_ifs at h <;> simp at h
  · simp [h1] at h
    split_ifs at h <;> simp at h
  · simp [hm] at h
    split_ifs at h <;> simp at h

/-- Repeated "+" presses from the initial state: `n + 1` presses give `((n + 1) * 0.5, +1)`. -/
theorem keypresses_plus (n : Nat) :
    keypresses (List.replicate (n + 1) "+") (gst_blur_filter_init K)
      = ⟨((n + 1 : Nat) : K) * (1 / 2), 1⟩ := by
  induction n with
  | zero => simp [keypresses, keypress_plus, gst_blur_filter_init]
  | succ k ih =>
    have hsplit : List.replicate (k + 1 + 1) "+" = List.replicate (k + 1) "+" ++ ["+"] := by
      rw [← List.replicate_succ']
    unfold keypresses at ih ⊢
    rw [hsplit, List.foldl_append, ih]
    simp only [List.foldl_cons, List.foldl_nil]
    rw [keypress_plus, if_neg (show ¬ (1 : Int) = 0 by decide), if_pos rfl]
    congr 1
    push_cast
    ring

end KeyInvariants

end Blur

/-! ## Index safety of the sweeps -/

section IndexSafety

theorem mem_sweepWrites (ylo yhi xlo xhi W j : Int) :
    (j ∈ (intRange ylo yhi).flatMap fun y => (intRange xlo xhi).map fun x => y * W + x) ↔
      ∃ y x, (ylo ≤ y ∧ y < yhi) ∧ (xlo ≤ x ∧ x < xhi) ∧ j = y * W + x := by
  simp only [List.mem_flatMap, List.mem_map, mem_intRange]
  constructor
  · rintro ⟨y, hy, x, hx, rfl⟩
    exact ⟨y, x, hy, hx, rfl⟩
  · rintro ⟨y, x, hy, hx, rfl⟩
    exact ⟨y, hy, x, hx, rfl⟩

/-- The write traces agree with the sweeps: a cell outside the trace of a loop nest keeps its
content. -/
theorem sweeps_untouched_outside_traces {K : Type} [LinearOrderedField K] (m : Libm K)
    (buf0 src kernel : Int → K) (sigmar weight : K) (ks W H j : Int) :
    (j ∉ Blur.xsweepWrites ks W H → Blur.xsweep buf0 src kernel ks W H weight j = buf0 j) ∧
    (j ∉ Blur.ysweepWrites ks W H → Blur.ysweep src buf0 kernel ks W H weight j = buf0 j) ∧
    (j ∉ Bilateral.xsweepWrites ks W H →
      Bilateral.xsweep m buf0 src kernel sigmar ks W H j = buf0 j) ∧
    (j ∉ Bilateral.ysweepWrites ks W H →
      Bilateral.ysweep m src buf0 kernel sigmar ks W H j = buf0 j) := by
  refine ⟨fun h => ?_, fun h => ?_, fun h => ?_, fun h => ?_⟩
  · unfold Blur.xsweep
    unfold Blur.xsweepWrites at h
    refine loop2_store_miss _ _ _ _ (fun y x => y * W + x) _ buf0 j ?_
    intro y x h1 h2 h3 h4 he
    exact h ((mem_sweepWrites _ _ _ _ W j).2 ⟨y, x, ⟨h1, h2⟩, ⟨h3, h4⟩, he.symm⟩)
  · unfold Blur.ysweep
    unfold Blur.ysweepWrites at h
    refine loop2_store_miss _ _ _ _ (fun y x => y * W + x) _ buf0 j ?_
    intro y x h1 h2 h3 h4 he
    exact h ((mem_sweepWrites _ _ _ _ W j).2 ⟨y, x, ⟨h1, h2⟩, ⟨h3, h4⟩, he.symm⟩)
  · unfold Bilateral.xsweep
    unfold Bilateral.xsweepWrites at h
    refine loop2_store_miss _ _ _ _ (fun y x => y * W + x) _ buf0 j ?_
    intro y x h1 h2 h3 h4 he
    exact h ((mem_sweepWrites _ _ _ _ W j).2 ⟨y, x, ⟨h1, h2⟩, ⟨h3, h4⟩, he.symm⟩)
  · unfold Bilateral.ysweep
    unfold Bilateral.ysweepWrites at h
    refine loop2_store_miss _ _ _ _ (fun y x => y * W + x) _ buf0 j ?_
    intro y x h1 h2 h3 h4 he
    exact h ((mem_sweepWrites _ _ _ _ W j).2 ⟨y, x, ⟨h1, h2⟩, ⟨h3, h4⟩, he.symm⟩)

end IndexSafety

/-! ## Range of the bilateral output -/

section WeightedMean

variable {K : Type} [LinearOrderedField K]

/-- A quotient of a weighted sum by the sum of its non-negative weights lies between any
lower and upper bound of the weighted values. -/
theorem weighted_mean_bounds {ι : Type} (s : Finset ι) (w t : ι → K) (lo hi : K)
    (hw : ∀ k ∈ s, 0 ≤ w k) (hpos : 0 < ∑ k ∈ s, w k)
    (hlo : ∀ k ∈ s, lo ≤ t k) (hhi : ∀ k ∈ s, t k ≤ hi) :
    lo ≤ (∑ k ∈ s, t k * w k) / (∑ k ∈ s, w k) ∧
      (∑ k ∈ s, t k * w k) / (∑ k ∈ s, w k) ≤ hi := by
  constructor
  · rw [le_div_iff₀ hpos, Finset.mul_sum]
    exact Finset.sum_le_sum (fun k hk => mul_le_mul_of_nonneg_right (hlo k hk) (hw k hk))
  · rw [div_le_iff₀ hpos, Finset.mul_sum]
    exact Finset.sum_le_sum (fun k hk => mul_le_mul_of_nonneg_right (hhi k hk) (hw k hk))

/-- Conversion to a byte of a value in `[0, 255]` is defined. -/
theorem toByte_of_range [FloorRing K] (v : K) (h0 : 0 ≤ v) (h255 : v ≤ 255) :
    ∃ b : Nat, b ≤ 255 ∧ toByte v = some b := by
  refine ⟨⌊v⌋.toNat, ?_, ?_⟩
  · have h1 : ⌊v⌋ ≤ 255 := by
      have : ⌊v⌋ ≤ ⌊(255 : K)⌋ := Int.floor_le_floor h255
      rwa [show ⌊(255 : K)⌋ = 255 from Int.floor_ofNat 255] at this
    have h2 : 0 ≤ ⌊v⌋ := Int.floor_nonneg.2 h0
    omega
  · unfold toByte truncInt
    rw [if_pos ⟨lt_of_lt_of_le (by norm_num) h0, lt_of_le_of_lt h255 (by norm_num)⟩, if_pos h0]

end WeightedMean

namespace Bilateral

section ByteRange

variable {K : Type} [LinearOrderedField K]

/-- The two sums accumulated by the tap loop. -/
theorem tapSums_eq (m : Libm K) (kernel : Int → K) (sigmar : K) (r : Int) (pixa : K)
    (tap : Int → K) :
    tapSums m kernel sigmar r pixa tap
      = (∑ k ∈ Finset.Icc (-r) r,
            tap k * (kernel (k + r) * gaussian1d m sigmar (pixa - tap k)),
          ∑ k ∈ Finset.Icc (-r) r, kernel (k + r) * gaussian1d m sigmar (pixa - tap k)) := by
  unfold tapSums forLoop
  have hstep : (fun st i => tapStep m kernel sigmar r pixa tap i st)
      = (fun (st : K × K) k =>
          ((st.1 + tap k * (kernel (k + r) * gaussian1d m sigmar (pixa - tap k)),
            st.2 + kernel (k + r) * gaussian1d m sigmar (pixa - tap k)) : K × K)) := by
    funext st k
    rfl
  simp only [hstep]
  rw [foldl_pair_eq_sum]
  simp only [zero_add]
  rw [← List.sum_toFinset _ (nodup_intRange _ _), ← List.sum_toFinset _ (nodup_intRange _ _),
    intRange_toFinset, Ico_succ_eq_Icc]

/-- For a kernel with non-negative cells and centre cell 1, the normaliser of the tap loop is
at least 1 and the quotient lies between the smallest and the largest tap. -/
theorem tapLoop_bounds (m : Libm K) (hexp0 : m.exp 0 = 1) (hexp : ∀ t, 0 ≤ m.exp t)
    (kernel : Int → K) (r : Int) (hr : 0 ≤ r)
    (hk : ∀ k ∈ Finset.Icc (-r) r, 0 ≤ kernel (k + r)) (hk0 : kernel (0 + r) = 1)
    (sigmar pixa : K) (tap : Int → K) (htap0 : tap 0 = pixa) :
    1 ≤ (tapSums m kernel sigmar r pixa tap).2 ∧
    tapLoop m kernel sigmar r pixa tap
      = (tapSums m kernel sigmar r pixa tap).1 / (tapSums m kernel sigmar r pixa tap).2 ∧
    ∃ k1 ∈ Finset.Icc (-r) r, ∃ k2 ∈ Finset.Icc (-r) r,
      tap k1 ≤ tapLoop m kernel sigmar r pixa tap ∧
      tapLoop m kernel sigmar r pixa tap ≤ tap k2 := by
  have hw : ∀ k ∈ Finset.Icc (-r) r,
      0 ≤ kernel (k + r) * gaussian1d m sigmar (pixa - tap k) :=
    fun k hk1 => mul_nonneg (hk k hk1) (hexp _)
  have h0mem : (0 : Int) ∈ Finset.Icc (-r) r := Finset.mem_Icc.2 ⟨by omega, hr⟩
  have hcentre : kernel (0 + r) * gaussian1d m sigmar (pixa - tap 0) = 1 := by
    rw [hk0, htap0, gaussian1d_self, hexp0, mul_one]
  have hsum : 1 ≤ ∑ k ∈ Finset.Icc (-r) r,
      kernel (k + r) * gaussian1d m sigmar (pixa - tap k) :=
    calc (1 : K) = kernel (0 + r) * gaussian1d m sigmar (pixa - tap 0) := hcentre.symm
      _ ≤ _ := Finset.single_le_sum (f := fun k : Int =>
          kernel (k + r) * gaussian1d m sigmar (pixa - tap k)) hw h0mem
  obtain ⟨k1, hk1, hmin⟩ := Finset.exists_min_image (Finset.Icc (-r) r) tap ⟨0, h0mem⟩
  obtain ⟨k2, hk2, hmax⟩ := Finset.exists_max_image (Finset.Icc (-r) r) tap ⟨0, h0mem⟩
  have hb := weighted_mean_bounds (Finset.Icc (-r) r)
    (fun k => kernel (k + r) * gaussian1d m sigmar (pixa - tap k)) tap (tap k1) (tap k2)
    hw (lt_of_lt_of_le zero_lt_one hsum) hmin hmax
  refine ⟨by rw [tapSums_eq]; exact hsum, rfl, k1, hk1, k2, hk2, ?_, ?_⟩
  · rw [tapLoop_eq]
    exact hb.1
  · rw [tapLoop_eq]
    exact hb.2

/-- The cells of the domain kernel are non-negative and the centre cell is 1. -/
theorem kernelOf_props (m : Libm K) (hexp0 : m.exp 0 = 1) (hexp : ∀ t, 0 ≤ m.exp t)
    (heap : Scratch K) (bl : GstBilateralFilter K) :
    (∀ k ∈ Finset.Icc (-2 : Int) 2, 0 ≤ kernelOf m heap bl (k + 2)) ∧
      kernelOf m heap bl (0 + 2) = 1 := by
  unfold kernelOf
  constructor
  · intro k hk
    rw [Finset.mem_Icc] at hk
    rw [buildKernel_cell m _ 2 _ _ (k + 2) (by omega)]
    exact hexp _
  · rw [buildKernel_cell m _ 2 _ _ (0 + 2) (by decide)]
    unfold gaussian1d
    simp [hexp0]

/-- Every cell of the padded buffer holds a value in `[0, 255]`. -/
theorem preimageOf_range (heap : Scratch K) (src : GstVideoFrame Nat)
    (hbyte : ∀ i, src.Y.data i ≤ 255) (X Y : Int)
    (hX : 0 ≤ X ∧ X < src.Y.width + (2 * 2 + 1) - 1)
    (hY : 0 ≤ Y ∧ Y < src.Y.height + (2 * 2 + 1) - 1) :
    0 ≤ preimageOf (K := K) heap src (Y * (src.Y.width + (2 * 2 + 1) - 1) + X) ∧
      preimageOf (K := K) heap src (Y * (src.Y.width + (2 * 2 + 1) - 1) + X) ≤ 255 := by
  unfold preimageOf
  rw [padPreimage_cell _ _ _ _ _ _ _ X Y hX hY]
  split_ifs
  · refine ⟨Nat.cast_nonneg _, ?_⟩
    have : ((src.Y.data ((Y - 2) * src.Y.stride + X - 2) : Nat) : K) ≤ ((255 : Nat) : K) :=
      Nat.cast_le.2 (hbyte _)
    simpa using this
  · exact ⟨le_refl 0, by norm_num⟩

end ByteRange

end Bilateral
/-! ## Rounding to `float` -/

section Rounding

variable {K : Type} [LinearOrderedField K] [FloorRing K]

/-- A value strictly within one half of the integer `n` rounds to `n`. -/
theorem roundHalfEven_of_lt (y : K) (n : Int) (h1 : (n : K) - 1 / 2 < y)
    (h2 : y < (n : K) + 1 / 2) : roundHalfEven y = n := by
  unfold roundHalfEven
  rcases le_or_lt (n : K) y with hny | hny
  · have hfl : ⌊y⌋ = n := by
      rw [Int.floor_eq_iff]
      exact ⟨hny, by linarith⟩
    rw [hfl, if_pos (by linarith)]
  · have hfl : ⌊y⌋ = n - 1 := by
      rw [Int.floor_eq_iff]
      push_cast
      exact ⟨by linarith, by linarith⟩
    rw [hfl]
    push_cast
    rw [if_neg (by linarith), if_pos (by linarith)]
    ring

/-- A tie above an even integer rounds down to it. -/
theorem roundHalfEven_tie_even (y : K) (n : Int) (hy : y = (n : K) + 1 / 2) (hn : n % 2 = 0) :
    roundHalfEven y = n := by
  unfold roundHalfEven
  have hfl : ⌊y⌋ = n := by
    rw [Int.floor_eq_iff]
    exact ⟨by linarith, by linarith⟩
  rw [hfl, if_neg (by linarith), if_neg (by linarith), if_pos hn]

theorem roundHalfEven_zero : roundHalfEven (0 : K) = 0 := by
  have := roundHalfEven_of_lt (0 : K) 0 (by norm_num) (by norm_num)
  simpa using this

theorem fl32_zero : fl32 (0 : K) = 0 := by
  unfold fl32
  simp [roundHalfEven_zero]

/-- The binade of a value. -/
theorem log_two_abs (x : K) (e : Int) (hlo : (2 : K) ^ e ≤ |x|) (hhi : |x| < (2 : K) ^ (e + 1)) :
    Int.log 2 |x| = e := by
  have hpos : 0 < |x| := lt_of_lt_of_le (zpow_pos (by norm_num) e) hlo
  have h1 : e ≤ Int.log 2 |x| := by
    rw [← Int.zpow_le_iff_le_log (by norm_num) hpos]
    exact_mod_cast hlo
  have h2 : Int.log 2 |x| < e + 1 := by
    rw [← Int.lt_zpow_iff_log_lt (by norm_num) hpos]
    exact_mod_cast hhi
  omega

/-- Certificate of a rounding: `x` lies in the binade of exponent `e ≥ -126` and strictly
within half a unit in the last place of `n * 2 ^ (e - 23)`. -/
theorem fl32_cert_abs (x v : K) (e n : Int) (he : -126 ≤ e) (hlo : (2 : K) ^ e ≤ |x|)
    (hhi : |x| < (2 : K) ^ (e + 1))
    (h1 : ((n : K) - 1 / 2) * (2 : K) ^ (e - 23) < x)
    (h2 : x < ((n : K) + 1 / 2) * (2 : K) ^ (e - 23))
    (hv : v = (n : K) * (2 : K) ^ (e - 23)) : fl32 x = v := by
  have hq : (0 : K) < (2 : K) ^ (e - 23) := zpow_pos (by norm_num) _
  unfold fl32
  simp only [log_two_abs x e hlo hhi, max_eq_left he]
  rw [roundHalfEven_of_lt _ n (by rwa [lt_div_iff₀ hq]) (by rwa [div_lt_iff₀ hq]), hv]

/-- Certificate of a rounding at a tie: `x` is half-way between `n * 2 ^ (e - 23)` and the next
float, and `n` is even. -/
theorem fl32_cert_tie_abs (x v : K) (e n : Int) (he : -126 ≤ e) (hlo : (2 : K) ^ e ≤ |x|)
    (hhi : |x| < (2 : K) ^ (e + 1))
    (h1 : x = ((n : K) + 1 / 2) * (2 : K) ^ (e - 23)) (hn : n % 2 = 0)
    (hv : v = (n : K) * (2 : K) ^ (e - 23)) : fl32 x = v := by
  have hq : (0 : K) < (2 : K) ^ (e - 23) := zpow_pos (by norm_num) _
  unfold fl32
  simp only [log_two_abs x e hlo hhi, max_eq_left he]
  rw [roundHalfEven_tie_even _ n (by rw [h1, mul_div_assoc, div_self hq.ne', mul_one]) hn, hv]

/-- Certificate of the rounding of a positive value. -/
theorem fl32_cert (x v : K) (e n : Int) (he : -126 ≤ e) (hlo : (2 : K) ^ e ≤ x)
    (hhi : x < (2 : K) ^ (e + 1))
    (h1 : ((n : K) - 1 / 2) * (2 : K) ^ (e - 23) < x)
    (h2 : x < ((n : K) + 1 / 2) * (2 : K) ^ (e - 23))
    (hv : v = (n : K) * (2 : K) ^ (e - 23)) : fl32 x = v := by
  have hx : |x| = x := abs_of_pos (lt_of_lt_of_le (zpow_pos (by norm_num) e) hlo)
  exact fl32_cert_abs x v e n he (by rwa [hx]) (by rwa [hx]) h1 h2 hv

/-- Certificate of the rounding of a negative value. -/
theorem fl32_cert_neg (x v : K) (e n : Int) (he : -126 ≤ e) (hlo : (2 : K) ^ e ≤ -x)
    (hhi : -x < (2 : K) ^ (e + 1))
    (h1 : ((n : K) - 1 / 2) * (2 : K) ^ (e - 23) < x)
    (h2 : x < ((n : K) + 1 / 2) * (2 : K) ^ (e - 23))
    (hv : v = (n : K) * (2 : K) ^ (e - 23)) : fl32 x = v := by
  have hx : |x| = -x :=
    abs_of_neg (neg_pos.1 (lt_of_lt_of_le (zpow_pos (by norm_num) e) hlo))
  exact fl32_cert_abs x v e n he (by rwa [hx]) (by rwa [hx]) h1 h2 hv

/-- Certificate of the rounding of a positive value at a tie. -/
theorem fl32_cert_tie (x v : K) (e n : Int) (he : -126 ≤ e) (hlo : (2 : K) ^ e ≤ x)
    (hhi : x < (2 : K) ^ (e + 1))
    (h1 : x = ((n : K) + 1 / 2) * (2 : K) ^ (e - 23)) (hn : n % 2 = 0)
    (hv : v = (n : K) * (2 : K) ^ (e - 23)) : fl32 x = v := by
  have hx : |x| = x := abs_of_pos (lt_of_lt_of_le (zpow_pos (by norm_num) e) hlo)
  exact fl32_cert_tie_abs x v e n he (by rwa [hx]) (by rwa [hx]) h1 hn hv

/-- The `float` nearest to `0.1` is `13421773 * 2 ^ (-27)`, the value of the literal `0.1f`. -/
theorem fl32_one_tenth : fl32 (1 / 10 : ℚ) = 13421773 / 134217728 :=
  fl32_cert _ _ (-4) 13421773 (by norm_num) (by norm_num) (by norm_num) (by norm_num)
    (by norm_num) (by norm_num)

/-- The integer `2 ^ 24 + 1` is a tie between two floats and rounds to `2 ^ 24`. -/
theorem fl32_tie_example : fl32 (16777217 : ℚ) = 16777216 :=
  fl32_cert_tie _ _ 24 8388608 (by norm_num) (by norm_num) (by norm_num) (by norm_num)
    (by norm_num) (by norm_num)

end Rounding
/-! ## The rounded loops, cell by cell -/

section Unrolled

theorem intRange_zero_five : intRange 0 5 = [0, 1, 2, 3, 4] := by
  decide

theorem intRange_neg_two_three : intRange (-2) (2 + 1) = [-2, -1, 0, 1, 2] := by
  decide

/-- A loop `for (k = 0; k < 5; ++k)` runs its body for `k = 0, 1, 2, 3, 4`. -/
theorem forLoop_zero_five {σ : Type} (body : Int → σ → σ) (s : σ) :
    forLoop 0 5 body s = body 4 (body 3 (body 2 (body 1 (body 0 s)))) := by
  unfold forLoop
  rw [intRange_zero_five]
  rfl

/-- A loop `for (k = -2; k <= 2; ++k)` runs its body for `k = -2, -1, 0, 1, 2`. -/
theorem forLoop_neg_two_three {σ : Type} (body : Int → σ → σ) (s : σ) :
    forLoop (-2) (2 + 1) body s = body 2 (body 1 (body 0 (body (-1) (body (-2) s)))) := by
  unfold forLoop
  rw [intRange_neg_two_three]
  rfl

end Unrolled

namespace Blur

section RoundedSweeps

variable {K : Type} [LinearOrderedField K]

/-- With `rnd = id` the rounded convolution is the exact one. -/
theorem blur_xyconvolutionRnd_id (temp0 pre post0 kernel : Int → K) (ks W H : Int) (weight : K) :
    xyconvolutionRnd id temp0 pre post0 kernel ks W H weight
      = xyconvolution temp0 pre post0 kernel ks W H weight := rfl

/-- With `rnd = id` the rounded kernel is the exact one. -/
theorem blur_buildKernelRnd_id (m : Libm K) (sigma : K) (r ks : Int) (k0 : Int → K) :
    buildKernelRnd id m sigma r ks k0 = buildKernel m sigma r ks k0 := rfl

/-- With `rnd = id` the rounded combiner is the exact one. -/
theorem blur_combineRnd_id (s : Int → Nat) (post : Int → K) (f sstride sw r ks y x : Int) :
    combineRnd id s post f sstride sw r ks y x = combine s post f sstride sw r ks y x := rfl

/-- The cell `(x, y)` of `tempimage` after the rounded x-dim sweep. -/
theorem blur_xsweepRnd_cell (rnd : K → K) (temp0 pre kernel : Int → K) (r W H : Int)
    (weight : K) (hr : 0 ≤ r) (x y : Int) (hx : r ≤ x ∧ x < W - r) (hy : 0 ≤ y ∧ y < H) :
    xsweepRnd rnd temp0 pre kernel (2 * r + 1) W H weight (y * W + x)
      = rnd (xtmpRnd rnd pre kernel (2 * r + 1) W r y x / weight) := by
  unfold xsweepRnd
  simp only [tdiv_kernelradius]
  refine loop2_store_hit 0 H r (W - r) (fun y x => y * W + x)
    (fun y x => rnd (xtmpRnd rnd pre kernel (2 * r + 1) W r y x / weight)) temp0 y x hy hx ?_
  intro y2 x2 _ _ hx2 hx2w he
  obtain ⟨rfl, rfl⟩ := rowMajor_inj (w := W) (by omega) (by omega) (by omega) (by omega) he
  rfl

/-- The cell `(x, y)` of `postimage` after the rounded y-dim sweep. -/
theorem blur_ysweepRnd_cell (rnd : K → K) (temp post0 kernel : Int → K) (r W H : Int)
    (weight : K) (hr : 0 ≤ r) (x y : Int) (hx : r ≤ x ∧ x < W - r) (hy : r ≤ y ∧ y < H - r) :
    ysweepRnd rnd temp post0 kernel (2 * r + 1) W H weight (y * W + x)
      = rnd (ytmpRnd rnd temp kernel (2 * r + 1) W r y x / weight) := by
  unfold ysweepRnd
  simp only [tdiv_kernelradius]
  refine loop2_store_hit r (H - r) r (W - r) (fun y x => y * W + x)
    (fun y x => rnd (ytmpRnd rnd temp kernel (2 * r + 1) W r y x / weight)) post0 y x hy hx ?_
  intro y2 x2 _ _ hx2 hx2w he
  obtain ⟨rfl, rfl⟩ := rowMajor_inj (w := W) (by omega) (by omega) (by omega) (by omega) he
  rfl

/-- The five turns of the rounded x-dim accumulation for a kernel of size 5. -/
theorem blur_xtmpRnd_five (rnd : K → K) (pre kernel : Int → K) (W x y : Int)
    (hx : 2 ≤ x ∧ x < W - 2) :
    xtmpRnd rnd pre kernel (2 * 2 + 1) W 2 y x
      = rnd (rnd (rnd (rnd (rnd (0 + rnd (pre (y * W + x + 0 - 2) * kernel 0))
          + rnd (pre (y * W + x + 1 - 2) * kernel 1))
          + rnd (pre (y * W + x + 2 - 2) * kernel 2))
          + rnd (pre (y * W + x + 3 - 2) * kernel 3))
          + rnd (pre (y * W + x + 4 - 2) * kernel 4)) := by
  unfold xtmpRnd
  rw [if_pos ⟨hx.1, hx.2⟩, show (2 : Int) * 2 + 1 = 5 by decide, forLoop_zero_five]

/-- The five turns of the rounded y-dim accumulation for a kernel of size 5. -/
theorem blur_ytmpRnd_five (rnd : K → K) (temp kernel : Int → K) (W x y : Int) :
    ytmpRnd rnd temp kernel (2 * 2 + 1) W 2 y x
      = rnd (rnd (rnd (rnd (rnd (0 + rnd (temp ((y + 0 - 2) * W + x) * kernel 0))
          + rnd (temp ((y + 1 - 2) * W + x) * kernel 1))
          + rnd (temp ((y + 2 - 2) * W + x) * kernel 2))
          + rnd (temp ((y + 3 - 2) * W + x) * kernel 3))
          + rnd (temp ((y + 4 - 2) * W + x) * kernel 4)) := by
  unfold ytmpRnd
  rw [show (2 : Int) * 2 + 1 = 5 by decide, forLoop_zero_five]

/-- The kernel of size 5 and its weight, as the rounded loop leaves them. -/
theorem blur_buildKernelRnd_five (rnd : K → K) (m : Libm K) (sigma : K) (k0 : Int → K) :
    (buildKernelRnd rnd m sigma 2 5 k0).1 0 = gaussian1dRnd rnd m sigma (-2)
    ∧ (buildKernelRnd rnd m sigma 2 5 k0).1 1 = gaussian1dRnd rnd m sigma (-1)
    ∧ (buildKernelRnd rnd m sigma 2 5 k0).1 2 = gaussian1dRnd rnd m sigma 0
    ∧ (buildKernelRnd rnd m sigma 2 5 k0).1 3 = gaussian1dRnd rnd m sigma 1
    ∧ (buildKernelRnd rnd m sigma 2 5 k0).1 4 = gaussian1dRnd rnd m sigma 2
    ∧ (buildKernelRnd rnd m sigma 2 5 k0).2
      = rnd (rnd (rnd (rnd (rnd (0 + gaussian1dRnd rnd m sigma (-2))
          + gaussian1dRnd rnd m sigma (-1)) + gaussian1dRnd rnd m sigma 0)
          + gaussian1dRnd rnd m sigma 1) + gaussian1dRnd rnd m sigma 2) := by
  unfold buildKernelRnd
  rw [forLoop_zero_five]
  simp [store, Function.update]

end RoundedSweeps

section RoundedWriter

variable {K : Type} [LinearOrderedField K] [FloorRing K]

/-- The rounded combiner stores the conversion of `combineRnd` at every sample. -/
theorem blur_writeLumaRnd_cell (rnd : K → K) (s : Int → Nat) (post : Int → K)
    (filtering sstride sw r ks : Int) (dstride dw dh : Int) (d : Int → Option Nat) (x y : Int)
    (hx : 0 ≤ x ∧ x < dw) (hy : 0 ≤ y ∧ y < dh) (hstride : dw ≤ dstride) :
    writeLumaRnd rnd s post filtering sstride sw r ks dstride dw dh d (y * dstride + x)
      = toByte (combineRnd rnd s post filtering sstride sw r ks y x) := by
  unfold writeLumaRnd
  refine loop2_store_hit 0 dh 0 dw (fun y x => y * dstride + x)
    (fun y x => toByte (combineRnd rnd s post filtering sstride sw r ks y x)) d y x hy hx ?_
  intro y2 x2 _ _ hx2 hx2w he
  obtain ⟨rfl, rfl⟩ := rowMajor_inj (w := dstride) (by omega) (by omega) (by omega)
    (by omega) he
  rfl

/-- With `rnd = id` the rounded filter is the exact one. -/
theorem gst_blur_filter_convolutionRnd_id (m : Libm K) (heap : Scratch K)
    (bf : GstBlurFilter K) (dest : GstVideoFrame (Option Nat)) (src : GstVideoFrame Nat) :
    gst_blur_filter_convolutionRnd id m heap bf dest src
      = gst_blur_filter_convolution m heap bf dest src := rfl

end RoundedWriter

end Blur

namespace Bilateral

section RoundedSweeps

variable {K : Type} [LinearOrderedField K]

/-- With `rnd = id` the rounded tap loop is the exact one. -/
theorem tapLoopRnd_id (m : Libm K) (kernel : Int → K) (sigmar : K) (r : Int) (pixa : K)
    (tap : Int → K) :
    tapLoopRnd id m kernel sigmar r pixa tap = tapLoop m kernel sigmar r pixa tap := rfl

/-- With `rnd = id` the rounded `postimage` is the exact one. -/
theorem bilateral_convolvedRnd_id (m : Libm K) (heap : Scratch K) (bl : GstBilateralFilter K)
    (src : GstVideoFrame Nat) :
    convolvedRnd id m heap bl src = convolved m heap bl src := rfl

/-- Cell `i` of the rounded domain kernel. -/
theorem buildKernelRnd_cell (rnd : K → K) (m : Libm K) (sigmad : K) (r ks : Int)
    (k0 : Int → K) (i : Int) (hi : 0 ≤ i ∧ i < ks) :
    buildKernelRnd rnd m sigmad r ks k0 i
      = gaussian1dRnd rnd m sigmad (rnd ((i : K) - (r : K))) := by
  unfold buildKernelRnd
  exact loop1_store_hit 0 ks
    (fun i => gaussian1dRnd rnd m sigmad (rnd ((i : K) - (r : K)))) k0 i hi

/-- The cell `(x, y)` of `tempimage` after the rounded x-dim sweep. -/
theorem bilateral_xsweepRnd_cell (rnd : K → K) (m : Libm K) (temp0 pre kernel : Int → K)
    (sigmar : K) (r W H : Int) (hr : 0 ≤ r) (x y : Int) (hx : r ≤ x ∧ x < W - r)
    (hy : 0 ≤ y ∧ y < H) :
    xsweepRnd rnd m temp0 pre kernel sigmar (2 * r + 1) W H (y * W + x)
      = tapLoopRnd rnd m kernel sigmar r (pre (y * W + x)) (fun k => pre (y * W + x + k)) := by
  unfold xsweepRnd
  simp only [tdiv_kernelradius]
  refine loop2_store_hit 0 H r (W - r) (fun y x => y * W + x)
    (fun y x => tapLoopRnd rnd m kernel sigmar r (pre (y * W + x))
      (fun k => pre (y * W + x + k))) temp0 y x hy hx ?_
  intro y2 x2 _ _ hx2 hx2w he
  obtain ⟨rfl, rfl⟩ := rowMajor_inj (w := W) (by omega) (by omega) (by omega) (by omega) he
  rfl

/-- The cell `(x, y)` of `postimage` after the rounded y-dim sweep. -/
theorem bilateral_ysweepRnd_cell (rnd : K → K) (m : Libm K) (temp post0 kernel : Int → K)
    (sigmar : K) (r W H : Int) (hr : 0 ≤ r) (x y : Int) (hx : r ≤ x ∧ x < W - r)
    (hy : r ≤ y ∧ y < H - r) :
    ysweepRnd rnd m temp post0 kernel sigmar (2 * r + 1) W H (y * W + x)
      = tapLoopRnd rnd m kernel sigmar r (temp (y * W + x))
          (fun k => temp ((y + k) * W + x)) := by
  unfold ysweepRnd
  simp only [tdiv_kernelradius]
  refine loop2_store_hit r (H - r) r (W - r) (fun y x => y * W + x)
    (fun y x => tapLoopRnd rnd m kernel sigmar r (temp (y * W + x))
      (fun k => temp ((y + k) * W + x))) post0 y x hy hx ?_
  intro y2 x2 _ _ hx2 hx2w he
  obtain ⟨rfl, rfl⟩ := rowMajor_inj (w := W) (by omega) (by omega) (by omega) (by omega) he
  rfl

/-- The five turns of the rounded tap loop for the radius 2, on taps that all equal the
centre sample `c`: `g` is the rounded range weight of a zero difference. -/
theorem tapLoopRnd_flat_five (rnd : K → K) (m : Libm K) (kernel : Int → K) (sigmar c : K)
    (tap : Int → K) (htap : ∀ k, -2 ≤ k → k ≤ 2 → tap k = c) :
    tapLoopRnd rnd m kernel sigmar 2 c tap
      = rnd (
        rnd (rnd (rnd (rnd (rnd (0
          + rnd (c * rnd (kernel 0 * gaussian1dRnd rnd m sigmar (rnd (c - c)))))
          + rnd (c * rnd (kernel 1 * gaussian1dRnd rnd m sigmar (rnd (c - c)))))
          + rnd (c * rnd (kernel 2 * gaussian1dRnd rnd m sigmar (rnd (c - c)))))
          + rnd (c * rnd (kernel 3 * gaussian1dRnd rnd m sigmar (rnd (c - c)))))
          + rnd (c * rnd (kernel 4 * gaussian1dRnd rnd m sigmar (rnd (c - c)))))
        / rnd (rnd (rnd (rnd (rnd (0
          + rnd (kernel 0 * gaussian1dRnd rnd m sigmar (rnd (c - c))))
          + rnd (kernel 1 * gaussian1dRnd rnd m sigmar (rnd (c - c))))
          + rnd (kernel 2 * gaussian1dRnd rnd m sigmar (rnd (c - c))))
          + rnd (kernel 3 * gaussian1dRnd rnd m sigmar (rnd (c - c))))
          + rnd (kernel 4 * gaussian1dRnd rnd m sigmar (rnd (c - c))))) := by
  unfold tapLoopRnd
  rw [forLoop_neg_two_three]
  simp only [tapStepRnd, htap (-2) (by decide) (by decide), htap (-1) (by decide) (by decide),
    htap 0 (by decide) (by decide), htap 1 (by decide) (by decide),
    htap 2 (by decide) (by decide)]
  rfl

end RoundedSweeps

/-- With `rnd = id` the rounded filter is the exact one. -/
theorem gst_bilateral_filter_convolutionRnd_id {K : Type} [LinearOrderedField K] [FloorRing K]
    (m : Libm K) (heap : Scratch K) (bl : GstBilateralFilter K)
    (dest : GstVideoFrame (Option Nat)) (src : GstVideoFrame Nat) :
    gst_bilateral_filter_convolutionRnd id m heap bl dest src
      = gst_bilateral_filter_convolution m heap bl dest src := rfl

end Bilateral
/-! ## Numerical bounds on the values of `<cmath>` -/

section RealBounds

theorem exp_neg_one_tight :
    (0.36787944115236 : ℝ) < Real.exp (-1) ∧ Real.exp (-1) < 0.36787944119297 := by
  have h1 := Real.exp_one_gt_d9
  have h2 := Real.exp_one_lt_d9
  have hpos : 0 < Real.exp 1 := Real.exp_pos 1
  rw [Real.exp_neg]
  constructor
  · rw [lt_inv_comm₀ (by norm_num) hpos]
    calc Real.exp 1 < 2.7182818286 := h2
      _ < (0.36787944115236 : ℝ)⁻¹ := by norm_num
  · rw [inv_lt_comm₀ hpos (by norm_num)]
    calc ((0.36787944119297 : ℝ))⁻¹ < 2.7182818283 := by norm_num
      _ < Real.exp 1 := h1

theorem exp_neg_half_tight :
    (0.6065306596969 : ℝ) < Real.exp (-(1 / 2)) ∧ Real.exp (-(1 / 2)) < 0.60653065973038 := by
  have hE := exp_neg_one_tight
  have hsq : Real.exp (-(1 / 2)) ^ 2 = Real.exp (-1) := by
    rw [← Real.exp_nat_mul]
    norm_num
  have hpos : 0 < Real.exp (-(1 / 2)) := Real.exp_pos _
  constructor
  · refine lt_of_pow_lt_pow_left₀ 2 hpos.le ?_
    rw [hsq]
    exact lt_trans (by norm_num) hE.1
  · refine lt_of_pow_lt_pow_left₀ 2 (by norm_num) ?_
    rw [hsq]
    exact lt_trans hE.2 (by norm_num)

theorem exp_neg_eighth_tight :
    (0.88249690257887 : ℝ) < Real.exp (-(1 / 8)) ∧ Real.exp (-(1 / 8)) < 0.88249690259106 := by
  have hE := exp_neg_one_tight
  have hsq : Real.exp (-(1 / 8)) ^ 8 = Real.exp (-1) := by
    rw [← Real.exp_nat_mul]
    norm_num
  have hpos : 0 < Real.exp (-(1 / 8)) := Real.exp_pos _
  constructor
  · refine lt_of_pow_lt_pow_left₀ 8 hpos.le ?_
    rw [hsq]
    exact lt_trans (by norm_num) hE.1
  · refine lt_of_pow_lt_pow_left₀ 8 (by norm_num) ?_
    rw [hsq]
    exact lt_trans hE.2 (by norm_num)

theorem exp_neg_two_tight :
    (0.13533528322257 : ℝ) < Real.exp (-2) ∧ Real.exp (-2) < 0.13533528325246 := by
  have hE := exp_neg_one_tight
  have hsq : Real.exp (-2) = Real.exp (-1) ^ 2 := by
    rw [← Real.exp_nat_mul]
    norm_num
  have hpos : 0 < Real.exp (-1) := Real.exp_pos _
  rw [hsq]
  constructor
  · calc (0.13533528322257 : ℝ) < 0.36787944115236 ^ 2 := by norm_num
      _ < Real.exp (-1) ^ 2 := pow_lt_pow_left₀ hE.1 (by norm_num) (by norm_num)
  · calc Real.exp (-1) ^ 2 < 0.36787944119297 ^ 2 :=
        pow_lt_pow_left₀ hE.2 hpos.le (by norm_num)
      _ < (0.13533528325246 : ℝ) := by norm_num

theorem sqrt_two_pi_tight :
    (2.5066282746310005 : ℝ) < Real.sqrt (2 * Real.pi)
      ∧ Real.sqrt (2 * Real.pi) < 2.5066282746310006 := by
  have h1 := Real.pi_gt_d20
  have h2 := Real.pi_lt_d20
  constructor
  · rw [Real.lt_sqrt (by norm_num)]
    calc (2.5066282746310005 : ℝ) ^ 2 < 2 * 3.14159265358979323846 := by norm_num
      _ < 2 * Real.pi := by linarith
  · rw [Real.sqrt_lt' (by norm_num)]
    calc 2 * Real.pi < 2 * 3.14159265358979323847 := by linarith
      _ < (2.5066282746310006 : ℝ) ^ 2 := by norm_num

/-- Bounds on a quotient `1 / (S * 1) * E` from bounds on `S` and `E`. -/
theorem quot_bounds (E S L U El Eh Sl Sh : ℝ) (hSl0 : 0 < Sl) (hSl : Sl < S) (hSh : S < Sh)
    (hEl : El < E) (hEh : E < Eh) (hL0 : 0 ≤ L) (hU0 : 0 ≤ U) (hL : L * Sh ≤ El)
    (hU : Eh ≤ U * Sl) : L < 1 / (S * 1) * E ∧ 1 / (S * 1) * E < U := by
  have hS : 0 < S := lt_trans hSl0 hSl
  have heq : 1 / (S * 1) * E = E / S := by
    rw [mul_one, one_div, inv_mul_eq_div]
  rw [heq]
  constructor
  · rw [lt_div_iff₀ hS]
    calc L * S ≤ L * Sh := mul_le_mul_of_nonneg_left hSh.le hL0
      _ ≤ El := hL
      _ < E := hEl
  · rw [div_lt_iff₀ hS]
    calc E < Eh := hEh
      _ ≤ U * Sl := hU
      _ ≤ U * S := mul_le_mul_of_nonneg_left hSl.le hU0

end RealBounds
/-! ## The two filters in binary32 on concrete planes -/

section FloatValues

namespace Blur

/-- In `float`, `sigma = 1.0` gives the radius `2`. -/
theorem blur_radius_float : truncInt (fl32 (2 * fl32 (1 : ℝ))) = 2 := by
  have c1 : fl32 (1 : ℝ) = 1 :=
    fl32_cert _ _ 0 8388608 (by norm_num) (by norm_num) (by norm_num) (by norm_num)
      (by norm_num) (by norm_num)
  have c2 : fl32 (2 * 1 : ℝ) = 2 :=
    fl32_cert _ _ 1 8388608 (by norm_num) (by norm_num) (by norm_num) (by norm_num)
      (by norm_num) (by norm_num)
  simp only [c1, c2]
  unfold truncInt
  rw [if_pos (by norm_num)]
  exact Int.floor_ofNat 2

/-- The cell `kernel[0]` for `sigma = 1.0`: the `float` nearest to `exp(-2) / sqrt(2 pi)`. -/
theorem blur_kernel_float_m2 :
    gaussian1dRnd fl32 (⟨Real.exp, Real.sqrt, Real.pi⟩ : Libm ℝ) 1 (-2)
      = 7246545 / 134217728 := by
  have hS := sqrt_two_pi_tight
  have hE := exp_neg_two_tight
  have hx : gaussian1dRnd fl32 (⟨Real.exp, Real.sqrt, Real.pi⟩ : Libm ℝ) 1 (-2)
      = fl32 (1 / (Real.sqrt (2 * Real.pi) * 1) * Real.exp (-2)) := by
    unfold gaussian1dRnd
    norm_num
  obtain ⟨hL, hU⟩ := quot_bounds (Real.exp (-2)) (Real.sqrt (2 * Real.pi))
    (28986179 / 536870912) (28986181 / 536870912) 0.13533528322257 0.13533528325246
    2.5066282746310005 2.5066282746310006 (by norm_num) hS.1 hS.2 hE.1 hE.2
    (by norm_num) (by norm_num) (by norm_num) (by norm_num)
  rw [hx]
  exact fl32_cert _ _ (-5) 14493090 (by norm_num)
    (le_of_lt (lt_of_le_of_lt (by norm_num) hL)) (lt_of_lt_of_le hU (by norm_num))
    (lt_of_le_of_lt (by norm_num) hL) (lt_of_lt_of_le hU (by norm_num)) (by norm_num)

/-- The cell `kernel[1]` for `sigma = 1.0`: the `float` nearest to `exp(-1/2) / sqrt(2 pi)`. -/
theorem blur_kernel_float_m1 :
    gaussian1dRnd fl32 (⟨Real.exp, Real.sqrt, Real.pi⟩ : Libm ℝ) 1 (-1)
      = 4059595 / 16777216 := by
  have hS := sqrt_two_pi_tight
  have hE := exp_neg_half_tight
  have hx : gaussian1dRnd fl32 (⟨Real.exp, Real.sqrt, Real.pi⟩ : Libm ℝ) 1 (-1)
      = fl32 (1 / (Real.sqrt (2 * Real.pi) * 1) * Real.exp (-(1 / 2))) := by
    unfold gaussian1dRnd
    norm_num
  obtain ⟨hL, hU⟩ := quot_bounds (Real.exp (-(1 / 2))) (Real.sqrt (2 * Real.pi))
    (32476759 / 134217728) (32476761 / 134217728) 0.6065306596969 0.60653065973038
    2.5066282746310005 2.5066282746310006 (by norm_num) hS.1 hS.2 hE.1 hE.2
    (by norm_num) (by norm_num) (by norm_num) (by norm_num)
  rw [hx]
  exact fl32_cert _ _ (-3) 16238380 (by norm_num)
    (le_of_lt (lt_of_le_of_lt (by norm_num) hL)) (lt_of_lt_of_le hU (by norm_num))
    (lt_of_le_of_lt (by norm_num) hL) (lt_of_lt_of_le hU (by norm_num)) (by norm_num)

/-- The cell `kernel[2]` for `sigma = 1.0`: the `float` nearest to `1 / sqrt(2 pi)`. -/
theorem blur_kernel_float_0 :
    gaussian1dRnd fl32 (⟨Real.exp, Real.sqrt, Real.pi⟩ : Libm ℝ) 1 0
      = 6693141 / 16777216 := by
  have hS := sqrt_two_pi_tight
  have hx : gaussian1dRnd fl32 (⟨Real.exp, Real.sqrt, Real.pi⟩ : Libm ℝ) 1 0
      = fl32 (1 / (Real.sqrt (2 * Real.pi) * 1) * 1) := by
    unfold gaussian1dRnd
    norm_num
  obtain ⟨hL, hU⟩ := quot_bounds (1) (Real.sqrt (2 * Real.pi))
    (26772563 / 67108864) (26772565 / 67108864) 0.9999999999999 1.0000000000001
    2.5066282746310005 2.5066282746310006 (by norm_num) hS.1 hS.2 (by norm_num) (by norm_num)
    (by norm_num) (by norm_num) (by norm_num) (by norm_num)
  rw [hx]
  exact fl32_cert _ _ (-2) 13386282 (by norm_num)
    (le_of_lt (lt_of_le_of_lt (by norm_num) hL)) (lt_of_lt_of_le hU (by norm_num))
    (lt_of_le_of_lt (by norm_num) hL) (lt_of_lt_of_le hU (by norm_num)) (by norm_num)

/-- The cell `kernel[3]` for `sigma = 1.0`. -/
theorem blur_kernel_float_p1 :
    gaussian1dRnd fl32 (⟨Real.exp, Real.sqrt, Real.pi⟩ : Libm ℝ) 1 1
      = 4059595 / 16777216 := by
  have hS := sqrt_two_pi_tight
  have hE := exp_neg_half_tight
  have hx : gaussian1dRnd fl32 (⟨Real.exp, Real.sqrt, Real.pi⟩ : Libm ℝ) 1 1
      = fl32 (1 / (Real.sqrt (2 * Real.pi) * 1) * Real.exp (-(1 / 2))) := by
    unfold gaussian1dRnd
    norm_num
  obtain ⟨hL, hU⟩ := quot_bounds (Real.exp (-(1 / 2))) (Real.sqrt (2 * Real.pi))
    (32476759 / 134217728) (32476761 / 134217728) 0.6065306596969 0.60653065973038
    2.5066282746310005 2.5066282746310006 (by norm_num) hS.1 hS.2 hE.1 hE.2
    (by norm_num) (by norm_num) (by norm_num) (by norm_num)
  rw [hx]
  exact fl32_cert _ _ (-3) 16238380 (by norm_num)
    (le_of_lt (lt_of_le_of_lt (by norm_num) hL)) (lt_of_lt_of_le hU (by norm_num))
    (lt_of_le_of_lt (by norm_num) hL) (lt_of_lt_of_le hU (by norm_num)) (by norm_num)

/-- The cell `kernel[4]` for `sigma = 1.0`. -/
theorem blur_kernel_float_p2 :
    gaussian1dRnd fl32 (⟨Real.exp, Real.sqrt, Real.pi⟩ : Libm ℝ) 1 2
      = 7246545 / 134217728 := by
  have hS := sqrt_two_pi_tight
  have hE := exp_neg_two_tight
  have hx : gaussian1dRnd fl32 (⟨Real.exp, Real.sqrt, Real.pi⟩ : Libm ℝ) 1 2
      = fl32 (1 / (Real.sqrt (2 * Real.pi) * 1) * Real.exp (-2)) := by
    unfold gaussian1dRnd
    norm_num
  obtain ⟨hL, hU⟩ := quot_bounds (Real.exp (-2)) (Real.sqrt (2 * Real.pi))
    (28986179 / 536870912) (28986181 / 536870912) 0.13533528322257 0.13533528325246
    2.5066282746310005 2.5066282746310006 (by norm_num) hS.1 hS.2 hE.1 hE.2
    (by norm_num) (by norm_num) (by norm_num) (by norm_num)
  rw [hx]
  exact fl32_cert _ _ (-5) 14493090 (by norm_num)
    (le_of_lt (lt_of_le_of_lt (by norm_num) hL)) (lt_of_lt_of_le hU (by norm_num))
    (lt_of_le_of_lt (by norm_num) hL) (lt_of_lt_of_le hU (by norm_num)) (by norm_num)

/-- The kernel of size 5 for `sigma = 1.0` and its weight, in `float`. -/
theorem blur_kernel_float (k0 : Int → ℝ) :
    (buildKernelRnd fl32 (⟨Real.exp, Real.sqrt, Real.pi⟩ : Libm ℝ) 1 2 5 k0).1 0
      = 7246545 / 134217728
    ∧ (buildKernelRnd fl32 (⟨Real.exp, Real.sqrt, Real.pi⟩ : Libm ℝ) 1 2 5 k0).1 1
      = 4059595 / 16777216
    ∧ (buildKernelRnd fl32 (⟨Real.exp, Real.sqrt, Real.pi⟩ : Libm ℝ) 1 2 5 k0).1 2
      = 6693141 / 16777216
    ∧ (buildKernelRnd fl32 (⟨Real.exp, Real.sqrt, Real.pi⟩ : Libm ℝ) 1 2 5 k0).1 3
      = 4059595 / 16777216
    ∧ (buildKernelRnd fl32 (⟨Real.exp, Real.sqrt, Real.pi⟩ : Libm ℝ) 1 2 5 k0).1 4
      = 7246545 / 134217728
    ∧ (buildKernelRnd fl32 (⟨Real.exp, Real.sqrt, Real.pi⟩ : Libm ℝ) 1 2 5 k0).2
      = 16623967 / 16777216 := by
  obtain ⟨h0, h1, h2, h3, h4, hw⟩ := blur_buildKernelRnd_five fl32
    (⟨Real.exp, Real.sqrt, Real.pi⟩ : Libm ℝ) 1 k0
  have c1 : fl32 (0 + 7246545 / 134217728 : ℝ) = 7246545 / 134217728 :=
    fl32_cert _ _ (-5) 14493090 (by norm_num) (by norm_num) (by norm_num) (by norm_num)
      (by norm_num) (by norm_num)
  have c2 : fl32 (7246545 / 134217728 + 4059595 / 16777216 : ℝ) = 4965413 / 16777216 :=
    fl32_cert _ _ (-2) 9930826 (by norm_num) (by norm_num) (by norm_num) (by norm_num)
      (by norm_num) (by norm_num)
  have c3 : fl32 (4965413 / 16777216 + 6693141 / 16777216 : ℝ) = 5829277 / 8388608 :=
    fl32_cert _ _ (-1) 11658554 (by norm_num) (by norm_num) (by norm_num) (by norm_num)
      (by norm_num) (by norm_num)
  have c4 : fl32 (5829277 / 8388608 + 4059595 / 16777216 : ℝ) = 15718149 / 16777216 :=
    fl32_cert _ _ (-1) 15718149 (by norm_num) (by norm_num) (by norm_num) (by norm_num)
      (by norm_num) (by norm_num)
  have c5 : fl32 (15718149 / 16777216 + 7246545 / 134217728 : ℝ) = 16623967 / 16777216 :=
    fl32_cert _ _ (-1) 16623967 (by norm_num) (by norm_num) (by norm_num) (by norm_num)
      (by norm_num) (by norm_num)
  refine ⟨?_, ?_, ?_, ?_, ?_, ?_⟩
  · rw [h0, blur_kernel_float_m2]
  · rw [h1, blur_kernel_float_m1]
  · rw [h2, blur_kernel_float_0]
  · rw [h3, blur_kernel_float_p1]
  · rw [h4, blur_kernel_float_p2]
  · rw [hw, blur_kernel_float_m2, blur_kernel_float_m1, blur_kernel_float_0,
      blur_kernel_float_p1, blur_kernel_float_p2]
    simp only [c1, c2, c3, c4, c5]

/-- The two sweeps in `float` on a padded buffer `9 x 9` whose neighbourhood of the cell
`(4, 4)` is zero except for `114` at `(4, 4)` and `107` at `(5, 4)`, with the kernel of
`sigma = 1.0`: the cell `(4, 4)` of `postimage` is `7602175 / 262144`, just below `29`. -/
theorem blur_pair_post (temp0 pre post0 kernel : Int → ℝ) (weight : ℝ)
    (hk0 : kernel 0 = 7246545 / 134217728) (hk1 : kernel 1 = 4059595 / 16777216)
    (hk2 : kernel 2 = 6693141 / 16777216) (hk3 : kernel 3 = 4059595 / 16777216)
    (hk4 : kernel 4 = 7246545 / 134217728) (hw : weight = 16623967 / 16777216)
    (hpre : ∀ y x : Int, 2 ≤ y → y ≤ 6 → 2 ≤ x → x ≤ 6 →
      pre (y * 9 + x) = if y = 4 ∧ x = 4 then 114 else if y = 4 ∧ x = 5 then 107 else 0) :
    xyconvolutionRnd fl32 temp0 pre post0 kernel (2 * 2 + 1) 9 9 weight (4 * 9 + 4)
      = 7602175 / 262144 := by
  have c1 : fl32 (0 * (7246545 / 134217728) : ℝ) = 0 := by
    rw [show (0 * (7246545 / 134217728) : ℝ) = 0 by norm_num]
    exact fl32_zero
  have c2 : fl32 (0 + 0 : ℝ) = 0 := by
    rw [show (0 + 0 : ℝ) = 0 by norm_num]
    exact fl32_zero
  have c3 : fl32 (0 * (4059595 / 16777216) : ℝ) = 0 := by
    rw [show (0 * (4059595 / 16777216) : ℝ) = 0 by norm_num]
    exact fl32_zero
  have c4 : fl32 (114 * (6693141 / 16777216) : ℝ) = 11922157 / 262144 :=
    fl32_cert _ _ 5 11922157 (by norm_num) (by norm_num) (by norm_num) (by norm_num)
      (by norm_num) (by norm_num)
  have c5 : fl32 (0 + 11922157 / 262144 : ℝ) = 11922157 / 262144 :=
    fl32_cert _ _ 5 11922157 (by norm_num) (by norm_num) (by norm_num) (by norm_num)
      (by norm_num) (by norm_num)
  have c6 : fl32 (107 * (4059595 / 16777216) : ℝ) = 13574271 / 524288 :=
    fl32_cert _ _ 4 13574271 (by norm_num) (by norm_num) (by norm_num) (by norm_num)
      (by norm_num) (by norm_num)
  have c7 : fl32 (11922157 / 262144 + 13574271 / 524288 : ℝ) = 4677323 / 65536 :=
    fl32_cert _ _ 6 9354646 (by norm_num) (by norm_num) (by norm_num) (by norm_num)
      (by norm_num) (by norm_num)
  have c8 : fl32 (4677323 / 65536 + 0 : ℝ) = 4677323 / 65536 :=
    fl32_cert _ _ 6 9354646 (by norm_num) (by norm_num) (by norm_num) (by norm_num)
      (by norm_num) (by norm_num)
  have c9 : fl32 (4677323 / 65536 / (16623967 / 16777216) : ℝ) = 4720441 / 65536 :=
    fl32_cert _ _ 6 9440882 (by norm_num) (by norm_num) (by norm_num) (by norm_num)
      (by norm_num) (by norm_num)
  have c10 : fl32 (0 * (6693141 / 16777216) : ℝ) = 0 := by
    rw [show (0 * (6693141 / 16777216) : ℝ) = 0 by norm_num]
    exact fl32_zero
  have c11 : fl32 (0 / (16623967 / 16777216) : ℝ) = 0 := by
    rw [show (0 / (16623967 / 16777216) : ℝ) = 0 by norm_num]
    exact fl32_zero
  have c12 : fl32 (4720441 / 65536 * (6693141 / 16777216) : ℝ) = 3766367 / 131072 :=
    fl32_cert _ _ 4 15065468 (by norm_num) (by norm_num) (by norm_num) (by norm_num)
      (by norm_num) (by norm_num)
  have c13 : fl32 (0 + 3766367 / 131072 : ℝ) = 3766367 / 131072 :=
    fl32_cert _ _ 4 15065468 (by norm_num) (by norm_num) (by norm_num) (by norm_num)
      (by norm_num) (by norm_num)
  have c14 : fl32 (3766367 / 131072 + 0 : ℝ) = 3766367 / 131072 :=
    fl32_cert _ _ 4 15065468 (by norm_num) (by norm_num) (by norm_num) (by norm_num)
      (by norm_num) (by norm_num)
  have c15 : fl32 (3766367 / 131072 / (16623967 / 16777216) : ℝ) = 7602175 / 262144 :=
    fl32_cert _ _ 4 15204350 (by norm_num) (by norm_num) (by norm_num) (by norm_num)
      (by norm_num) (by norm_num)
  have hcell : ∀ y k : Int, 2 ≤ y → y ≤ 6 → 0 ≤ k → k ≤ 4 →
      pre (y * 9 + 4 + k - 2)
        = if y = 4 ∧ k = 2 then 114 else if y = 4 ∧ k = 3 then 107 else 0 := by
    intro y k hy1 hy2 hk1 hk2
    rw [show y * 9 + 4 + k - 2 = y * 9 + (k + 2) by ring, hpre y (k + 2) hy1 hy2 (by omega)
      (by omega)]
    have e1 : (k + 2 = 4) ↔ (k = 2) := by omega
    have e2 : (k + 2 = 5) ↔ (k = 3) := by omega
    simp only [e1, e2]
  have hrow : ∀ y : Int, 2 ≤ y → y ≤ 6 →
      xsweepRnd fl32 temp0 pre kernel (2 * 2 + 1) 9 9 weight (y * 9 + 4)
        = if y = 4 then 4720441 / 65536 else 0 := by
    intro y hy1 hy2
    rw [blur_xsweepRnd_cell fl32 temp0 pre kernel 2 9 9 weight (by decide) 4 y
      ⟨by decide, by decide⟩ ⟨by omega, by omega⟩]
    rw [blur_xtmpRnd_five fl32 pre kernel 9 4 y ⟨by decide, by decide⟩,
      hcell y 0 hy1 hy2 (by decide) (by decide), hcell y 1 hy1 hy2 (by decide) (by decide),
      hcell y 2 hy1 hy2 (by decide) (by decide), hcell y 3 hy1 hy2 (by decide) (by decide),
      hcell y 4 hy1 hy2 (by decide) (by decide), hk0, hk1, hk2, hk3, hk4, hw]
    by_cases h4 : y = 4
    · simp only [h4, true_and, if_true, show ¬ ((0 : Int) = 2) by decide,
        show ¬ ((0 : Int) = 3) by decide, show ¬ ((1 : Int) = 2) by decide,
        show ¬ ((1 : Int) = 3) by decide, show ¬ ((2 : Int) = 3) by decide,
        show ¬ ((3 : Int) = 2) by decide, show ¬ ((4 : Int) = 2) by decide,
        show ¬ ((4 : Int) = 3) by decide, if_false]
      simp only [c1, c2, c3, c4, c5, c6, c7, c8, c9]
    · simp only [h4, false_and, if_false]
      simp only [c1, c2, c3, c10, c11]
  unfold xyconvolutionRnd
  rw [blur_ysweepRnd_cell fl32 _ post0 kernel 2 9 9 weight (by decide) 4 4
    ⟨by decide, by decide⟩ ⟨by decide, by decide⟩]
  rw [blur_ytmpRnd_five, show ((4 : Int) + 0 - 2) = 2 by decide,
    show ((4 : Int) + 1 - 2) = 3 by decide,
    show ((4 : Int) + 2 - 2) = 4 by decide, show ((4 : Int) + 3 - 2) = 5 by decide,
    show ((4 : Int) + 4 - 2) = 6 by decide,
    hrow 2 (by decide) (by decide), hrow 3 (by decide) (by decide),
    hrow 4 (by decide) (by decide), hrow 5 (by decide) (by decide),
    hrow 6 (by decide) (by decide), hk0, hk1, hk2, hk3, hk4, hw]
  simp only [show ¬ ((2 : Int) = 4) by decide, show ¬ ((3 : Int) = 4) by decide,
    show ¬ ((5 : Int) = 4) by decide, show ¬ ((6 : Int) = 4) by decide, if_false, if_true]
  simp only [c1, c2, c3, c12, c13, c14, c15]

/-- The combiner in `float` for the sample `114` and the convolved value `7602175 / 262144`:
the difference `114 - postimage` is a tie and rounds to `85`, so the sum is `29`. -/
theorem blur_pair_combine :
    fl32 ((114 : ℝ) + fl32 (-1 * fl32 (114 - 7602175 / 262144))) = 29 := by
  have c1 : fl32 (114 - 7602175 / 262144 : ℝ) = 85 :=
    fl32_cert_tie _ _ 6 11141120 (by norm_num) (by norm_num) (by norm_num) (by norm_num)
      (by norm_num) (by norm_num)
  have c2 : fl32 (-1 * 85 : ℝ) = -85 :=
    fl32_cert_neg _ _ 6 (-11141120) (by norm_num) (by norm_num) (by norm_num) (by norm_num)
      (by norm_num) (by norm_num)
  have c3 : fl32 (114 + -85 : ℝ) = 29 :=
    fl32_cert _ _ 4 15204352 (by norm_num) (by norm_num) (by norm_num) (by norm_num)
      (by norm_num) (by norm_num)
  simp only [c1, c2, c3]

end Blur

namespace Bilateral

/-- The cell `kernel[0]` of the domain kernel for `sigmad = 2.0`, in `float`. -/
theorem bilateral_kernel_float_0 :
    gaussian1dRnd fl32 (⟨Real.exp, Real.sqrt, Real.pi⟩ : Libm ℝ) 2
        (fl32 (((0 : Int) : ℝ) - ((2 : Int) : ℝ))) = 1271987 / 2097152 := by
  have hd : fl32 (((0 : Int) : ℝ) - ((2 : Int) : ℝ)) = -2 := by
    rw [show (((0 : Int) : ℝ) - ((2 : Int) : ℝ)) = -2 by norm_num]
    exact fl32_cert_neg _ _ 1 (-8388608) (by norm_num) (by norm_num) (by norm_num) (by norm_num)
      (by norm_num) (by norm_num)
  have hx : gaussian1dRnd fl32 (⟨Real.exp, Real.sqrt, Real.pi⟩ : Libm ℝ) 2 (-2)
      = fl32 (Real.exp (-(1 / 2))) := by
    unfold gaussian1dRnd
    norm_num
  have hE := exp_neg_half_tight
  rw [hd, hx]
  exact fl32_cert _ _ (-1) 10175896 (by norm_num)
    (le_of_lt (lt_of_le_of_lt (by norm_num) hE.1)) (lt_of_lt_of_le hE.2 (by norm_num))
    (lt_of_le_of_lt (by norm_num) hE.1) (lt_of_lt_of_le hE.2 (by norm_num)) (by norm_num)

/-- The cell `kernel[1]` of the domain kernel for `sigmad = 2.0`, in `float`. -/
theorem bilateral_kernel_float_1 :
    gaussian1dRnd fl32 (⟨Real.exp, Real.sqrt, Real.pi⟩ : Libm ℝ) 2
        (fl32 (((1 : Int) : ℝ) - ((2 : Int) : ℝ))) = 14805841 / 16777216 := by
  have hd : fl32 (((1 : Int) : ℝ) - ((2 : Int) : ℝ)) = -1 := by
    rw [show (((1 : Int) : ℝ) - ((2 : Int) : ℝ)) = -1 by norm_num]
    exact fl32_cert_neg _ _ 0 (-8388608) (by norm_num) (by norm_num) (by norm_num) (by norm_num)
      (by norm_num) (by norm_num)
  have hx : gaussian1dRnd fl32 (⟨Real.exp, Real.sqrt, Real.pi⟩ : Libm ℝ) 2 (-1)
      = fl32 (Real.exp (-(1 / 8))) := by
    unfold gaussian1dRnd
    norm_num
  have hE := exp_neg_eighth_tight
  rw [hd, hx]
  exact fl32_cert _ _ (-1) 14805841 (by norm_num)
    (le_of_lt (lt_of_le_of_lt (by norm_num) hE.1)) (lt_of_lt_of_le hE.2 (by norm_num))
    (lt_of_le_of_lt (by norm_num) hE.1) (lt_of_lt_of_le hE.2 (by norm_num)) (by norm_num)

/-- The cell `kernel[2]` of the domain kernel for `sigmad = 2.0`, in `float`. -/
theorem bilateral_kernel_float_2 :
    gaussian1dRnd fl32 (⟨Real.exp, Real.sqrt, Real.pi⟩ : Libm ℝ) 2
        (fl32 (((2 : Int) : ℝ) - ((2 : Int) : ℝ))) = 1 := by
  have hd : fl32 (((2 : Int) : ℝ) - ((2 : Int) : ℝ)) = 0 := by
    rw [show (((2 : Int) : ℝ) - ((2 : Int) : ℝ)) = 0 by norm_num]
    exact fl32_zero
  have hx : gaussian1dRnd fl32 (⟨Real.exp, Real.sqrt, Real.pi⟩ : Libm ℝ) 2 0 = fl32 1 := by
    unfold gaussian1dRnd
    norm_num
  rw [hd, hx]
  exact fl32_cert _ _ 0 8388608 (by norm_num) (by norm_num) (by norm_num) (by norm_num)
    (by norm_num) (by norm_num)

/-- The cell `kernel[3]` of the domain kernel for `sigmad = 2.0`, in `float`. -/
theorem bilateral_kernel_float_3 :
    gaussian1dRnd fl32 (⟨Real.exp, Real.sqrt, Real.pi⟩ : Libm ℝ) 2
        (fl32 (((3 : Int) : ℝ) - ((2 : Int) : ℝ))) = 14805841 / 16777216 := by
  have hd : fl32 (((3 : Int) : ℝ) - ((2 : Int) : ℝ)) = 1 := by
    rw [show (((3 : Int) : ℝ) - ((2 : Int) : ℝ)) = 1 by norm_num]
    exact fl32_cert _ _ 0 8388608 (by norm_num) (by norm_num) (by norm_num) (by norm_num)
      (by norm_num) (by norm_num)
  have hx : gaussian1dRnd fl32 (⟨Real.exp, Real.sqrt, Real.pi⟩ : Libm ℝ) 2 1
      = fl32 (Real.exp (-(1 / 8))) := by
    unfold gaussian1dRnd
    norm_num
  have hE := exp_neg_eighth_tight
  rw [hd, hx]
  exact fl32_cert _ _ (-1) 14805841 (by norm_num)
    (le_of_lt (lt_of_le_of_lt (by norm_num) hE.1)) (lt_of_lt_of_le hE.2 (by norm_num))
    (lt_of_le_of_lt (by norm_num) hE.1) (lt_of_lt_of_le hE.2 (by norm_num)) (by norm_num)

/-- The cell `kernel[4]` of the domain kernel for `sigmad = 2.0`, in `float`. -/
theorem bilateral_kernel_float_4 :
    gaussian1dRnd fl32 (⟨Real.exp, Real.sqrt, Real.pi⟩ : Libm ℝ) 2
        (fl32 (((4 : Int) : ℝ) - ((2 : Int) : ℝ))) = 1271987 / 2097152 := by
  have hd : fl32 (((4 : Int) : ℝ) - ((2 : Int) : ℝ)) = 2 := by
    rw [show (((4 : Int) : ℝ) - ((2 : Int) : ℝ)) = 2 by norm_num]
    exact fl32_cert _ _ 1 8388608 (by norm_num) (by norm_num) (by norm_num) (by norm_num)
      (by norm_num) (by norm_num)
  have hx : gaussian1dRnd fl32 (⟨Real.exp, Real.sqrt, Real.pi⟩ : Libm ℝ) 2 2
      = fl32 (Real.exp (-(1 / 2))) := by
    unfold gaussian1dRnd
    norm_num
  have hE := exp_neg_half_tight
  rw [hd, hx]
  exact fl32_cert _ _ (-1) 10175896 (by norm_num)
    (le_of_lt (lt_of_le_of_lt (by norm_num) hE.1)) (lt_of_lt_of_le hE.2 (by norm_num))
    (lt_of_le_of_lt (by norm_num) hE.1) (lt_of_lt_of_le hE.2 (by norm_num)) (by norm_num)

/-- The range weight of a zero difference is `1` in `float`. -/
theorem bilateral_range_float (c : ℝ) :
    gaussian1dRnd fl32 (⟨Real.exp, Real.sqrt, Real.pi⟩ : Libm ℝ) 25 (fl32 (c - c)) = 1 := by
  rw [sub_self, fl32_zero]
  have hx : gaussian1dRnd fl32 (⟨Real.exp, Real.sqrt, Real.pi⟩ : Libm ℝ) 25 0 = fl32 1 := by
    unfold gaussian1dRnd
    norm_num
  rw [hx]
  exact fl32_cert _ _ 0 8388608 (by norm_num) (by norm_num) (by norm_num) (by norm_num)
    (by norm_num) (by norm_num)

/-- The tap loop in `float` on five taps equal to `15`, with the domain kernel of `sigmad = 2.0`
and `sigmar = 25.0`: the quotient `tmp / wp` rounds to the `float` just below `15`. -/
theorem bilateral_tap_float_first (kernel tap : Int → ℝ)
    (hk0 : kernel 0 = 1271987 / 2097152)
    (hk1 : kernel 1 = 14805841 / 16777216)
    (hk2 : kernel 2 = 1)
    (hk3 : kernel 3 = 14805841 / 16777216)
    (hk4 : kernel 4 = 1271987 / 2097152)
    (htap : ∀ k, -2 ≤ k → k ≤ 2 → tap k = 15) :
    tapLoopRnd fl32 (⟨Real.exp, Real.sqrt, Real.pi⟩ : Libm ℝ) kernel 25 2
        (15) tap = 15728639 / 1048576 := by
  have c1 : fl32 (1271987 / 2097152 * 1 : ℝ) = 1271987 / 2097152 :=
    fl32_cert _ _ (-1) 10175896 (by norm_num) (by norm_num) (by norm_num) (by norm_num)
      (by norm_num) (by norm_num)
  have c2 : fl32 (14805841 / 16777216 * 1 : ℝ) = 14805841 / 16777216 :=
    fl32_cert _ _ (-1) 14805841 (by norm_num) (by norm_num) (by norm_num) (by norm_num)
      (by norm_num) (by norm_num)
  have c3 : fl32 (1 * 1 : ℝ) = 1 :=
    fl32_cert _ _ 0 8388608 (by norm_num) (by norm_num) (by norm_num) (by norm_num)
      (by norm_num) (by norm_num)
  have c4 : fl32 (15 * (1271987 / 2097152) : ℝ) = 4769951 / 524288 :=
    fl32_cert_tie _ _ 3 9539902 (by norm_num) (by norm_num) (by norm_num) (by norm_num)
      (by norm_num) (by norm_num)
  have c5 : fl32 (15 * (14805841 / 16777216) : ℝ) = 3470119 / 262144 :=
    fl32_cert _ _ 3 13880476 (by norm_num) (by norm_num) (by norm_num) (by norm_num)
      (by norm_num) (by norm_num)
  have c6 : fl32 (15 * 1 : ℝ) = 15 :=
    fl32_cert _ _ 3 15728640 (by norm_num) (by norm_num) (by norm_num) (by norm_num)
      (by norm_num) (by norm_num)
  have c7 : fl32 (0 + 4769951 / 524288 : ℝ) = 4769951 / 524288 :=
    fl32_cert _ _ 3 9539902 (by norm_num) (by norm_num) (by norm_num) (by norm_num)
      (by norm_num) (by norm_num)
  have c8 : fl32 (4769951 / 524288 + 3470119 / 262144 : ℝ) = 11710189 / 524288 :=
    fl32_cert _ _ 4 11710189 (by norm_num) (by norm_num) (by norm_num) (by norm_num)
      (by norm_num) (by norm_num)
  have c9 : fl32 (11710189 / 524288 + 15 : ℝ) = 4893627 / 131072 :=
    fl32_cert_tie _ _ 5 9787254 (by norm_num) (by norm_num) (by norm_num) (by norm_num)
      (by norm_num) (by norm_num)
  have c10 : fl32 (4893627 / 131072 + 3470119 / 262144 : ℝ) = 13257373 / 262144 :=
    fl32_cert _ _ 5 13257373 (by norm_num) (by norm_num) (by norm_num) (by norm_num)
      (by norm_num) (by norm_num)
  have c11 : fl32 (13257373 / 262144 + 4769951 / 524288 : ℝ) = 3910587 / 65536 :=
    fl32_cert_tie _ _ 5 15642348 (by norm_num) (by norm_num) (by norm_num) (by norm_num)
      (by norm_num) (by norm_num)
  have c12 : fl32 (0 + 1271987 / 2097152 : ℝ) = 1271987 / 2097152 :=
    fl32_cert _ _ (-1) 10175896 (by norm_num) (by norm_num) (by norm_num) (by norm_num)
      (by norm_num) (by norm_num)
  have c13 : fl32 (1271987 / 2097152 + 14805841 / 16777216 : ℝ) = 3122717 / 2097152 :=
    fl32_cert_tie _ _ 0 12490868 (by norm_num) (by norm_num) (by norm_num) (by norm_num)
      (by norm_num) (by norm_num)
  have c14 : fl32 (3122717 / 2097152 + 1 : ℝ) = 5219869 / 2097152 :=
    fl32_cert _ _ 1 10439738 (by norm_num) (by norm_num) (by norm_num) (by norm_num)
      (by norm_num) (by norm_num)
  have c15 : fl32 (5219869 / 2097152 + 14805841 / 16777216 : ℝ) = 7070599 / 2097152 :=
    fl32_cert _ _ 1 14141198 (by norm_num) (by norm_num) (by norm_num) (by norm_num)
      (by norm_num) (by norm_num)
  have c16 : fl32 (7070599 / 2097152 + 1271987 / 2097152 : ℝ) = 4171293 / 1048576 :=
    fl32_cert _ _ 1 16685172 (by norm_num) (by norm_num) (by norm_num) (by norm_num)
      (by norm_num) (by norm_num)
  have c17 : fl32 (3910587 / 65536 / (4171293 / 1048576) : ℝ) = 15728639 / 1048576 :=
    fl32_cert _ _ 3 15728639 (by norm_num) (by norm_num) (by norm_num) (by norm_num)
      (by norm_num) (by norm_num)
  rw [tapLoopRnd_flat_five fl32 _ kernel 25 _ tap htap, bilateral_range_float, hk0, hk1, hk2,
    hk3, hk4]
  simp only [c1, c2, c3, c4, c5, c6, c7, c8, c9, c10, c11, c12, c13, c14, c15, c16, c17]

/-- The tap loop in `float` on five taps equal to the `float` just below `15`: the result is
that `float` again. -/
theorem bilateral_tap_float_second (kernel tap : Int → ℝ)
    (hk0 : kernel 0 = 1271987 / 2097152)
    (hk1 : kernel 1 = 14805841 / 16777216)
    (hk2 : kernel 2 = 1)
    (hk3 : kernel 3 = 14805841 / 16777216)
    (hk4 : kernel 4 = 1271987 / 2097152)
    (htap : ∀ k, -2 ≤ k → k ≤ 2 → tap k = 15728639 / 1048576) :
    tapLoopRnd fl32 (⟨Real.exp, Real.sqrt, Real.pi⟩ : Libm ℝ) kernel 25 2
        (15728639 / 1048576) tap = 15728639 / 1048576 := by
  have c1 : fl32 (1271987 / 2097152 * 1 : ℝ) = 1271987 / 2097152 :=
    fl32_cert _ _ (-1) 10175896 (by norm_num) (by norm_num) (by norm_num) (by norm_num)
      (by norm_num) (by norm_num)
  have c2 : fl32 (14805841 / 16777216 * 1 : ℝ) = 14805841 / 16777216 :=
    fl32_cert _ _ (-1) 14805841 (by norm_num) (by norm_num) (by norm_num) (by norm_num)
      (by norm_num) (by norm_num)
  have c3 : fl32 (1 * 1 : ℝ) = 1 :=
    fl32_cert _ _ 0 8388608 (by norm_num) (by norm_num) (by norm_num) (by norm_num)
      (by norm_num) (by norm_num)
  have c4 : fl32 (15728639 / 1048576 * (1271987 / 2097152) : ℝ) = 4769951 / 524288 :=
    fl32_cert _ _ 3 9539902 (by norm_num) (by norm_num) (by norm_num) (by norm_num)
      (by norm_num) (by norm_num)
  have c5 : fl32 (15728639 / 1048576 * (14805841 / 16777216) : ℝ) = 13880475 / 1048576 :=
    fl32_cert _ _ 3 13880475 (by norm_num) (by norm_num) (by norm_num) (by norm_num)
      (by norm_num) (by norm_num)
  have c6 : fl32 (15728639 / 1048576 * 1 : ℝ) = 15728639 / 1048576 :=
    fl32_cert _ _ 3 15728639 (by norm_num) (by norm_num) (by norm_num) (by norm_num)
      (by norm_num) (by norm_num)
  have c7 : fl32 (0 + 4769951 / 524288 : ℝ) = 4769951 / 524288 :=
    fl32_cert _ _ 3 9539902 (by norm_num) (by norm_num) (by norm_num) (by norm_num)
      (by norm_num) (by norm_num)
  have c8 : fl32 (4769951 / 524288 + 13880475 / 1048576 : ℝ) = 2927547 / 131072 :=
    fl32_cert_tie _ _ 4 11710188 (by norm_num) (by norm_num) (by norm_num) (by norm_num)
      (by norm_num) (by norm_num)
  have c9 : fl32 (2927547 / 131072 + 15728639 / 1048576 : ℝ) = 4893627 / 131072 :=
    fl32_cert _ _ 5 9787254 (by norm_num) (by norm_num) (by norm_num) (by norm_num)
      (by norm_num) (by norm_num)
  have c10 : fl32 (4893627 / 131072 + 13880475 / 1048576 : ℝ) = 13257373 / 262144 :=
    fl32_cert _ _ 5 13257373 (by norm_num) (by norm_num) (by norm_num) (by norm_num)
      (by norm_num) (by norm_num)
  have c11 : fl32 (13257373 / 262144 + 4769951 / 524288 : ℝ) = 3910587 / 65536 :=
    fl32_cert_tie _ _ 5 15642348 (by norm_num) (by norm_num) (by norm_num) (by norm_num)
      (by norm_num) (by norm_num)
  have c12 : fl32 (0 + 1271987 / 2097152 : ℝ) = 1271987 / 2097152 :=
    fl32_cert _ _ (-1) 10175896 (by norm_num) (by norm_num) (by norm_num) (by norm_num)
      (by norm_num) (by norm_num)
  have c13 : fl32 (1271987 / 2097152 + 14805841 / 16777216 : ℝ) = 3122717 / 2097152 :=
    fl32_cert_tie _ _ 0 12490868 (by norm_num) (by norm_num) (by norm_num) (by norm_num)
      (by norm_num) (by norm_num)
  have c14 : fl32 (3122717 / 2097152 + 1 : ℝ) = 5219869 / 2097152 :=
    fl32_cert _ _ 1 10439738 (by norm_num) (by norm_num) (by norm_num) (by norm_num)
      (by norm_num) (by norm_num)
  have c15 : fl32 (5219869 / 2097152 + 14805841 / 16777216 : ℝ) = 7070599 / 2097152 :=
    fl32_cert _ _ 1 14141198 (by norm_num) (by norm_num) (by norm_num) (by norm_num)
      (by norm_num) (by norm_num)
  have c16 : fl32 (7070599 / 2097152 + 1271987 / 2097152 : ℝ) = 4171293 / 1048576 :=
    fl32_cert _ _ 1 16685172 (by norm_num) (by norm_num) (by norm_num) (by norm_num)
      (by norm_num) (by norm_num)
  have c17 : fl32 (3910587 / 65536 / (4171293 / 1048576) : ℝ) = 15728639 / 1048576 :=
    fl32_cert _ _ 3 15728639 (by norm_num) (by norm_num) (by norm_num) (by norm_num)
      (by norm_num) (by norm_num)
  rw [tapLoopRnd_flat_five fl32 _ kernel 25 _ tap htap, bilateral_range_float, hk0, hk1, hk2,
    hk3, hk4]
  simp only [c1, c2, c3, c4, c5, c6, c7, c8, c9, c10, c11, c12, c13, c14, c15, c16, c17]

/-- The two sweeps in `float` on a padded buffer `20 x 20` whose cells `(x, y)` with
`5 ≤ x, y ≤ 9` all hold `15`: the cell `(7, 7)` of `postimage` is `15728639 / 1048576`. -/
theorem bilateral_flat_post (temp0 pre post0 kernel : Int → ℝ)
    (hk0 : kernel 0 = 1271987 / 2097152)
    (hk1 : kernel 1 = 14805841 / 16777216)
    (hk2 : kernel 2 = 1)
    (hk3 : kernel 3 = 14805841 / 16777216)
    (hk4 : kernel 4 = 1271987 / 2097152)
    (hpre : ∀ y x : Int, 5 ≤ y → y ≤ 9 → 5 ≤ x → x ≤ 9 → pre (y * 20 + x) = 15) :
    xyconvolutionRnd fl32 (⟨Real.exp, Real.sqrt, Real.pi⟩ : Libm ℝ) temp0 pre post0 kernel 25
        (2 * 2 + 1) 20 20 (7 * 20 + 7) = 15728639 / 1048576 := by
  have hrow : ∀ y : Int, 5 ≤ y → y ≤ 9 →
      xsweepRnd fl32 (⟨Real.exp, Real.sqrt, Real.pi⟩ : Libm ℝ) temp0 pre kernel 25 (2 * 2 + 1) 20
        20 (y * 20 + 7) = 15728639 / 1048576 := by
    intro y hy1 hy2
    rw [bilateral_xsweepRnd_cell fl32 _ temp0 pre kernel 25 2 20 20 (by decide) 7 y
      ⟨by decide, by decide⟩ ⟨by omega, by omega⟩, hpre y 7 hy1 hy2 (by decide) (by decide)]
    refine bilateral_tap_float_first kernel _ hk0 hk1 hk2 hk3 hk4 ?_
    intro k hk1 hk2
    rw [add_assoc]
    exact hpre y (7 + k) hy1 hy2 (by omega) (by omega)
  unfold xyconvolutionRnd
  rw [bilateral_ysweepRnd_cell fl32 _ _ post0 kernel 25 2 20 20 (by decide) 7 7
    ⟨by decide, by decide⟩ ⟨by decide, by decide⟩, hrow 7 (by decide) (by decide)]
  refine bilateral_tap_float_second kernel _ hk0 hk1 hk2 hk3 hk4 ?_
  intro k hk1 hk2
  exact hrow (7 + k) (by omega) (by omega)

end Bilateral

end FloatValues
/-! ## The convolved values of two concrete planes in binary32 -/

section FloatPlanes

namespace Blur

/-- The value handed to the combiner for the sample `(2, 2)` of the 5x5 plane that is zero
except for `114` at `(2, 2)` and `107` at `(3, 2)`, for `sigma = 1.0`, in `float`. -/
theorem blur_pair_convolved_float :
    convolvedRnd fl32 (⟨Real.exp, Real.sqrt, Real.pi⟩ : Libm ℝ) (zeroScratch ℝ) ⟨1, -1⟩
        (pairFrame 114 107 5 5 2 2) (4 * 9 + 4) = 7602175 / 262144 := by
  have c1 : fl32 (1 : ℝ) = 1 :=
    fl32_cert _ _ 0 8388608 (by norm_num) (by norm_num) (by norm_num) (by norm_num)
      (by norm_num) (by norm_num)
  have hr : truncInt (fl32 (2 * (1 : ℝ))) = 2 := by
    have := blur_radius_float
    rwa [c1] at this
  unfold convolvedRnd
  simp only [c1, hr]
  obtain ⟨hk0, hk1, hk2, hk3, hk4, hw⟩ := blur_kernel_float (zeroScratch ℝ).kernel
  rw [show (2 : Int) * 2 + 1 = 5 by decide] at *
  refine blur_pair_post _ _ _ _ _ hk0 hk1 hk2 hk3 hk4 hw ?_
  intro y x hy1 hy2 hx1 hx2
  have hcell := padPreimage_cell (K := ℝ) (pairFrame 114 107 5 5 2 2).Y.data
    (pairFrame 114 107 5 5 2 2).Y.stride (pairFrame 114 107 5 5 2 2).Y.width
    (pairFrame 114 107 5 5 2 2).Y.height 2 5 (zeroScratch ℝ).preimage x y
    ⟨by omega, by show x < 5 + 5 - 1; omega⟩ ⟨by omega, by show y < 5 + 5 - 1; omega⟩
  have hidx : y * 9 + x = y * ((pairFrame 114 107 5 5 2 2).Y.width + 5 - 1) + x := by
    show y * 9 + x = y * (5 + 5 - 1) + x
    norm_num
  rw [hidx, hcell]
  have hin : x ≥ 2 ∧ x < (pairFrame 114 107 5 5 2 2).Y.width + 2 ∧ y ≥ 2
      ∧ y < (pairFrame 114 107 5 5 2 2).Y.height + 2 :=
    ⟨hx1, by show x < 5 + 2; omega, hy1, by show y < 5 + 2; omega⟩
  rw [if_pos hin]
  show (((if (y - 2) * 5 + x - 2 = 2 * 5 + 2 then 114
    else if (y - 2) * 5 + x - 2 = 2 * 5 + 2 + 1 then 107 else 0 : Nat) : Nat) : ℝ) = _
  have e1 : ((y - 2) * 5 + x - 2 = 2 * 5 + 2) ↔ (y = 4 ∧ x = 4) := by omega
  have e2 : ((y - 2) * 5 + x - 2 = 2 * 5 + 2 + 1) ↔ (y = 4 ∧ x = 5) := by omega
  simp only [e1, e2]
  split_ifs <;> norm_num

end Blur

namespace Bilateral

/-- The value handed to the writer for the sample `(5, 5)` of the 16x16 plane of constant
value `15`, for `sigmad = 2.0` and `sigmar = 25.0`, in `float`. -/
theorem bilateral_flat_convolved_float :
    convolvedRnd fl32 (⟨Real.exp, Real.sqrt, Real.pi⟩ : Libm ℝ) (zeroScratch ℝ) ⟨2, 25, true⟩
        (flatFrame Nat 15 128 128 16 16) (7 * 20 + 7) = 15728639 / 1048576 := by
  have c2 : fl32 (2 : ℝ) = 2 :=
    fl32_cert _ _ 1 8388608 (by norm_num) (by norm_num) (by norm_num) (by norm_num)
      (by norm_num) (by norm_num)
  have c25 : fl32 (25 : ℝ) = 25 :=
    fl32_cert _ _ 4 13107200 (by norm_num) (by norm_num) (by norm_num) (by norm_num)
      (by norm_num) (by norm_num)
  unfold convolvedRnd
  simp only [c2, c25]
  refine bilateral_flat_post _ _ _ _ ?_ ?_ ?_ ?_ ?_ ?_
  · rw [buildKernelRnd_cell _ _ _ _ _ _ 0 ⟨by decide, by decide⟩]
    exact bilateral_kernel_float_0
  · rw [buildKernelRnd_cell _ _ _ _ _ _ 1 ⟨by decide, by decide⟩]
    exact bilateral_kernel_float_1
  · rw [buildKernelRnd_cell _ _ _ _ _ _ 2 ⟨by decide, by decide⟩]
    exact bilateral_kernel_float_2
  · rw [buildKernelRnd_cell _ _ _ _ _ _ 3 ⟨by decide, by decide⟩]
    exact bilateral_kernel_float_3
  · rw [buildKernelRnd_cell _ _ _ _ _ _ 4 ⟨by decide, by decide⟩]
    exact bilateral_kernel_float_4
  · intro y x hy1 hy2 hx1 hx2
    have hcell := padPreimage_cell (K := ℝ) (flatFrame Nat 15 128 128 16 16).Y.data
      (flatFrame Nat 15 128 128 16 16).Y.stride (flatFrame Nat 15 128 128 16 16).Y.width
      (flatFrame Nat 15 128 128 16 16).Y.height 2 (2 * 2 + 1) (zeroScratch ℝ).preimage x y
      ⟨by omega, by show x < 16 + (2 * 2 + 1) - 1; omega⟩
      ⟨by omega, by show y < 16 + (2 * 2 + 1) - 1; omega⟩
    have hidx : y * 20 + x
        = y * ((flatFrame Nat 15 128 128 16 16).Y.width + (2 * 2 + 1) - 1) + x := by
      show y * 20 + x = y * (16 + (2 * 2 + 1) - 1) + x
      norm_num
    rw [hidx, hcell]
    have hin : x ≥ 2 ∧ x < (flatFrame Nat 15 128 128 16 16).Y.width + 2 ∧ y ≥ 2
        ∧ y < (flatFrame Nat 15 128 128 16 16).Y.height + 2 :=
      ⟨by omega, by show x < 16 + 2; omega, by omega, by show y < 16 + 2; omega⟩
    rw [if_pos hin]
    show (((15 : Nat) : Nat) : ℝ) = 15
    norm_num

end Bilateral

end FloatPlanes

/-! ## Claims -/

/-- C1 (border padding, both filters): the buffer built by the padding loop has row length
`w + 2r` and `h + 2r` rows, and for every `(x, y)` with `0 ≤ x < w + 2r`, `0 ≤ y < h + 2r` the
cell at index `y*(w+2r) + x` holds the source sample read at offset `(y-r)*stride + (x-r)` when
`r ≤ x < w + r` and `r ≤ y < h + r`, and `0` otherwise. -/
theorem border_padding {K : Type} [LinearOrderedField K] (s : Int → Nat)
    (stride w h r : Int) (pre0 : Int → K) (x y : Int)
    (hx : 0 ≤ x ∧ x < w + 2 * r) (hy : 0 ≤ y ∧ y < h + 2 * r) :
    w + (2 * r + 1) - 1 = w + 2 * r ∧ h + (2 * r + 1) - 1 = h + 2 * r ∧
    padPreimage s stride w h r (2 * r + 1) pre0 (y * (w + 2 * r) + x)
      = if r ≤ x ∧ x < w + r ∧ r ≤ y ∧ y < h + r then
          ((s ((y - r) * stride + (x - r)) : Nat) : K) else 0 := by
  have hw : w + (2 * r + 1) - 1 = w + 2 * r := by ring
  have hh : h + (2 * r + 1) - 1 = h + 2 * r := by ring
  refine ⟨hw, hh, ?_⟩
  have key := padPreimage_cell s stride w h r (2 * r + 1) pre0 x y
    (by rw [hw]; exact hx) (by rw [hh]; exact hy)
  rw [hw] at key
  rw [key, show (y - r) * stride + x - r = (y - r) * stride + (x - r) by ring]

/-- Witness of C1: a 4x4 plane of stride 6 padded with radius 1, cell `(2, 1)`. -/
theorem border_padding_witness :
    (4 : Int) + (2 * 1 + 1) - 1 = 4 + 2 * 1 ∧ (4 : Int) + (2 * 1 + 1) - 1 = 4 + 2 * 1 ∧
    padPreimage (fun i => i.toNat + 5) 6 4 4 1 (2 * 1 + 1) (fun _ => (7 : ℚ))
        (1 * (4 + 2 * 1) + 2)
      = if (1 : Int) ≤ 2 ∧ (2 : Int) < 4 + 1 ∧ (1 : Int) ≤ 1 ∧ (1 : Int) < 4 + 1 then
          (((fun i : Int => i.toNat + 5) ((1 - 1) * 6 + (2 - 1)) : Nat) : ℚ) else 0 :=
  border_padding (fun i => i.toNat + 5) 6 4 4 1 (fun _ => (7 : ℚ)) 2 1
    (by decide) (by decide)

/-- C2 (blur `xyconvolution` is a separable 2-D convolution): for a kernel of odd size
`2r+1` and a non-zero weight, the value written to `postimage[y*W+x]`, `r ≤ x < W-r`,
`r ≤ y < H-r`, is the sum over `i, j` in `[0, 2r]` of
`kernel[i]*kernel[j]*preimage[(y+j-r)*W + (x+i-r)]` divided by the square of the weight. -/
theorem blur_xyconvolution_separable {K : Type} [LinearOrderedField K]
    (temp0 pre post0 kernel : Int → K) (r W H : Int) (weight : K) (hr : 0 ≤ r)
    (_hw : weight ≠ 0) (x y : Int) (hx : r ≤ x ∧ x < W - r) (hy : r ≤ y ∧ y < H - r) :
    Blur.xyconvolution temp0 pre post0 kernel (2 * r + 1) W H weight (y * W + x)
      = (∑ j ∈ Finset.Icc (0 : Int) (2 * r), ∑ i ∈ Finset.Icc (0 : Int) (2 * r),
          kernel i * kernel j * pre ((y + j - r) * W + (x + i - r))) / weight ^ 2 := by
  rw [Blur.blur_xyconvolution_cell temp0 pre post0 kernel r W H weight hr x y hx hy,
    Ico_zero_eq_Icc]

/-- Witness of C2: a 5x5 buffer (a 3x3 plane padded with radius 1), weight 2, the centre
cell. -/
theorem blur_xyconvolution_separable_witness :
    Blur.xyconvolution (fun _ => (0 : ℚ)) (fun i => (i : ℚ)) (fun _ => 0) (fun _ => 1)
        (2 * 1 + 1) 5 5 2 (2 * 5 + 2)
      = (∑ j ∈ Finset.Icc (0 : Int) (2 * 1), ∑ i ∈ Finset.Icc (0 : Int) (2 * 1),
          (fun _ : Int => (1 : ℚ)) i * (fun _ : Int => (1 : ℚ)) j
            * (fun i : Int => (i : ℚ)) ((2 + j - 1) * 5 + (2 + i - 1))) / 2 ^ 2 :=
  blur_xyconvolution_separable (fun _ => (0 : ℚ)) (fun i => (i : ℚ)) (fun _ => 0)
    (fun _ => 1) 1 5 5 2 (by decide) (by norm_num) 2 2 (by decide) (by decide)

/-- C4, counterexample (blur low-pass combiner in `float`): on the 5x5 luma plane that is zero
except for `114` at `(2, 2)` and `107` at `(3, 2)`, with `sigma = 1.0` (radius 2) and
`filtering = -1`, every `float` operation being rounded to binary32, the convolved value at the
padded coordinates `(4, 4)` of the 9x9 buffer is `7602175 / 262144 = 29 - 2^-18`, whose
conversion to a byte is `28`; the difference `114 - convolved` rounds to `85`, so the combiner
stores `114 + (-1) * 85 = 29` at the sample `(2, 2)`: the output sample is neither the convolved
value nor its conversion to a byte. -/
theorem blur_low_pass_float_counterexample :
    Blur.convolvedRnd fl32 (⟨Real.exp, Real.sqrt, Real.pi⟩ : Libm ℝ) (zeroScratch ℝ) ⟨1, -1⟩
        (pairFrame 114 107 5 5 2 2) (4 * 9 + 4) = 7602175 / 262144
    ∧ toByte (7602175 / 262144 : ℝ) = some 28
    ∧ (Blur.gst_blur_filter_convolutionRnd fl32 (⟨Real.exp, Real.sqrt, Real.pi⟩ : Libm ℝ)
        (zeroScratch ℝ) ⟨1, -1⟩ (flatFrame (Option Nat) none none none 5 5)
        (pairFrame 114 107 5 5 2 2)).Y.data (2 * 5 + 2) = some 29 := by
  refine ⟨Blur.blur_pair_convolved_float, ?_, ?_⟩
  · exact toByte_of_floor _ 28 (by norm_num) (by norm_num) (by decide)
  · have hne : (⟨1, -1⟩ : Blur.GstBlurFilter ℝ).filtering ≠ 0 := by
      show (-1 : Int) ≠ 0
      decide
    have hr : truncInt (fl32 (2 * fl32 ((⟨1, -1⟩ : Blur.GstBlurFilter ℝ).sigma))) = 2 :=
      Blur.blur_radius_float
    simp only [Blur.gst_blur_filter_convolutionRnd, if_neg hne, hr]
    refine (Blur.blur_writeLumaRnd_cell _ _ _ _ _ _ _ _ 5 5 5 _ 2 2 ⟨by decide, by decide⟩
      ⟨by decide, by decide⟩ (le_refl _)).trans ?_
    unfold Blur.combineRnd
    have hidx : ((2 : Int) + 2) * ((pairFrame 114 107 5 5 2 2).Y.width + (2 * 2 + 1) - 1) + 2 + 2
        = 4 * 9 + 4 := by
      show ((2 : Int) + 2) * (5 + (2 * 2 + 1) - 1) + 2 + 2 = 4 * 9 + 4
      decide
    have hs : (((pairFrame 114 107 5 5 2 2).Y.data
        (2 * (pairFrame 114 107 5 5 2 2).Y.stride + 2) : Nat) : ℝ) = 114 := by
      show (((if (2 : Int) * 5 + 2 = 2 * 5 + 2 then 114
        else if (2 : Int) * 5 + 2 = 2 * 5 + 2 + 1 then 107 else 0 : Nat) : Nat) : ℝ) = 114
      norm_num
    have hf : (((⟨1, -1⟩ : Blur.GstBlurFilter ℝ).filtering : Int) : ℝ) = -1 := by
      show (((-1 : Int) : Int) : ℝ) = -1
      norm_num
    rw [hidx, Blur.blur_pair_convolved_float, hs, hf, Blur.blur_pair_combine]
    have h29 := toByte_natCast (K := ℝ) 29 (by decide)
    simpa using h29


/-- C4, amended (blur low-pass combiner), arithmetic taken as exact: with `filtering = -1`, the
output luma sample at `(x, y)` is the stored (byte-converted, truncated toward zero) value of
`input + mode * (input - convolved)`, where `input` is the unpadded source sample at `(x, y)`
and `convolved` is the cell of `postimage` at padded coordinates `(x + radius, y + radius)`;
that value is exactly the convolved value. -/
theorem blur_low_pass_combiner {K : Type} [LinearOrderedField K] [FloorRing K] (m : Libm K)
    (heap : Scratch K) (bf : Blur.GstBlurFilter K) (dest : GstVideoFrame (Option Nat))
    (src : GstVideoFrame Nat) (hmode : bf.filtering = -1) (x y : Int)
    (hx : 0 ≤ x ∧ x < dest.Y.width) (hy : 0 ≤ y ∧ y < dest.Y.height)
    (hstride : dest.Y.width ≤ dest.Y.stride) :
    (Blur.gst_blur_filter_convolution m heap bf dest src).Y.data (y * dest.Y.stride + x)
      = toByte ((src.Y.data (y * src.Y.stride + x) : K)
          + (bf.filtering : K) * ((src.Y.data (y * src.Y.stride + x) : K)
            - Blur.convolved m heap bf src
                ((y + truncInt (2 * bf.sigma)) * (src.Y.width + 2 * truncInt (2 * bf.sigma))
                  + (x + truncInt (2 * bf.sigma))))) ∧
    (src.Y.data (y * src.Y.stride + x) : K)
        + (bf.filtering : K) * ((src.Y.data (y * src.Y.stride + x) : K)
          - Blur.convolved m heap bf src
              ((y + truncInt (2 * bf.sigma)) * (src.Y.width + 2 * truncInt (2 * bf.sigma))
                + (x + truncInt (2 * bf.sigma))))
      = Blur.convolved m heap bf src
          ((y + truncInt (2 * bf.sigma)) * (src.Y.width + 2 * truncInt (2 * bf.sigma))
            + (x + truncInt (2 * bf.sigma))) := by
  constructor
  · have hne : bf.filtering ≠ 0 := by rw [hmode]; decide
    simp only [Blur.gst_blur_filter_convolution, if_neg hne]
    rw [Blur.blur_writeLuma_cell _ _ _ _ _ _ _ _ _ _ _ x y hx hy hstride]
    unfold Blur.combine
    rw [show src.Y.width + (2 * truncInt (2 * bf.sigma) + 1) - 1
        = src.Y.width + 2 * truncInt (2 * bf.sigma) by ring, add_assoc]
  · rw [hmode]
    push_cast
    ring

/-- Witness of C4: an 8x8 frame, `sigma = 1`, low-pass mode, sample `(1, 1)`. -/
theorem blur_low_pass_combiner_witness :
    (Blur.gst_blur_filter_convolution ratLibm (zeroScratch ℚ) ⟨1, -1⟩
        (flatFrame (Option Nat) none none none 8 8) (flatFrame Nat 9 0 0 8 8)).Y.data (1 * 8 + 1)
      = toByte (Blur.convolved ratLibm (zeroScratch ℚ) ⟨1, -1⟩ (flatFrame Nat 9 0 0 8 8)
          ((1 + truncInt (2 * (1 : ℚ))) * (8 + 2 * truncInt (2 * (1 : ℚ)))
            + (1 + truncInt (2 * (1 : ℚ))))) := by
  have h := blur_low_pass_combiner ratLibm (zeroScratch ℚ) ⟨1, -1⟩
    (flatFrame (Option Nat) none none none 8 8) (flatFrame Nat 9 0 0 8 8) rfl 1 1
    (by decide) (by decide) (by decide)
  rw [h.2] at h
  exact h.1

/-- C6 (off-mode pass-through): when the blur filter has `filtering = 0`, or the bilateral
filter has filtering off, the output luma plane is the plane copy of the input luma plane,
whatever the sigmas, the maths library and the scratch arrays are, and every output luma
sample equals the input luma sample at the same coordinates. -/
theorem off_mode_pass_through {K : Type} [LinearOrderedField K] [FloorRing K] (m : Libm K)
    (heap : Scratch K) (bf : Blur.GstBlurFilter K) (bl : Bilateral.GstBilateralFilter K)
    (dest : GstVideoFrame (Option Nat)) (src : GstVideoFrame Nat) (x y : Int)
    (hx : 0 ≤ x ∧ x < src.Y.width) (hy : 0 ≤ y ∧ y < src.Y.height)
    (hstride : src.Y.width ≤ dest.Y.stride) :
    (bf.filtering = 0 →
      (Blur.gst_blur_filter_convolution m heap bf dest src).Y.data
          = gst_video_frame_copy_plane dest.Y src.Y ∧
      (Blur.gst_blur_filter_convolution m heap bf dest src).Y.data (y * dest.Y.stride + x)
          = some (src.Y.data (y * src.Y.stride + x))) ∧
    (bl.filtering = false →
      (Bilateral.gst_bilateral_filter_convolution m heap bl dest src).Y.data
          = gst_video_frame_copy_plane dest.Y src.Y ∧
      (Bilateral.gst_bilateral_filter_convolution m heap bl dest src).Y.data
          (y * dest.Y.stride + x) = some (src.Y.data (y * src.Y.stride + x))) := by
  constructor
  · intro hoff
    have hdata : (Blur.gst_blur_filter_convolution m heap bf dest src).Y.data
        = gst_video_frame_copy_plane dest.Y src.Y := by
      simp only [Blur.gst_blur_filter_convolution, if_pos hoff]
    exact ⟨hdata, by rw [hdata, copy_plane_cell dest.Y src.Y x y hx hy hstride]⟩
  · intro hoff
    have hdata : (Bilateral.gst_bilateral_filter_convolution m heap bl dest src).Y.data
        = gst_video_frame_copy_plane dest.Y src.Y := by
      simp [Bilateral.gst_bilateral_filter_convolution, hoff]
    exact ⟨hdata, by rw [hdata, copy_plane_cell dest.Y src.Y x y hx hy hstride]⟩

/-- Witness of C6: an 8x8 frame of luma 9, both filters off, sample `(3, 2)`. -/
theorem off_mode_pass_through_witness :
    (Blur.gst_blur_filter_convolution ratLibm (zeroScratch ℚ) ⟨3, 0⟩
        (flatFrame (Option Nat) none none none 8 8) (flatFrame Nat 9 1 2 8 8)).Y.data (2 * 8 + 3)
      = some 9 ∧
    (Bilateral.gst_bilateral_filter_convolution ratLibm (zeroScratch ℚ) ⟨2, 25, false⟩
        (flatFrame (Option Nat) none none none 8 8) (flatFrame Nat 9 1 2 8 8)).Y.data (2 * 8 + 3)
      = some 9 :=
  ⟨((off_mode_pass_through ratLibm (zeroScratch ℚ) ⟨3, 0⟩ ⟨2, 25, false⟩
      (flatFrame (Option Nat) none none none 8 8) (flatFrame Nat 9 1 2 8 8) 3 2
      (by decide) (by decide) (by decide)).1 rfl).2,
   ((off_mode_pass_through ratLibm (zeroScratch ℚ) ⟨3, 0⟩ ⟨2, 25, false⟩
      (flatFrame (Option Nat) none none none 8 8) (flatFrame Nat 9 1 2 8 8) 3 2
      (by decide) (by decide) (by decide)).2 rfl).2⟩

/-- C7 (chroma neutralisation): in both filters, whatever the mode or filtering flag, the
sigmas and the input chroma are, every sample `(x, y)` of the output chroma-U plane and of
the output chroma-V plane is `2 ^ (depth - 1)` of that component, for every depth a byte
sample can have (`1 ≤ depth ≤ 8`; the element accepts I420 only, whose depth is 8, giving
128). -/
theorem chroma_neutralisation {K : Type} [LinearOrderedField K] [FloorRing K] (m : Libm K)
    (heap : Scratch K) (bf : Blur.GstBlurFilter K) (bl : Bilateral.GstBilateralFilter K)
    (dest : GstVideoFrame (Option Nat)) (src : GstVideoFrame Nat) (x y : Int) :
    (0 ≤ x ∧ x < dest.U.width → 0 ≤ y ∧ y < dest.U.height →
      1 ≤ src.U.depth ∧ src.U.depth ≤ 8 →
      (Blur.gst_blur_filter_convolution m heap bf dest src).U.data (y * dest.U.stride + x)
          = some (2 ^ (src.U.depth - 1).toNat) ∧
      (Bilateral.gst_bilateral_filter_convolution m heap bl dest src).U.data
          (y * dest.U.stride + x) = some (2 ^ (src.U.depth - 1).toNat)) ∧
    (0 ≤ x ∧ x < dest.V.width → 0 ≤ y ∧ y < dest.V.height →
      1 ≤ src.V.depth ∧ src.V.depth ≤ 8 →
      (Blur.gst_blur_filter_convolution m heap bf dest src).V.data (y * dest.V.stride + x)
          = some (2 ^ (src.V.depth - 1).toNat) ∧
      (Bilateral.gst_bilateral_filter_convolution m heap bl dest src).V.data
          (y * dest.V.stride + x) = some (2 ^ (src.V.depth - 1).toNat)) := by
  refine ⟨fun hx hy hd => ⟨?_, ?_⟩, fun hx hy hd => ⟨?_, ?_⟩⟩
  · simp only [Blur.gst_blur_filter_convolution]
    rw [neutralChroma_cell _ _ _ _ _ x y hx hy, toByte_midgrey _ hd.1 hd.2]
  · simp only [Bilateral.gst_bilateral_filter_convolution]
    rw [neutralChroma_cell _ _ _ _ _ x y hx hy, toByte_midgrey _ hd.1 hd.2]
  · simp only [Blur.gst_blur_filter_convolution]
    rw [neutralChroma_cell _ _ _ _ _ x y hx hy, toByte_midgrey _ hd.1 hd.2]
  · simp only [Bilateral.gst_bilateral_filter_convolution]
    rw [neutralChroma_cell _ _ _ _ _ x y hx hy, toByte_midgrey _ hd.1 hd.2]

/-- Witness of C7: an 8x8 frame of depth 8 with chroma 1 and 2, blur in high-pass mode and
bilateral filter on, chroma sample `(1, 1)`: the four outputs are 128. -/
theorem chroma_neutralisation_witness :
    ((Blur.gst_blur_filter_convolution ratLibm (zeroScratch ℚ) ⟨1, 1⟩
        (flatFrame (Option Nat) none none none 8 8) (flatFrame Nat 9 1 2 8 8)).U.data (1 * 4 + 1)
      = some 128 ∧
    (Bilateral.gst_bilateral_filter_convolution ratLibm (zeroScratch ℚ) ⟨2, 25, true⟩
        (flatFrame (Option Nat) none none none 8 8) (flatFrame Nat 9 1 2 8 8)).U.data (1 * 4 + 1)
      = some 128) ∧
    ((Blur.gst_blur_filter_convolution ratLibm (zeroScratch ℚ) ⟨1, 1⟩
        (flatFrame (Option Nat) none none none 8 8) (flatFrame Nat 9 1 2 8 8)).V.data (1 * 4 + 1)
      = some 128 ∧
    (Bilateral.gst_bilateral_filter_convolution ratLibm (zeroScratch ℚ) ⟨2, 25, true⟩
        (flatFrame (Option Nat) none none none 8 8) (flatFrame Nat 9 1 2 8 8)).V.data (1 * 4 + 1)
      = some 128) :=
  ⟨(chroma_neutralisation ratLibm (zeroScratch ℚ) ⟨1, 1⟩ ⟨2, 25, true⟩
      (flatFrame (Option Nat) none none none 8 8) (flatFrame Nat 9 1 2 8 8) 1 1).1
      (by decide) (by decide) (by decide),
   (chroma_neutralisation ratLibm (zeroScratch ℚ) ⟨1, 1⟩ ⟨2, 25, true⟩
      (flatFrame (Option Nat) none none none 8 8) (flatFrame Nat 9 1 2 8 8) 1 1).2
      (by decide) (by decide) (by decide)⟩
/-- C8, counterexample (bilateral filter on a flat plane in `float`): on the 16x16 luma plane
of constant value `15`, with `sigmad = 2.0`, `sigmar = 25.0` and filtering on, every `float`
operation being rounded to binary32, the convolved value of the interior sample `(5, 5)`
(padded coordinates `(7, 7)` of the 20x20 buffer) is `15728639 / 1048576 = 15 - 2^-20`: the
rounded quotient `tmp / wp` of the x-dim sweep falls one unit in the last place below `15` and
the y-dim sweep keeps it; the store truncates it to the byte `14`, not `15`. -/
theorem bilateral_flat_float_counterexample :
    Bilateral.convolvedRnd fl32 (⟨Real.exp, Real.sqrt, Real.pi⟩ : Libm ℝ) (zeroScratch ℝ)
        ⟨2, 25, true⟩ (flatFrame Nat 15 128 128 16 16) (7 * 20 + 7) = 15728639 / 1048576
    ∧ (Bilateral.gst_bilateral_filter_convolutionRnd fl32
        (⟨Real.exp, Real.sqrt, Real.pi⟩ : Libm ℝ) (zeroScratch ℝ) ⟨2, 25, true⟩
        (flatFrame (Option Nat) none none none 16 16)
        (flatFrame Nat 15 128 128 16 16)).Y.data (5 * 16 + 5) = some 14 := by
  refine ⟨Bilateral.bilateral_flat_convolved_float, ?_⟩
  simp only [Bilateral.gst_bilateral_filter_convolutionRnd, Bool.not_true, Bool.false_eq_true,
    if_false]
  refine (Bilateral.bilateral_writeLuma_cell _ _ _ _ 16 16 16 _ 5 5 ⟨by decide, by decide⟩
    ⟨by decide, by decide⟩ (le_refl _)).trans ?_
  have hidx : ((5 : Int) + 2) * ((flatFrame Nat 15 128 128 16 16).Y.width + (2 * 2 + 1) - 1)
      + 5 + 2 = 7 * 20 + 7 := by
    show ((5 : Int) + 2) * (16 + (2 * 2 + 1) - 1) + 5 + 2 = 7 * 20 + 7
    decide
  rw [hidx, Bilateral.bilateral_flat_convolved_float]
  exact toByte_of_floor _ 14 (by norm_num) (by norm_num) (by decide)


/-- C8, amended (bilateral filter on a flat plane), arithmetic taken as exact: for a luma plane
of constant value `c ≤ 255`, with filtering on and `sigmad > 0`, `sigmar > 0`, every output luma
sample at least 2 samples away from every plane edge equals `c`. The maths library is only
required to satisfy `exp 0 = 1` and `exp t ≥ 0`, as the exponential does. -/
theorem bilateral_flat_interior {K : Type} [LinearOrderedField K] [FloorRing K] (m : Libm K)
    (hexp0 : m.exp 0 = 1) (hexp : ∀ t, 0 ≤ m.exp t) (heap : Scratch K)
    (bl : Bilateral.GstBilateralFilter K) (hon : bl.filtering = true)
    (_hsigmad : 0 < bl.sigmad) (_hsigmar : 0 < bl.sigmar)
    (dest : GstVideoFrame (Option Nat)) (src : GstVideoFrame Nat) (c : Nat) (hc : c ≤ 255)
    (hflat : ∀ x y, 0 ≤ x → x < src.Y.width → 0 ≤ y → y < src.Y.height →
      src.Y.data (y * src.Y.stride + x) = c)
    (hdw : dest.Y.width = src.Y.width) (hdh : dest.Y.height = src.Y.height)
    (hstride : dest.Y.width ≤ dest.Y.stride) (x y : Int)
    (hx : 2 ≤ x ∧ x < src.Y.width - 2) (hy : 2 ≤ y ∧ y < src.Y.height - 2) :
    (Bilateral.gst_bilateral_filter_convolution m heap bl dest src).Y.data
        (y * dest.Y.stride + x) = some c := by
  simp only [Bilateral.gst_bilateral_filter_convolution, hon]
  simp only [Bool.not_true, Bool.false_eq_true, if_false]
  rw [Bilateral.bilateral_writeLuma_cell _ _ _ _ _ _ _ _ x y (by omega) (by omega) hstride, add_assoc,
    Bilateral.convolved_flat m hexp0 hexp heap bl src c hflat (x + 2) (y + 2) (by omega)
      (by omega)]
  exact toByte_natCast c hc

/-- Witness of C8: a 5x5 plane of value 9, `sigmad = 2`, `sigmar = 25`, the centre sample. -/
theorem bilateral_flat_interior_witness :
    (Bilateral.gst_bilateral_filter_convolution ratLibm (zeroScratch ℚ) ⟨2, 25, true⟩
        (flatFrame (Option Nat) none none none 5 5) (flatFrame Nat 9 0 0 5 5)).Y.data (2 * 5 + 2)
      = some 9 :=
  bilateral_flat_interior ratLibm (by norm_num [ratLibm])
    (fun t => by unfold ratLibm; positivity) (zeroScratch ℚ) ⟨2, 25, true⟩ rfl
    (by norm_num) (by norm_num) (flatFrame (Option Nat) none none none 5 5)
    (flatFrame Nat 9 0 0 5 5) 9 (by decide) (fun _ _ _ _ _ _ => rfl) rfl rfl (by decide) 2 2
    (by decide) (by decide)

/-- C9, counterexample: on the 16x16 all-128 plane with `sigmad = 2`, `sigmar = 25` and the
real exponential, the output luma sample `(0, 5)`, whose left taps read the zero padding, is
127, not 128. -/
theorem bilateral_scenario_edge_counterexample :
    (Bilateral.gst_bilateral_filter_convolution (⟨Real.exp, Real.sqrt, Real.pi⟩ : Libm ℝ)
        (zeroScratch ℝ) ⟨2, 25, true⟩ (flatFrame (Option Nat) none none none 16 16)
        (flatFrame Nat 128 0 0 16 16)).Y.data (5 * 16 + 0) = some 127 ∧
    (Bilateral.gst_bilateral_filter_convolution (⟨Real.exp, Real.sqrt, Real.pi⟩ : Libm ℝ)
        (zeroScratch ℝ) ⟨2, 25, true⟩ (flatFrame (Option Nat) none none none 16 16)
        (flatFrame Nat 128 0 0 16 16)).Y.data (5 * 16 + 0) ≠ some 128 := by
  have hval : (Bilateral.gst_bilateral_filter_convolution
      (⟨Real.exp, Real.sqrt, Real.pi⟩ : Libm ℝ)
      (zeroScratch ℝ) ⟨2, 25, true⟩ (flatFrame (Option Nat) none none none 16 16)
      (flatFrame Nat 128 0 0 16 16)).Y.data (5 * 16 + 0) = some 127 := by
    simp only [Bilateral.gst_bilateral_filter_convolution, Bool.not_true, Bool.false_eq_true,
      if_false]
    have hcell := Bilateral.bilateral_writeLuma_cell (K := ℝ)
      (Bilateral.convolved (⟨Real.exp, Real.sqrt, Real.pi⟩ : Libm ℝ) (zeroScratch ℝ)
        ⟨2, 25, true⟩ (flatFrame Nat 128 0 0 16 16)) 16 2 (2 * 2 + 1) 16 16 16
      (fun _ => none) 0 5 (by decide) (by decide) (by decide)
    have hedge := Bilateral.convolved_left_edge (⟨Real.exp, Real.sqrt, Real.pi⟩ : Libm ℝ)
      Real.exp_zero (fun t => (Real.exp_pos t).le) (zeroScratch ℝ) ⟨2, 25, true⟩
      (flatFrame Nat 128 0 0 16 16) 128 (fun _ _ _ _ _ _ => rfl) (by decide) (5 + 2)
      (by decide)
    simp only [flatFrame] at hcell hedge ⊢
    rw [hcell, add_zero, hedge]
    have hk : ∀ i : Int, 0 ≤ i ∧ i < 2 * 2 + 1 →
        0 < Bilateral.buildKernel (⟨Real.exp, Real.sqrt, Real.pi⟩ : Libm ℝ) 2 2 (2 * 2 + 1)
          (zeroScratch ℝ).kernel i ∧
        Bilateral.buildKernel (⟨Real.exp, Real.sqrt, Real.pi⟩ : Libm ℝ) 2 2 (2 * 2 + 1)
          (zeroScratch ℝ).kernel i ≤ 1 := by
      intro i hi
      rw [Bilateral.buildKernel_cell _ _ _ _ _ i hi]
      unfold Bilateral.gaussian1d
      exact ⟨Real.exp_pos _, Real.exp_le_one_iff.2
        (neg_nonpos.2 (div_nonneg (sq_nonneg _) (by norm_num)))⟩
    have hk2 : Bilateral.buildKernel (⟨Real.exp, Real.sqrt, Real.pi⟩ : Libm ℝ) 2 2 (2 * 2 + 1)
        (zeroScratch ℝ).kernel 2 = 1 := by
      rw [Bilateral.buildKernel_cell _ _ _ _ _ 2 (by decide)]
      simp [Bilateral.gaussian1d]
    have hg0 : Bilateral.gaussian1d (⟨Real.exp, Real.sqrt, Real.pi⟩ : Libm ℝ) 25
        (((128 : Nat) : ℝ) - ((128 : Nat) : ℝ)) = 1 := by
      rw [Bilateral.gaussian1d_self]
      exact Real.exp_zero
    have hgE : Bilateral.gaussian1d (⟨Real.exp, Real.sqrt, Real.pi⟩ : Libm ℝ) 25
        (((128 : Nat) : ℝ) - 0) = Real.exp (-((128 - 0 : ℝ) ^ 2 / (2 * 25 ^ 2))) := by
      unfold Bilateral.gaussian1d
      norm_num
    rw [hg0, hgE, hk2]
    have hE := exp_range_bound
    have hEpos : 0 < Real.exp (-((128 - 0 : ℝ) ^ 2 / (2 * 25 ^ 2))) := Real.exp_pos _
    obtain ⟨h0p, h0l⟩ := hk 0 (by decide)
    obtain ⟨h1p, h1l⟩ := hk 1 (by decide)
    obtain ⟨h3p, _⟩ := hk 3 (by decide)
    obtain ⟨h4p, _⟩ := hk 4 (by decide)
    generalize Real.exp (-((128 - 0 : ℝ) ^ 2 / (2 * 25 ^ 2))) = E at hE hEpos ⊢
    generalize Bilateral.buildKernel (⟨Real.exp, Real.sqrt, Real.pi⟩ : Libm ℝ) 2 2 (2 * 2 + 1)
      (zeroScratch ℝ).kernel 0 = k0 at h0p h0l ⊢
    generalize Bilateral.buildKernel (⟨Real.exp, Real.sqrt, Real.pi⟩ : Libm ℝ) 2 2 (2 * 2 + 1)
      (zeroScratch ℝ).kernel 1 = k1 at h1p h1l ⊢
    generalize Bilateral.buildKernel (⟨Real.exp, Real.sqrt, Real.pi⟩ : Libm ℝ) 2 2 (2 * 2 + 1)
      (zeroScratch ℝ).kernel 3 = k3 at h3p ⊢
    generalize Bilateral.buildKernel (⟨Real.exp, Real.sqrt, Real.pi⟩ : Libm ℝ) 2 2 (2 * 2 + 1)
      (zeroScratch ℝ).kernel 4 = k4 at h4p ⊢
    have hk0E : k0 * E ≤ E := mul_le_of_le_one_left hEpos.le h0l
    have hk1E : k1 * E ≤ E := mul_le_of_le_one_left hEpos.le h1l
    have hk0E0 : 0 < k0 * E := mul_pos h0p hEpos
    have hk1E0 : 0 < k1 * E := mul_pos h1p hEpos
    have hden : 0 < (k0 + k1) * E + (1 + k3 + k4) * 1 := by nlinarith
    refine toByte_of_floor _ 127 ?_ ?_ (by decide)
    · rw [le_div_iff₀ hden]
      push_cast
      nlinarith
    · rw [div_lt_iff₀ hden]
      push_cast
      nlinarith
  exact ⟨hval, by rw [hval]; decide⟩

/-- C9, amended (bilateral end-to-end scenario): for a 16x16 luma plane whose samples are all
128, with 8x8 chroma planes at depth 8, the bilateral filter enabled with `sigmad = 2.0` and
`sigmar = 25.0` produces an output luma plane in which every sample at least 2 samples away
from every plane edge is 128, and output chroma planes that are all 128. -/
theorem bilateral_scenario_interior {K : Type} [LinearOrderedField K] [FloorRing K]
    (m : Libm K) (hexp0 : m.exp 0 = 1) (hexp : ∀ t, 0 ≤ m.exp t) (heap : Scratch K)
    (dest : GstVideoFrame (Option Nat)) (src : GstVideoFrame Nat)
    (hY : src.Y.width = 16 ∧ src.Y.height = 16)
    (hflat : ∀ x y, 0 ≤ x → x < 16 → 0 ≤ y → y < 16 →
      src.Y.data (y * src.Y.stride + x) = 128)
    (hUV : src.U.depth = 8 ∧ src.V.depth = 8)
    (hdY : dest.Y.width = 16 ∧ dest.Y.height = 16 ∧ 16 ≤ dest.Y.stride)
    (hdU : dest.U.width = 8 ∧ dest.U.height = 8)
    (hdV : dest.V.width = 8 ∧ dest.V.height = 8) :
    (∀ x y, 2 ≤ x → x < 14 → 2 ≤ y → y < 14 →
      (Bilateral.gst_bilateral_filter_convolution m heap ⟨2, 25, true⟩ dest src).Y.data
        (y * dest.Y.stride + x) = some 128) ∧
    (∀ x y, 0 ≤ x → x < 8 → 0 ≤ y → y < 8 →
      (Bilateral.gst_bilateral_filter_convolution m heap ⟨2, 25, true⟩ dest src).U.data
          (y * dest.U.stride + x) = some 128 ∧
      (Bilateral.gst_bilateral_filter_convolution m heap ⟨2, 25, true⟩ dest src).V.data
          (y * dest.V.stride + x) = some 128) := by
  obtain ⟨hw, hh⟩ := hY
  obtain ⟨hdw, hdh, hds⟩ := hdY
  constructor
  · intro x y hx1 hx2 hy1 hy2
    simp only [Bilateral.gst_bilateral_filter_convolution, Bool.not_true, Bool.false_eq_true,
      if_false]
    rw [Bilateral.bilateral_writeLuma_cell _ _ _ _ _ _ _ _ x y (by omega) (by omega) (by omega),
      add_assoc,
      Bilateral.convolved_flat m hexp0 hexp heap ⟨2, 25, true⟩ src 128
        (fun x y h1 h2 h3 h4 => hflat x y h1 (by omega) h3 (by omega)) (x + 2) (y + 2)
        (by omega) (by omega)]
    exact toByte_natCast 128 (by decide)
  · intro x y hx1 hx2 hy1 hy2
    simp only [Bilateral.gst_bilateral_filter_convolution]
    rw [neutralChroma_cell _ _ _ _ _ x y (by omega) (by omega),
      neutralChroma_cell _ _ _ _ _ x y (by omega) (by omega), hUV.1, hUV.2,
      toByte_midgrey 8 (by decide) (by decide)]
    exact ⟨rfl, rfl⟩

/-- Witness of C9 amended: the luma sample `(7, 7)` and the chroma samples `(3, 3)` of the
scenario, evaluated on the rational stand-in of the maths library. -/
theorem bilateral_scenario_interior_witness :
    (Bilateral.gst_bilateral_filter_convolution ratLibm (zeroScratch ℚ) ⟨2, 25, true⟩
        (flatFrame (Option Nat) none none none 16 16) (flatFrame Nat 128 3 200 16 16)).Y.data
      (7 * 16 + 7) = some 128 ∧
    (Bilateral.gst_bilateral_filter_convolution ratLibm (zeroScratch ℚ) ⟨2, 25, true⟩
        (flatFrame (Option Nat) none none none 16 16) (flatFrame Nat 128 3 200 16 16)).U.data
      (3 * 8 + 3) = some 128 ∧
    (Bilateral.gst_bilateral_filter_convolution ratLibm (zeroScratch ℚ) ⟨2, 25, true⟩
        (flatFrame (Option Nat) none none none 16 16) (flatFrame Nat 128 3 200 16 16)).V.data
      (3 * 8 + 3) = some 128 :=
  ⟨(bilateral_scenario_interior ratLibm (by norm_num [ratLibm])
      (fun t => by unfold ratLibm; positivity) (zeroScratch ℚ)
      (flatFrame (Option Nat) none none none 16 16) (flatFrame Nat 128 3 200 16 16)
      ⟨rfl, rfl⟩ (fun _ _ _ _ _ _ => rfl) ⟨rfl, rfl⟩ (by decide) (by decide) (by decide)).1
      7 7 (by decide) (by decide) (by decide) (by decide),
   (bilateral_scenario_interior ratLibm (by norm_num [ratLibm])
      (fun t => by unfold ratLibm; positivity) (zeroScratch ℚ)
      (flatFrame (Option Nat) none none none 16 16) (flatFrame Nat 128 3 200 16 16)
      ⟨rfl, rfl⟩ (fun _ _ _ _ _ _ => rfl) ⟨rfl, rfl⟩ (by decide) (by decide) (by decide)).2
      3 3 (by decide) (by decide) (by decide) (by decide)⟩

/-- C10 (blur impulse response): for the blur filter in low-pass mode with `sigma = 1.0`
(radius 2, kernel size 5) on a luma plane that is zero except for one sample of value `A` at
`(x0, y0)`, at least 2 samples away from every edge, the kernel weight is not zero, the
convolved value at `(x0 + dx, y0 + dy)` for `|dx| ≤ 2`, `|dy| ≤ 2` is
`A * kernel[dx+2] * kernel[dy+2] / kernelWeight^2`, and every output sample at a location of
the plane with `|dx| > 2` or `|dy| > 2` is exactly 0.  The maths library is only required to
satisfy `exp 0 = 1`, `exp t ≥ 0` and `sqrt (2 * M_PI) > 0`. -/
theorem blur_impulse_response {K : Type} [LinearOrderedField K] [FloorRing K] (m : Libm K)
    (hexp0 : m.exp 0 = 1) (hexp : ∀ t, 0 ≤ m.exp t) (hsqrt : 0 < m.sqrt (2 * m.M_PI))
    (heap : Scratch K) (dest : GstVideoFrame (Option Nat)) (src : GstVideoFrame Nat)
    (A : Nat) (x0 y0 : Int)
    (hx0 : 2 ≤ x0 ∧ x0 < src.Y.width - 2) (hy0 : 2 ≤ y0 ∧ y0 < src.Y.height - 2)
    (himp : src.Y.data (y0 * src.Y.stride + x0) = A)
    (hzero : ∀ x y, 0 ≤ x → x < src.Y.width → 0 ≤ y → y < src.Y.height →
      (x ≠ x0 ∨ y ≠ y0) → src.Y.data (y * src.Y.stride + x) = 0)
    (hdw : dest.Y.width = src.Y.width) (hdh : dest.Y.height = src.Y.height)
    (hstride : dest.Y.width ≤ dest.Y.stride) :
    (Blur.buildKernel m 1 2 (2 * 2 + 1) heap.kernel).2 ≠ 0 ∧
    (∀ dx dy : Int, -2 ≤ dx → dx ≤ 2 → -2 ≤ dy → dy ≤ 2 →
      Blur.convolved m heap ⟨1, -1⟩ src
          ((y0 + dy + 2) * (src.Y.width + 2 * 2) + (x0 + dx + 2))
        = (A : K) * (Blur.buildKernel m 1 2 (2 * 2 + 1) heap.kernel).1 (dx + 2)
            * (Blur.buildKernel m 1 2 (2 * 2 + 1) heap.kernel).1 (dy + 2)
            / (Blur.buildKernel m 1 2 (2 * 2 + 1) heap.kernel).2 ^ 2) ∧
    (∀ dx dy : Int, 0 ≤ x0 + dx → x0 + dx < src.Y.width → 0 ≤ y0 + dy →
      y0 + dy < src.Y.height → (dx < -2 ∨ 2 < dx ∨ dy < -2 ∨ 2 < dy) →
      (Blur.gst_blur_filter_convolution m heap ⟨1, -1⟩ dest src).Y.data
          ((y0 + dy) * dest.Y.stride + (x0 + dx)) = some 0) := by
  have hr : truncInt (2 * (⟨1, -1⟩ : Blur.GstBlurFilter K).sigma) = 2 :=
    Blur.truncInt_two_mul_one
  refine ⟨ne_of_gt (Blur.buildKernel_weight_pos m hexp0 hexp hsqrt 1 zero_lt_one 2
    (by decide) heap.kernel), ?_, ?_⟩
  · intro dx dy hdx1 hdx2 hdy1 hdy2
    rw [Blur.convolved_cell m heap ⟨1, -1⟩ src 2 hr (by decide) (x0 + dx) (y0 + dy)
      (by omega) (by omega), Blur.buildKernel_snd, Ico_zero_eq_Icc,
      Blur.buildKernel_fst m 1 2 _ _ (dx + 2) (by omega),
      Blur.buildKernel_fst m 1 2 _ _ (dy + 2) (by omega)]
    congr 1
    rw [Finset.sum_eq_single (2 - dy), Finset.sum_eq_single (2 - dx)]
    · rw [if_pos (by omega), show y0 + dy + (2 - dy) - 2 = y0 by ring,
        show x0 + dx + (2 - dx) - 2 = x0 by ring, himp,
        show (2 - dx - 2 : Int) = -dx by ring, show (2 - dy - 2 : Int) = -dy by ring,
        Blur.gaussian1d_neg, Blur.gaussian1d_neg, show (dx + 2 - 2 : Int) = dx by ring,
        show (dy + 2 - 2 : Int) = dy by ring]
      ring
    · intro i hi hne
      rw [Finset.mem_Icc] at hi
      split_ifs with hc
      · rw [hzero (x0 + dx + i - 2) (y0 + dy + (2 - dy) - 2) (by omega) (by omega) (by omega)
          (by omega) (Or.inl (by omega))]
        simp
      · simp
    · intro hn
      exact absurd (Finset.mem_Icc.2 ⟨by omega, by omega⟩) hn
    · intro j hj hne
      rw [Finset.mem_Icc] at hj
      refine Finset.sum_eq_zero (fun i hi => ?_)
      rw [Finset.mem_Icc] at hi
      split_ifs with hc
      · rw [hzero (x0 + dx + i - 2) (y0 + dy + j - 2) (by omega) (by omega) (by omega)
          (by omega) (Or.inr (by omega))]
        simp
      · simp
    · intro hn
      exact absurd (Finset.mem_Icc.2 ⟨by omega, by omega⟩) hn
  · intro dx dy h1 h2 h3 h4 hfar
    have hne : (⟨1, -1⟩ : Blur.GstBlurFilter K).filtering ≠ 0 := by
      show (-1 : Int) ≠ 0
      decide
    simp only [Blur.gst_blur_filter_convolution, if_neg hne]
    rw [Blur.blur_writeLuma_cell _ _ _ _ _ _ _ _ _ _ _ (x0 + dx) (y0 + dy) (by omega)
      (by omega) hstride]
    unfold Blur.combine
    rw [hr, show src.Y.width + (2 * 2 + 1) - 1 = src.Y.width + 2 * 2 by ring, add_assoc,
      Blur.convolved_cell m heap ⟨1, -1⟩ src 2 hr (by decide) (x0 + dx) (y0 + dy)
        (by omega) (by omega),
      hzero (x0 + dx) (y0 + dy) h1 h2 h3 h4 (by omega)]
    have hsum : (∑ j ∈ Finset.Icc (0 : Int) (2 * 2), ∑ i ∈ Finset.Icc (0 : Int) (2 * 2),
        Blur.gaussian1d m (⟨1, -1⟩ : Blur.GstBlurFilter K).sigma (i - 2)
          * Blur.gaussian1d m (⟨1, -1⟩ : Blur.GstBlurFilter K).sigma (j - 2)
          * (if 2 ≤ x0 + dx + i ∧ x0 + dx + i < src.Y.width + 2 ∧ 2 ≤ y0 + dy + j
                ∧ y0 + dy + j < src.Y.height + 2
              then ((src.Y.data ((y0 + dy + j - 2) * src.Y.stride + (x0 + dx + i - 2)) : Nat) : K)
              else 0)) = 0 := by
      refine Finset.sum_eq_zero (fun j hj => Finset.sum_eq_zero (fun i hi => ?_))
      rw [Finset.mem_Icc] at hi hj
      split_ifs with hc
      · rw [hzero (x0 + dx + i - 2) (y0 + dy + j - 2) (by omega) (by omega) (by omega)
          (by omega) (by omega)]
        simp
      · simp
    rw [hsum]
    simpa using toByte_natCast (K := K) 0 (by decide)

/-- Witness of C10: a 7x7 plane with the value 200 at `(3, 3)`: the convolved value at
`(dx, dy) = (1, -1)` and the output sample at `(dx, dy) = (3, 0)`. -/
theorem blur_impulse_response_witness :
    (Blur.buildKernel ratLibm 1 2 (2 * 2 + 1) (zeroScratch ℚ).kernel).2 ≠ 0 ∧
    Blur.convolved ratLibm (zeroScratch ℚ) ⟨1, -1⟩ (impulseFrame 200 7 7 3 3)
        ((3 + -1 + 2) * ((impulseFrame 200 7 7 3 3).Y.width + 2 * 2) + (3 + 1 + 2))
      = ((200 : Nat) : ℚ) * (Blur.buildKernel ratLibm 1 2 (2 * 2 + 1) (zeroScratch ℚ).kernel).1
            (1 + 2)
          * (Blur.buildKernel ratLibm 1 2 (2 * 2 + 1) (zeroScratch ℚ).kernel).1 (-1 + 2)
          / (Blur.buildKernel ratLibm 1 2 (2 * 2 + 1) (zeroScratch ℚ).kernel).2 ^ 2 ∧
    (Blur.gst_blur_filter_convolution ratLibm (zeroScratch ℚ) ⟨1, -1⟩
        (flatFrame (Option Nat) none none none 7 7) (impulseFrame 200 7 7 3 3)).Y.data
      ((3 + 0) * (flatFrame (Option Nat) none none none 7 7).Y.stride + (3 + 3)) = some 0 :=
  have h := blur_impulse_response ratLibm (by norm_num [ratLibm])
    (fun t => by unfold ratLibm; positivity) (by norm_num [ratLibm]) (zeroScratch ℚ)
    (flatFrame (Option Nat) none none none 7 7) (impulseFrame 200 7 7 3 3) 200 3 3
    (by decide) (by decide) (by simp [impulseFrame])
    (fun x y h1 h2 h3 h4 hne => by
      simp only [impulseFrame] at h2 h4 ⊢
      rw [if_neg (by omega)])
    rfl rfl (by decide)
  ⟨h.1, h.2.1 1 (-1) (by decide) (by decide) (by decide) (by decide),
    h.2.2 3 0 (by decide) (by decide) (by decide) (by decide) (Or.inr (Or.inl (by decide)))⟩

/-- C17 (bilateral output stays in byte range): for an input luma plane with samples in
`0 .. 255` and `sigmad > 0`, `sigmar > 0`, with exact arithmetic, at every pixel written by
the x-dim sweep and by the y-dim sweep the normaliser `wp` is at least 1 (the centre tap has
weight exactly 1), the value written is the quotient `tmp / wp`, and it lies between the smallest and
the largest tap read; hence the value the writer converts for every sample of the plane lies
in `[0, 255]` and its conversion to a byte is defined.  The maths library is only required to
satisfy `exp 0 = 1` and `exp t ≥ 0`. -/
theorem bilateral_output_in_byte_range {K : Type} [LinearOrderedField K] [FloorRing K]
    (m : Libm K) (hexp0 : m.exp 0 = 1) (hexp : ∀ t, 0 ≤ m.exp t) (heap : Scratch K)
    (bl : Bilateral.GstBilateralFilter K) (hon : bl.filtering = true)
    (_hsigmad : 0 < bl.sigmad) (_hsigmar : 0 < bl.sigmar)
    (dest : GstVideoFrame (Option Nat)) (src : GstVideoFrame Nat)
    (hbyte : ∀ i, src.Y.data i ≤ 255)
    (hdw : dest.Y.width = src.Y.width) (hdh : dest.Y.height = src.Y.height)
    (hstride : dest.Y.width ≤ dest.Y.stride) :
    (∀ c : K, Bilateral.kernelOf m heap bl (0 + 2) * Bilateral.gaussian1d m bl.sigmar (c - c)
      = 1) ∧
    (∀ X Y : Int, 2 ≤ X ∧ X < src.Y.width + (2 * 2 + 1) - 1 - 2 →
      0 ≤ Y ∧ Y < src.Y.height + (2 * 2 + 1) - 1 →
      1 ≤ (Bilateral.tapSums m (Bilateral.kernelOf m heap bl) bl.sigmar 2
            (Bilateral.preimageOf heap src (Y * (src.Y.width + (2 * 2 + 1) - 1) + X))
            (fun k => Bilateral.preimageOf heap src
              (Y * (src.Y.width + (2 * 2 + 1) - 1) + X + k))).2 ∧
      Bilateral.tempimageOf m heap bl src (Y * (src.Y.width + (2 * 2 + 1) - 1) + X)
        = (Bilateral.tapSums m (Bilateral.kernelOf m heap bl) bl.sigmar 2
            (Bilateral.preimageOf heap src (Y * (src.Y.width + (2 * 2 + 1) - 1) + X))
            (fun k => Bilateral.preimageOf heap src
              (Y * (src.Y.width + (2 * 2 + 1) - 1) + X + k))).1
          / (Bilateral.tapSums m (Bilateral.kernelOf m heap bl) bl.sigmar 2
            (Bilateral.preimageOf heap src (Y * (src.Y.width + (2 * 2 + 1) - 1) + X))
            (fun k => Bilateral.preimageOf heap src
              (Y * (src.Y.width + (2 * 2 + 1) - 1) + X + k))).2 ∧
      ∃ k1 ∈ Finset.Icc (-2 : Int) 2, ∃ k2 ∈ Finset.Icc (-2 : Int) 2,
        Bilateral.preimageOf heap src (Y * (src.Y.width + (2 * 2 + 1) - 1) + X + k1)
          ≤ Bilateral.tempimageOf m heap bl src (Y * (src.Y.width + (2 * 2 + 1) - 1) + X) ∧
        Bilateral.tempimageOf m heap bl src (Y * (src.Y.width + (2 * 2 + 1) - 1) + X)
          ≤ Bilateral.preimageOf heap src (Y * (src.Y.width + (2 * 2 + 1) - 1) + X + k2)) ∧
    (∀ X Y : Int, 2 ≤ X ∧ X < src.Y.width + (2 * 2 + 1) - 1 - 2 →
      2 ≤ Y ∧ Y < src.Y.height + (2 * 2 + 1) - 1 - 2 →
      1 ≤ (Bilateral.tapSums m (Bilateral.kernelOf m heap bl) bl.sigmar 2
            (Bilateral.tempimageOf m heap bl src (Y * (src.Y.width + (2 * 2 + 1) - 1) + X))
            (fun k => Bilateral.tempimageOf m heap bl src
              ((Y + k) * (src.Y.width + (2 * 2 + 1) - 1) + X))).2 ∧
      Bilateral.convolved m heap bl src (Y * (src.Y.width + (2 * 2 + 1) - 1) + X)
        = (Bilateral.tapSums m (Bilateral.kernelOf m heap bl) bl.sigmar 2
            (Bilateral.tempimageOf m heap bl src (Y * (src.Y.width + (2 * 2 + 1) - 1) + X))
            (fun k => Bilateral.tempimageOf m heap bl src
              ((Y + k) * (src.Y.width + (2 * 2 + 1) - 1) + X))).1
          / (Bilateral.tapSums m (Bilateral.kernelOf m heap bl) bl.sigmar 2
            (Bilateral.tempimageOf m heap bl src (Y * (src.Y.width + (2 * 2 + 1) - 1) + X))
            (fun k => Bilateral.tempimageOf m heap bl src
              ((Y + k) * (src.Y.width + (2 * 2 + 1) - 1) + X))).2 ∧
      ∃ k1 ∈ Finset.Icc (-2 : Int) 2, ∃ k2 ∈ Finset.Icc (-2 : Int) 2,
        Bilateral.tempimageOf m heap bl src ((Y + k1) * (src.Y.width + (2 * 2 + 1) - 1) + X)
          ≤ Bilateral.convolved m heap bl src (Y * (src.Y.width + (2 * 2 + 1) - 1) + X) ∧
        Bilateral.convolved m heap bl src (Y * (src.Y.width + (2 * 2 + 1) - 1) + X)
          ≤ Bilateral.tempimageOf m heap bl src
              ((Y + k2) * (src.Y.width + (2 * 2 + 1) - 1) + X)) ∧
    (∀ x y : Int, 0 ≤ x ∧ x < src.Y.width → 0 ≤ y ∧ y < src.Y.height →
      (0 ≤ Bilateral.convolved m heap bl src
            ((y + 2) * (src.Y.width + (2 * 2 + 1) - 1) + x + 2) ∧
        Bilateral.convolved m heap bl src
            ((y + 2) * (src.Y.width + (2 * 2 + 1) - 1) + x + 2) ≤ 255) ∧
      (Bilateral.gst_bilateral_filter_convolution m heap bl dest src).Y.data
          (y * dest.Y.stride + x)
        = toByte (Bilateral.convolved m heap bl src
            ((y + 2) * (src.Y.width + (2 * 2 + 1) - 1) + x + 2)) ∧
      ∃ b : Nat, b ≤ 255 ∧
        (Bilateral.gst_bilateral_filter_convolution m heap bl dest src).Y.data
          (y * dest.Y.stride + x) = some b) := by
  obtain ⟨hk, hk0⟩ := Bilateral.kernelOf_props m hexp0 hexp heap bl
  -- the x-dim sweep
  have hA : ∀ X Y : Int, 2 ≤ X ∧ X < src.Y.width + (2 * 2 + 1) - 1 - 2 →
      0 ≤ Y ∧ Y < src.Y.height + (2 * 2 + 1) - 1 →
      Bilateral.tempimageOf m heap bl src (Y * (src.Y.width + (2 * 2 + 1) - 1) + X)
        = Bilateral.tapLoop m (Bilateral.kernelOf m heap bl) bl.sigmar 2
            (Bilateral.preimageOf heap src (Y * (src.Y.width + (2 * 2 + 1) - 1) + X))
            (fun k => Bilateral.preimageOf heap src
              (Y * (src.Y.width + (2 * 2 + 1) - 1) + X + k)) := by
    intro X Y hX hY
    unfold Bilateral.tempimageOf
    rw [Bilateral.bilateral_xsweep_cell m _ _ _ _ 2 _ _ (by decide) X Y hX hY]
  have hAb : ∀ X Y : Int, 2 ≤ X ∧ X < src.Y.width + (2 * 2 + 1) - 1 - 2 →
      0 ≤ Y ∧ Y < src.Y.height + (2 * 2 + 1) - 1 →
      0 ≤ Bilateral.tempimageOf m heap bl src (Y * (src.Y.width + (2 * 2 + 1) - 1) + X) ∧
        Bilateral.tempimageOf m heap bl src (Y * (src.Y.width + (2 * 2 + 1) - 1) + X)
          ≤ 255 := by
    intro X Y hX hY
    obtain ⟨_, _, k1, hk1, k2, hk2, h1, h2⟩ := Bilateral.tapLoop_bounds m hexp0 hexp
      (Bilateral.kernelOf m heap bl) 2 (by decide) hk hk0 bl.sigmar
      (Bilateral.preimageOf heap src (Y * (src.Y.width + (2 * 2 + 1) - 1) + X))
      (fun k => Bilateral.preimageOf heap src
        (Y * (src.Y.width + (2 * 2 + 1) - 1) + X + k)) (by simp only [add_zero])
    rw [Finset.mem_Icc] at hk1 hk2
    rw [hA X Y hX hY]
    have hp1 := Bilateral.preimageOf_range (K := K) heap src hbyte (X + k1) Y (by omega) hY
    have hp2 := Bilateral.preimageOf_range (K := K) heap src hbyte (X + k2) Y (by omega) hY
    rw [← add_assoc] at hp1 hp2
    exact ⟨le_trans hp1.1 h1, le_trans h2 hp2.2⟩
  -- the y-dim sweep
  have hB : ∀ X Y : Int, 2 ≤ X ∧ X < src.Y.width + (2 * 2 + 1) - 1 - 2 →
      2 ≤ Y ∧ Y < src.Y.height + (2 * 2 + 1) - 1 - 2 →
      Bilateral.convolved m heap bl src (Y * (src.Y.width + (2 * 2 + 1) - 1) + X)
        = Bilateral.tapLoop m (Bilateral.kernelOf m heap bl) bl.sigmar 2
            (Bilateral.tempimageOf m heap bl src (Y * (src.Y.width + (2 * 2 + 1) - 1) + X))
            (fun k => Bilateral.tempimageOf m heap bl src
              ((Y + k) * (src.Y.width + (2 * 2 + 1) - 1) + X)) := by
    intro X Y hX hY
    have hconv : Bilateral.convolved m heap bl src
        = Bilateral.ysweep m (Bilateral.tempimageOf m heap bl src) heap.postimage
            (Bilateral.kernelOf m heap bl) bl.sigmar (2 * 2 + 1)
            (src.Y.width + (2 * 2 + 1) - 1) (src.Y.height + (2 * 2 + 1) - 1) := rfl
    rw [hconv, Bilateral.bilateral_ysweep_cell m _ _ _ _ 2 _ _ (by decide) X Y hX hY]
  have hBb : ∀ X Y : Int, 2 ≤ X ∧ X < src.Y.width + (2 * 2 + 1) - 1 - 2 →
      2 ≤ Y ∧ Y < src.Y.height + (2 * 2 + 1) - 1 - 2 →
      0 ≤ Bilateral.convolved m heap bl src (Y * (src.Y.width + (2 * 2 + 1) - 1) + X) ∧
        Bilateral.convolved m heap bl src (Y * (src.Y.width + (2 * 2 + 1) - 1) + X)
          ≤ 255 := by
    intro X Y hX hY
    obtain ⟨_, _, k1, hk1, k2, hk2, h1, h2⟩ := Bilateral.tapLoop_bounds m hexp0 hexp
      (Bilateral.kernelOf m heap bl) 2 (by decide) hk hk0 bl.sigmar
      (Bilateral.tempimageOf m heap bl src (Y * (src.Y.width + (2 * 2 + 1) - 1) + X))
      (fun k => Bilateral.tempimageOf m heap bl src
        ((Y + k) * (src.Y.width + (2 * 2 + 1) - 1) + X)) (by simp only [add_zero])
    rw [Finset.mem_Icc] at hk1 hk2
    rw [hB X Y hX hY]
    exact ⟨le_trans (hAb X (Y + k1) hX (by omega)).1 h1,
      le_trans h2 (hAb X (Y + k2) hX (by omega)).2⟩
  refine ⟨fun c => by rw [hk0, Bilateral.gaussian1d_self, hexp0, mul_one], ?_, ?_, ?_⟩
  · intro X Y hX hY
    obtain ⟨h1, h2, h3⟩ := Bilateral.tapLoop_bounds m hexp0 hexp
      (Bilateral.kernelOf m heap bl) 2 (by decide) hk hk0 bl.sigmar
      (Bilateral.preimageOf heap src (Y * (src.Y.width + (2 * 2 + 1) - 1) + X))
      (fun k => Bilateral.preimageOf heap src
        (Y * (src.Y.width + (2 * 2 + 1) - 1) + X + k)) (by simp only [add_zero])
    rw [← hA X Y hX hY] at h2 h3
    exact ⟨h1, h2, h3⟩
  · intro X Y hX hY
    obtain ⟨h1, h2, h3⟩ := Bilateral.tapLoop_bounds m hexp0 hexp
      (Bilateral.kernelOf m heap bl) 2 (by decide) hk hk0 bl.sigmar
      (Bilateral.tempimageOf m heap bl src (Y * (src.Y.width + (2 * 2 + 1) - 1) + X))
      (fun k => Bilateral.tempimageOf m heap bl src
        ((Y + k) * (src.Y.width + (2 * 2 + 1) - 1) + X)) (by simp only [add_zero])
    rw [← hB X Y hX hY] at h2 h3
    exact ⟨h1, h2, h3⟩
  · intro x y hx hy
    have hrange := hBb (x + 2) (y + 2) (by omega) (by omega)
    rw [← add_assoc] at hrange
    have hout : (Bilateral.gst_bilateral_filter_convolution m heap bl dest src).Y.data
        (y * dest.Y.stride + x)
        = toByte (Bilateral.convolved m heap bl src
            ((y + 2) * (src.Y.width + (2 * 2 + 1) - 1) + x + 2)) := by
      simp only [Bilateral.gst_bilateral_filter_convolution, hon]
      simp only [Bool.not_true, Bool.false_eq_true, if_false]
      rw [Bilateral.bilateral_writeLuma_cell _ _ _ _ _ _ _ _ x y (by omega) (by omega) hstride]
    obtain ⟨b, hb, hbyte2⟩ := toByte_of_range _ hrange.1 hrange.2
    exact ⟨hrange, hout, b, hb, by rw [hout, hbyte2]⟩

/-- Witness of C17: a 5x5 plane of value 200 with `sigmad = 2`, `sigmar = 25` on the rational
stand-in of the maths library: the value converted for the corner sample `(0, 0)` lies in
`[0, 255]`. -/
theorem bilateral_output_in_byte_range_witness :
    0 ≤ Bilateral.convolved ratLibm (zeroScratch ℚ) ⟨2, 25, true⟩ (flatFrame Nat 200 0 0 5 5)
        ((0 + 2) * ((flatFrame Nat 200 0 0 5 5).Y.width + (2 * 2 + 1) - 1) + 0 + 2) ∧
    Bilateral.convolved ratLibm (zeroScratch ℚ) ⟨2, 25, true⟩ (flatFrame Nat 200 0 0 5 5)
        ((0 + 2) * ((flatFrame Nat 200 0 0 5 5).Y.width + (2 * 2 + 1) - 1) + 0 + 2) ≤ 255 :=
  ((bilateral_output_in_byte_range ratLibm (by norm_num [ratLibm])
      (fun t => by unfold ratLibm; positivity) (zeroScratch ℚ) ⟨2, 25, true⟩ rfl
      (by norm_num) (by norm_num) (flatFrame (Option Nat) none none none 5 5)
      (flatFrame Nat 200 0 0 5 5) (fun _ => show (200 : Nat) ≤ 255 by decide) rfl rfl
      (by decide)).2.2.2 0 0
      (by decide) (by decide)).1

/-- C13 (blur key-press transition table): for key "+", `keypress_handler` maps `(sigma, 0)`
to `(0.5, +1)`, `(sigma, +1)` to `(sigma + 0.5, +1)`, `(0.5, -1)` to `(0.0, 0)` and
`(sigma, -1)` with `sigma ≠ 0.5` to `(sigma - 0.5, -1)`; for key "-" the mirror image with
`+1` and `-1` exchanged; any other key leaves the state unchanged.  From the initial state
`(0.0, 0)` one "+" gives `(0.5, +1)`, a second "+" gives `(1.0, +1)`, and from `(0.5, +1)`
one "-" gives `(0.0, 0)`. -/
theorem keypress_transition_table {K : Type} [LinearOrderedField K] (sigma : K) :
    ((Blur.keypress_handler ⟨sigma, 0⟩ "+").1 = ⟨1 / 2, 1⟩ ∧
      (Blur.keypress_handler ⟨sigma, 1⟩ "+").1 = ⟨sigma + 1 / 2, 1⟩ ∧
      (Blur.keypress_handler (⟨1 / 2, -1⟩ : Blur.GstBlurFilter K) "+").1 = ⟨0, 0⟩ ∧
      (sigma ≠ 1 / 2 → (Blur.keypress_handler ⟨sigma, -1⟩ "+").1 = ⟨sigma - 1 / 2, -1⟩)) ∧
    ((Blur.keypress_handler ⟨sigma, 0⟩ "-").1 = ⟨1 / 2, -1⟩ ∧
      (Blur.keypress_handler ⟨sigma, -1⟩ "-").1 = ⟨sigma + 1 / 2, -1⟩ ∧
      (Blur.keypress_handler (⟨1 / 2, 1⟩ : Blur.GstBlurFilter K) "-").1 = ⟨0, 0⟩ ∧
      (sigma ≠ 1 / 2 → (Blur.keypress_handler ⟨sigma, 1⟩ "-").1 = ⟨sigma - 1 / 2, 1⟩)) ∧
    (∀ (key : String) (st : Blur.GstBlurFilter K), key ≠ "+" → key ≠ "-" →
      (Blur.keypress_handler st key).1 = st) ∧
    ((Blur.keypress_handler (Blur.gst_blur_filter_init K) "+").1 = ⟨1 / 2, 1⟩ ∧
      (Blur.keypress_handler (Blur.keypress_handler (Blur.gst_blur_filter_init K) "+").1 "+").1
        = ⟨1, 1⟩ ∧
      (Blur.keypress_handler (⟨1 / 2, 1⟩ : Blur.GstBlurFilter K) "-").1 = ⟨0, 0⟩) := by
  refine ⟨⟨?_, ?_, ?_, ?_⟩, ⟨?_, ?_, ?_, ?_⟩, ?_, ⟨?_, ?_, ?_⟩⟩
  · simp [Blur.keypress_plus]
  · simp [Blur.keypress_plus]
  · simp [Blur.keypress_plus]
  · intro hne
    have hne2 : ¬ sigma = 2⁻¹ := by simpa using hne
    simp [Blur.keypress_plus, hne2]
  · simp [Blur.keypress_minus]
  · simp [Blur.keypress_minus]
  · simp [Blur.keypress_minus]
  · intro hne
    have hne2 : ¬ sigma = 2⁻¹ := by simpa using hne
    simp [Blur.keypress_minus, hne2]
  · intro key st h1 h2
    rw [Blur.keypress_other st key h1 h2]
  · simp [Blur.keypress_plus, Blur.gst_blur_filter_init]
  · have hhalf2 : (2⁻¹ : K) + 2⁻¹ = 1 := by norm_num
    simp [Blur.keypress_plus, Blur.gst_blur_filter_init, hhalf2]
  · simp [Blur.keypress_minus]

/-- Witness of C13: the low-pass state of `sigma = 2` under "+", the high-pass state of
`sigma = 2` under "-", and a key that is neither "+" nor "-". -/
theorem keypress_transition_table_witness :
    (Blur.keypress_handler (⟨2, -1⟩ : Blur.GstBlurFilter ℚ) "+").1 = ⟨2 - 1 / 2, -1⟩ ∧
    (Blur.keypress_handler (⟨2, 1⟩ : Blur.GstBlurFilter ℚ) "-").1 = ⟨2 - 1 / 2, 1⟩ ∧
    (Blur.keypress_handler (⟨2, 1⟩ : Blur.GstBlurFilter ℚ) "a").1 = ⟨2, 1⟩ :=
  ⟨(keypress_transition_table (2 : ℚ)).1.2.2.2 (by norm_num),
   (keypress_transition_table (2 : ℚ)).2.1.2.2.2 (by norm_num),
   (keypress_transition_table (2 : ℚ)).2.2.1 "a" ⟨2, 1⟩ (by decide) (by decide)⟩

/-- C14 (evaluation of the code at the failing input): the state `(100.0, +1)` satisfies the
parameter contract and is reached from the initial state by 200 presses of "+"; one more "+"
gives `sigma = 100.5`, above the bound 100.0.  Likewise the state `(0.2, -1)`, within the
contract, is sent by "+" to `sigma = -0.3`, below the bound 0.0. -/
theorem keypress_breaks_sigma_bounds :
    Blur.keypresses (List.replicate 200 "+") (Blur.gst_blur_filter_init ℚ) = ⟨100, 1⟩ ∧
    (Blur.keypress_handler (⟨100, 1⟩ : Blur.GstBlurFilter ℚ) "+").1 = ⟨201 / 2, 1⟩ ∧
    ¬ ((201 / 2 : ℚ) ≤ 100) ∧
    (Blur.keypress_handler (⟨1 / 5, -1⟩ : Blur.GstBlurFilter ℚ) "+").1 = ⟨-3 / 10, -1⟩ ∧
    ¬ ((0 : ℚ) ≤ -3 / 10) := by
  refine ⟨?_, ?_, by norm_num, ?_, by norm_num⟩
  · rw [Blur.keypresses_plus 199]
    norm_num
  · rw [Blur.keypress_plus, if_neg (by decide), if_pos rfl]
    norm_num
  · have hne : ¬ ((1 / 5 : ℚ) = 1 / 2) := by norm_num
    rw [Blur.keypress_plus, if_neg (by decide), if_neg (by decide),
      if_neg (fun h => hne h.2), if_pos rfl]
    norm_num

/-- C16 (reachable-state invariant of the blur key-press machine): every state reached from
the initial state `(0.0, 0)` by a finite sequence of key presses has mode in `{-1, 0, 1}`,
`sigma` a natural multiple of `0.5`, and mode `0` exactly when `sigma = 0`; when a filter is
active `sigma ≥ 0.5` and the kernel radius `trunc (2 * sigma)` is at least 1; and no key press
on such a state prints "We should not have come here..". -/
theorem keypress_reachable_invariant {K : Type} [LinearOrderedField K] [FloorRing K]
    (keys : List String) :
    ((Blur.keypresses keys (Blur.gst_blur_filter_init K)).filtering = -1 ∨
      (Blur.keypresses keys (Blur.gst_blur_filter_init K)).filtering = 0 ∨
      (Blur.keypresses keys (Blur.gst_blur_filter_init K)).filtering = 1) ∧
    (∃ n : Nat, (Blur.keypresses keys (Blur.gst_blur_filter_init K)).sigma
      = (n : K) * (1 / 2)) ∧
    ((Blur.keypresses keys (Blur.gst_blur_filter_init K)).filtering = 0 ↔
      (Blur.keypresses keys (Blur.gst_blur_filter_init K)).sigma = 0) ∧
    ((Blur.keypresses keys (Blur.gst_blur_filter_init K)).filtering ≠ 0 →
      1 / 2 ≤ (Blur.keypresses keys (Blur.gst_blur_filter_init K)).sigma ∧
      1 ≤ truncInt (2 * (Blur.keypresses keys (Blur.gst_blur_filter_init K)).sigma)) ∧
    (∀ key : String, Blur.Print.shouldNotHaveComeHere ∉
      (Blur.keypress_handler (Blur.keypresses keys (Blur.gst_blur_filter_init K)) key).2) := by
  obtain ⟨n, hs, hcase⟩ := Blur.keyInvariant_keypresses keys _ (Blur.keyInvariant_init (K := K))
  generalize Blur.keypresses keys (Blur.gst_blur_filter_init K) = st at hs hcase ⊢
  have hmode : st.filtering = -1 ∨ st.filtering = 0 ∨ st.filtering = 1 := by
    rcases hcase with ⟨hf, _⟩ | ⟨hf | hf, _⟩
    · exact Or.inr (Or.inl hf)
    · exact Or.inr (Or.inr hf)
    · exact Or.inl hf
  refine ⟨hmode, ⟨n, hs⟩, ?_, ?_, ?_⟩
  · constructor
    · intro hf
      rcases hcase with ⟨_, hn⟩ | ⟨hf2, _⟩
      · rw [hs, hn]
        simp
      · rcases hf2 with hf2 | hf2 <;> rw [hf2] at hf <;> exact absurd hf (by decide)
    · intro h0
      rcases hcase with ⟨hf, _⟩ | ⟨_, hn⟩
      · exact hf
      · rw [hs] at h0
        have hn0 : (n : K) = 0 := by linarith
        have : n = 0 := by exact_mod_cast hn0
        omega
  · intro hf
    rcases hcase with ⟨hf0, _⟩ | ⟨_, hn⟩
    · exact absurd hf0 hf
    · have hn1 : (1 : K) ≤ (n : K) := by exact_mod_cast hn
      have h2 : 2 * st.sigma = (n : K) := by rw [hs]; ring
      refine ⟨by rw [hs]; linarith, ?_⟩
      unfold truncInt
      rw [h2, if_pos (Nat.cast_nonneg n), Int.floor_natCast]
      exact_mod_cast hn
  · intro key hmem
    obtain ⟨h0, h1, hm⟩ := Blur.shouldNotHaveComeHere_mem st key hmem
    rcases hmode with h | h | h
    · exact hm h
    · exact h0 h
    · exact h1 h

/-- Witness of C16: after two presses of "+" the filter is active, so `sigma ≥ 0.5` and the
kernel radius is at least 1. -/
theorem keypress_reachable_invariant_witness :
    1 / 2 ≤ (Blur.keypresses ["+", "+"] (Blur.gst_blur_filter_init ℚ)).sigma ∧
    1 ≤ truncInt (2 * (Blur.keypresses ["+", "+"] (Blur.gst_blur_filter_init ℚ)).sigma) :=
  (keypress_reachable_invariant (K := ℚ) ["+", "+"]).2.2.2.1
    (by simp [Blur.keypresses, Blur.keypress_plus, Blur.gst_blur_filter_init])

/-- C11 (kernel symmetry): for every `sigma > 0`, the kernel built by the blur filter
(radius `trunc (2 * sigma)`, size `2 * radius + 1`) and the domain kernel built by the
bilateral filter (radius 2, size 5) satisfy `kernel[i] = kernel[kernelSize - 1 - i]` for
every index `0 ≤ i < kernelSize`. -/
theorem kernel_symmetry {K : Type} [LinearOrderedField K] [FloorRing K] (m : Libm K)
    (sigma : K) (_hsigma : 0 < sigma) (k0 : Int → K) (i : Int) :
    (0 ≤ i ∧ i < 2 * truncInt (2 * sigma) + 1 →
      (Blur.buildKernel m sigma (truncInt (2 * sigma)) (2 * truncInt (2 * sigma) + 1) k0).1 i
        = (Blur.buildKernel m sigma (truncInt (2 * sigma)) (2 * truncInt (2 * sigma) + 1)
            k0).1 (2 * truncInt (2 * sigma) + 1 - 1 - i)) ∧
    (0 ≤ i ∧ i < 2 * 2 + 1 →
      Bilateral.buildKernel m sigma 2 (2 * 2 + 1) k0 i
        = Bilateral.buildKernel m sigma 2 (2 * 2 + 1) k0 (2 * 2 + 1 - 1 - i)) := by
  constructor
  · intro hi
    rw [Blur.buildKernel_fst m sigma _ _ k0 i hi,
      Blur.buildKernel_fst m sigma _ _ k0 _ (by omega),
      show 2 * truncInt (2 * sigma) + 1 - 1 - i - truncInt (2 * sigma)
        = -(i - truncInt (2 * sigma)) by ring,
      Blur.gaussian1d_neg]
  · intro hi
    rw [Bilateral.buildKernel_cell m sigma 2 _ k0 i hi,
      Bilateral.buildKernel_cell m sigma 2 _ k0 _ (by omega)]
    unfold Bilateral.gaussian1d
    congr 3
    push_cast
    ring

/-- Witness of C11: `sigma = 1` (blur radius 2), the index 1, mirrored to the index 3. -/
theorem kernel_symmetry_witness :
    (Blur.buildKernel ratLibm 1 (truncInt (2 * (1 : ℚ))) (2 * truncInt (2 * (1 : ℚ)) + 1)
        (fun _ => 0)).1 1
      = (Blur.buildKernel ratLibm 1 (truncInt (2 * (1 : ℚ))) (2 * truncInt (2 * (1 : ℚ)) + 1)
          (fun _ => 0)).1 (2 * truncInt (2 * (1 : ℚ)) + 1 - 1 - 1) ∧
    Bilateral.buildKernel ratLibm 1 2 (2 * 2 + 1) (fun _ => 0) 1
      = Bilateral.buildKernel ratLibm 1 2 (2 * 2 + 1) (fun _ => 0) (2 * 2 + 1 - 1 - 1) :=
  ⟨(kernel_symmetry ratLibm 1 (by norm_num) (fun _ => 0) 1).1
      (by rw [Blur.truncInt_two_mul_one]; decide),
   (kernel_symmetry ratLibm 1 (by norm_num) (fun _ => 0) 1).2 (by decide)⟩

/-- C12, counterexample: with `sigma = 0` and the real `sqrt`, `exp` and `pi`, both divisors
of `gaussian1d` are zero, and the single kernel cell and the kernel weight computed by the
builder are not 1. -/
theorem degenerate_kernel_counterexample :
    Blur.gaussian1dDivisors (⟨Real.exp, Real.sqrt, Real.pi⟩ : Libm ℝ) 0 = (0, 0) ∧
    (Blur.buildKernel (⟨Real.exp, Real.sqrt, Real.pi⟩ : Libm ℝ) 0 (truncInt (2 * (0 : ℝ)))
        (2 * truncInt (2 * (0 : ℝ)) + 1) (zeroScratch ℝ).kernel).1 0 ≠ 1 ∧
    (Blur.buildKernel (⟨Real.exp, Real.sqrt, Real.pi⟩ : Libm ℝ) 0 (truncInt (2 * (0 : ℝ)))
        (2 * truncInt (2 * (0 : ℝ)) + 1) (zeroScratch ℝ).kernel).2 ≠ 1 := by
  have htr : truncInt (2 * (0 : ℝ)) = 0 := by simp [truncInt]
  have hg : Blur.gaussian1d (⟨Real.exp, Real.sqrt, Real.pi⟩ : Libm ℝ) 0 (0 - 0) = 0 := by
    simp [Blur.gaussian1d]
  refine ⟨by simp [Blur.gaussian1dDivisors], ?_, ?_⟩
  · rw [htr, Blur.buildKernel_fst _ _ _ _ _ 0 (by decide), hg]
    norm_num
  · rw [htr, Blur.buildKernel_snd]
    have hI : Finset.Ico (0 : Int) (2 * 0 + 1) = {0} := by decide
    rw [hI, Finset.sum_singleton, hg]
    norm_num

/-- C12, amended (degenerate blur kernel): when `sigma = 0` the blur kernel builder yields
radius 0 and kernel size 1; its single kernel cell, which is also the kernel weight, is
`gaussian1d (0, 0)`, a quotient whose two divisors `sqrt(2*pi)*sigma` and `2*sigma^2` are
both zero. -/
theorem degenerate_kernel {K : Type} [LinearOrderedField K] [FloorRing K] (m : Libm K)
    (k0 : Int → K) :
    truncInt (2 * (0 : K)) = 0 ∧ 2 * truncInt (2 * (0 : K)) + 1 = 1 ∧
    (Blur.buildKernel m 0 (truncInt (2 * (0 : K))) (2 * truncInt (2 * (0 : K)) + 1) k0).1 0
      = Blur.gaussian1d m 0 0 ∧
    (Blur.buildKernel m 0 (truncInt (2 * (0 : K))) (2 * truncInt (2 * (0 : K)) + 1) k0).2
      = Blur.gaussian1d m 0 0 ∧
    Blur.gaussian1dDivisors m 0 = (0, 0) ∧
    (∀ (sigma : K) (x : Int), Blur.gaussian1d m sigma x
      = 1 / (Blur.gaussian1dDivisors m sigma).1
        * m.exp (-((x : K) ^ 2) / (Blur.gaussian1dDivisors m sigma).2)) := by
  have htr : truncInt (2 * (0 : K)) = 0 := by simp [truncInt]
  refine ⟨htr, by rw [htr]; rfl, ?_, ?_, by simp [Blur.gaussian1dDivisors], fun _ _ => rfl⟩
  · rw [htr, Blur.buildKernel_fst _ _ _ _ _ 0 (by decide)]
    rfl
  · rw [htr, Blur.buildKernel_snd]
    have hI : Finset.Ico (0 : Int) (2 * 0 + 1) = {0} := by decide
    rw [hI, Finset.sum_singleton]
    rfl
end ContextVision
